import Mathlib

/-!
Verification of the filter algebra and envelope codec of the `nostr`
package (ice-blockchain/go-nostr).

The Go source is shallowly embedded: Go slices become Lean lists, a Go
`nil` slice or map becomes `Option.none` wherever the code distinguishes
`nil` from empty, `*string` pointees become `Option String` (a nil
pointer is `none`), `Timestamp` becomes `Int`, and a Go map becomes an
association list whose keys are assumed to be pairwise distinct (the
invariant every Go map enjoys).  Functions are translated clause by
clause from `filter.go` and the envelope file.
-/

namespace Nostr

/-- `Timestamp` from the repository: an integer count of seconds. -/
abbrev Timestamp := Int

/-- `Tag` from the repository: an ordered sequence of strings. -/
abbrev Tag := List String

/-- `Tags` from the repository. -/
abbrev Tags := List Tag

/-- Modelled from the spec: `key()` returns element 0 of a tag (tags have
length ≥ 1; an empty tag yields the empty string).  The `Tag.Key`
accessor itself is not part of the provided sources. -/
def Tag.Key (t : Tag) : String := t.headD ""

/-- `Event` from the repository (the fields the filter algebra reads;
the JSON-only fields `Content` and `Sig` are carried for completeness).
Modelled from the spec: the event struct itself is not among the
provided sources, only its callers are. -/
structure Event where
  ID : String
  PubKey : String
  CreatedAt : Timestamp
  Kind : Int
  Tags : Tags
  Content : String
  Sig : String
  deriving Repr, DecidableEq

/-- `TagValues` from `filter.go`: a positional tuple of `*string`
(`none` models a nil pointer, i.e. a wildcard). -/
abbrev TagValues := List (Option String)

/-- `TagMap` from `filter.go` (`map[string][]TagValues`), embedded as an
association list with pairwise-distinct keys. -/
abbrev TagMap := List (String × List TagValues)

/-- Lookup in a `TagMap`, mirroring Go's `m[k]` (a missing key yields
the zero value, the empty list). -/
def TagMap.find (m : TagMap) (k : String) : List TagValues :=
  ((m.find? (fun p => p.1 == k)).map Prod.snd).getD []

/-- Membership test in a `TagMap`, mirroring Go's `_, ok := m[k]`. -/
def TagMap.mem (m : TagMap) (k : String) : Bool :=
  m.any (fun p => p.1 == k)

/-- Deletion from a `TagMap`, mirroring Go's `delete(m, k)`. -/
def TagMap.del (m : TagMap) (k : String) : TagMap :=
  m.filter (fun p => p.1 != k)

/-- The keys of a `TagMap` are pairwise distinct (true of every Go map). -/
def TagMap.KeysNodup (m : TagMap) : Prop :=
  (m.map Prod.fst).Nodup

instance (m : TagMap) : Decidable m.KeysNodup := by
  unfold TagMap.KeysNodup; infer_instance

/-- `Filter` from `filter.go`.  Slice and map fields are `Option`s
because the code distinguishes nil from empty. -/
structure Filter where
  IDs : Option (List String) := none
  Kinds : Option (List Int) := none
  Authors : Option (List String) := none
  Tags : Option TagMap := none
  Since : Option Timestamp := none
  Until : Option Timestamp := none
  Limit : Int := 0
  Search : String := ""
  LimitZero : Bool := false
  deriving Repr, DecidableEq

/-- The filter's tag map as seen by `MatchesIgnoringTimestampConstraints`
(`maps.Clone` of a nil map is nil, and a nil map behaves as empty under
lookup, delete and len). -/
def Filter.tagList (f : Filter) : TagMap := f.Tags.getD []

/-- `Filter.matchesTagSet` from `filter.go` (lines 133–143): walks the
positions of `values`; a nil entry is skipped; a non-nil entry demands
that `tag` still has an element at this position and that it equals the
expected string. -/
def matchesTagSet : (tag : List String) → (values : TagValues) → Bool
  | _, [] => true
  | [], none :: vs => matchesTagSet [] vs
  | [], some _ :: _ => false
  | _ :: ts, none :: vs => matchesTagSet ts vs
  | t :: ts, some v :: vs => t == v && matchesTagSet ts vs

/-- The per-key test the tag loop of
`MatchesIgnoringTimestampConstraints` applies to an event tag
(`hasSetMatch`, lines 180–183): an empty sets list matches
unconditionally, otherwise some set must match the tag's values. -/
def setsOk (sets : List TagValues) (t : Tag) : Bool :=
  sets.isEmpty || sets.any (fun vs => matchesTagSet (t.drop 1) vs)

/-- The body of the event-tag loop of
`Filter.MatchesIgnoringTimestampConstraints` (lines 174–189): iterate
over the event's tags, and for each tag whose key is still wanted,
require `setsOk`; on success consume the key, on failure reject.  At the
end every wanted key must have been consumed. -/
def tagLoop : (want : TagMap) → (eventTags : Tags) → Bool
  | want, [] => want.isEmpty
  | want, tag :: rest =>
    if TagMap.mem want (Tag.Key tag) then
      if setsOk (TagMap.find want (Tag.Key tag)) tag then
        tagLoop (TagMap.del want (Tag.Key tag)) rest
      else false
    else tagLoop want rest

/-- `Filter.MatchesIgnoringTimestampConstraints` from `filter.go`
(lines 157–190).  The event pointer is `Option Event`; a nil event never
matches. -/
def Filter.MatchesIgnoringTimestampConstraints (f : Filter) (event : Option Event) : Bool :=
  match event with
  | none => false
  | some e =>
    (match f.IDs with
     | some ids => ids.contains e.ID
     | none => true) &&
    (match f.Kinds with
     | some kinds => kinds.contains e.Kind
     | none => true) &&
    (match f.Authors with
     | some authors => authors.contains e.PubKey
     | none => true) &&
    tagLoop f.tagList e.Tags

/-- `Filter.Matches` from `filter.go` (lines 117–131). -/
def Filter.Matches (f : Filter) (event : Option Event) : Bool :=
  f.MatchesIgnoringTimestampConstraints event &&
  (match event with
   | none => true
   | some e =>
     (match f.Since with
      | some since => decide (since ≤ e.CreatedAt)
      | none => true) &&
     (match f.Until with
      | some until_ => decide (e.CreatedAt ≤ until_)
      | none => true))

/-- The alternative `Filter.MatchesIgnoringTimestampConstraints` found in
`src/unnamed/part_002` (lines 114–157): its helper `valuesOf` returns the
values (`tag[1:]`) of the first event tag with the given key, or nil. -/
def valuesOf (eventTags : Tags) (name : String) : Option (List String) :=
  (eventTags.find? (fun t => Tag.Key t == name)).map (fun t => t.drop 1)

/-- The per-set check of the `part_002` matcher (lines 145–154): every
non-nil expected value must be present positionally in the event tag's
values.  It performs exactly the comparison of `matchesTagSet`. -/
def setCheck2 (eventTagValues : List String) (vs : TagValues) : Bool :=
  matchesTagSet eventTagValues vs

/-- `Filter.MatchesIgnoringTimestampConstraints` from
`src/unnamed/part_002` (lines 114–157): identical ID/kind/author gates,
but the tag phase requires, for each wanted key, that the first event
tag with that key exists and that **every** set matches it. -/
def Filter.MatchesIgnoringTimestampConstraints2 (f : Filter) (event : Option Event) : Bool :=
  match event with
  | none => false
  | some e =>
    (match f.IDs with
     | some ids => ids.contains e.ID
     | none => true) &&
    (match f.Kinds with
     | some kinds => kinds.contains e.Kind
     | none => true) &&
    (match f.Authors with
     | some authors => authors.contains e.PubKey
     | none => true) &&
    f.tagList.all (fun p =>
      match valuesOf e.Tags p.1 with
      | none => false
      | some etv => p.2.all (fun vs => setCheck2 etv vs))

/-- Modelled from the spec: replaceable kinds are 0, 3, 41 and
10000–19999 (`IsReplaceableKind` is referenced by `filter.go` but its
definition is not among the provided sources). -/
def IsReplaceableKind (kind : Int) : Bool :=
  kind == 0 || kind == 3 || kind == 41 || (10000 ≤ kind && kind ≤ 19999)

/-- Modelled from the spec: addressable kinds are 30000–39999
(`IsAddressableKind` is referenced by `filter.go` but its definition is
not among the provided sources). -/
def IsAddressableKind (kind : Int) : Bool :=
  30000 ≤ kind && kind ≤ 39999

/-- Go's `len` on an optional slice: a nil slice has length 0. -/
def optLen {α} (o : Option (List α)) : Nat := (o.getD []).length

/-- The `dlen` loop of `GetTheoreticalLimit` (lines 316–323): the count
of non-nil values across all `"d"` tag-value sets. -/
def dCount (sets : List TagValues) : Nat :=
  (sets.map (fun vs => (vs.filter (fun v => v.isSome)).length)).sum

/-- `GetTheoreticalLimit` from `filter.go` (lines 286–330), translated
branch by branch. -/
def GetTheoreticalLimit (filter : Filter) : Int :=
  if optLen filter.IDs > 0 then optLen filter.IDs
  else if optLen filter.Kinds = 0 then -1
  else if optLen filter.Authors > 0 then
    if (filter.Kinds.getD []).all IsReplaceableKind then
      optLen filter.Authors * optLen filter.Kinds
    else if (TagMap.find filter.tagList "d").length > 0 then
      if (filter.Kinds.getD []).all IsAddressableKind then
        optLen filter.Authors * optLen filter.Kinds *
          dCount (TagMap.find filter.tagList "d")
      else -1
    else -1
  else -1

/-- Modelled from the spec: `arePointerValuesEqual` (not among the
provided sources) compares two pointers by nil-ness and pointee value. -/
def arePointerValuesEqual {α} [BEq α] (a b : Option α) : Bool :=
  match a, b with
  | none, none => true
  | some x, some y => x == y
  | _, _ => false

/-- Modelled from the spec: `similar` (not among the provided sources)
compares two slices as equal-length sets — same length and every element
of the first occurs in the second (the repository's filter-equality
tests accept reordered `Kinds`). -/
def similar {α} [BEq α] (as bs : List α) : Bool :=
  as.length == bs.length && as.all (fun a => bs.contains a)

/-- The tag-values comparison closure inside `FilterEqual`
(lines 215–225): pointwise `arePointerValuesEqual` on equal lengths. -/
def tagValuesEqual (a b : TagValues) : Bool :=
  a.length == b.length && (a.zip b).all (fun p => arePointerValuesEqual p.1 p.2)

/-- `FilterEqual` from `filter.go` (lines 192–248). -/
def FilterEqual (a b : Filter) : Bool :=
  similar (a.Kinds.getD []) (b.Kinds.getD []) &&
  similar (a.IDs.getD []) (b.IDs.getD []) &&
  similar (a.Authors.getD []) (b.Authors.getD []) &&
  a.tagList.length == b.tagList.length &&
  a.tagList.all (fun p =>
    TagMap.mem b.tagList p.1 &&
    (p.2.length == (TagMap.find b.tagList p.1).length &&
     (p.2.zip (TagMap.find b.tagList p.1)).all (fun q => tagValuesEqual q.1 q.2))) &&
  arePointerValuesEqual a.Since b.Since &&
  arePointerValuesEqual a.Until b.Until &&
  a.Search == b.Search &&
  a.LimitZero == b.LimitZero

/-- `Filter.Clone` from `filter.go` (lines 250–278), at the level of
values: `slices.Clone` preserves nil-ness and contents, the tag map is
rebuilt entry by entry when non-nil, and `Since`/`Until` cells are
copied.  (The aliasing behaviour of `Clone` is studied separately with
an explicit heap.) -/
def Filter.Clone (f : Filter) : Filter :=
  { IDs := f.IDs.map id
    Kinds := f.Kinds.map id
    Authors := f.Authors.map id
    Tags := f.Tags.map (fun m => m.map (fun p => (p.1, p.2)))
    Since := f.Since.map id
    Until := f.Until.map id
    Limit := f.Limit
    Search := f.Search
    LimitZero := f.LimitZero }

/-- The claim's reading of the tag predicate (spec wording, for
comparison with the code): for each filter key, **some** event tag with
that key — not necessarily the first — passes `setsOk`. -/
def claimTagMatch (m : TagMap) (ets : Tags) : Bool :=
  m.all (fun p => ets.any (fun t => Tag.Key t == p.1 && setsOk p.2 t))

section TagLoopLemmas

lemma tagMap_mem_false {m : TagMap} {k : String} (h : TagMap.mem m k = false) :
    ∀ p ∈ m, p.1 ≠ k := by
  intro p hp hk
  have h' : m.any (fun p => p.1 == k) = false := h
  rw [List.any_eq_false] at h'
  exact (h' p hp) (by simp [hk])

lemma tagMap_mem_true {m : TagMap} {k : String} (h : TagMap.mem m k = true) :
    ∃ p ∈ m, p.1 = k := by
  have h' : m.any (fun p => p.1 == k) = true := h
  rw [List.any_eq_true] at h'
  obtain ⟨p, hp, he⟩ := h'
  exact ⟨p, hp, by simpa using he⟩

lemma tagMap_find?_eq_of_nodup {m : TagMap} (hm : m.KeysNodup) {p : String × List TagValues}
    (hp : p ∈ m) : m.find? (fun q => q.1 == p.1) = some p := by
  induction m with
  | nil => cases hp
  | cons q rest ih =>
    rcases List.mem_cons.mp hp with rfl | htail
    · rw [List.find?_cons_of_pos _ (by simp)]
    · have hkeys : q.1 ∉ rest.map Prod.fst := by
        have hm' := hm
        simp only [TagMap.KeysNodup, List.map_cons, List.nodup_cons] at hm'
        exact hm'.1
      have hne : ¬ q.1 = p.1 := by
        intro he
        exact hkeys (he ▸ List.mem_map_of_mem Prod.fst htail)
      have hrest : TagMap.KeysNodup rest := by
        have hm' := hm
        simp only [TagMap.KeysNodup, List.map_cons, List.nodup_cons] at hm'
        exact hm'.2
      rw [List.find?_cons_of_neg _ (by simpa using hne), ih hrest htail]

lemma tagMap_find_eq_of_nodup {m : TagMap} (hm : m.KeysNodup) {p : String × List TagValues}
    (hp : p ∈ m) : TagMap.find m p.1 = p.2 := by
  simp [TagMap.find, tagMap_find?_eq_of_nodup hm hp]

lemma tagMap_mem_del {m : TagMap} {k : String} {p : String × List TagValues} :
    p ∈ TagMap.del m k ↔ p ∈ m ∧ p.1 ≠ k := by
  simp [TagMap.del, List.mem_filter]

lemma tagMap_del_nodup {m : TagMap} (hm : m.KeysNodup) (k : String) :
    (TagMap.del m k).KeysNodup := by
  unfold TagMap.KeysNodup at *
  exact ((List.filter_sublist m).map Prod.fst).nodup hm

/-- Characterization of the event-tag loop: with distinct wanted keys,
the loop accepts iff every wanted key has a **first** event tag carrying
it, and that first tag passes `setsOk`. -/
lemma tagLoop_iff (ets : Tags) : ∀ (want : TagMap), want.KeysNodup →
    (tagLoop want ets = true ↔
      ∀ p ∈ want, ∃ t, ets.find? (fun t => Tag.Key t == p.1) = some t ∧ setsOk p.2 t = true) := by
  induction ets with
  | nil =>
    intro want _
    simp only [tagLoop, List.find?_nil]
    constructor
    · intro h p hp
      rw [List.isEmpty_iff] at h
      subst h; cases hp
    · intro h
      rw [List.isEmpty_iff]
      cases want with
      | nil => rfl
      | cons p rest =>
        obtain ⟨t, ht, _⟩ := h p (List.mem_cons_self p rest)
        cases ht
  | cons tag rest ih =>
    intro want hnd
    by_cases hmem : TagMap.mem want (Tag.Key tag) = true
    · obtain ⟨p₀, hp₀, hk₀⟩ := tagMap_mem_true hmem
      have hfind : TagMap.find want (Tag.Key tag) = p₀.2 :=
        hk₀ ▸ tagMap_find_eq_of_nodup hnd hp₀
      by_cases hset : setsOk p₀.2 tag = true
      · have hloop : tagLoop want (tag :: rest) =
            tagLoop (TagMap.del want (Tag.Key tag)) rest := by
          simp only [tagLoop, hmem, if_true, hfind]
          rw [if_pos hset]
        rw [hloop, ih _ (tagMap_del_nodup hnd _)]
        constructor
        · intro h p hp
          by_cases hpk : p.1 = Tag.Key tag
          · have hpp : p = p₀ := by
              have h1 := tagMap_find?_eq_of_nodup hnd hp
              have h2 := tagMap_find?_eq_of_nodup hnd hp₀
              rw [hpk, ← hk₀] at h1
              rw [h1] at h2
              exact Option.some.inj h2
            subst hpp
            refine ⟨tag, ?_, hset⟩
            rw [List.find?_cons_of_pos _ (by simp [hpk])]
          · obtain ⟨t, ht, hok⟩ := h p (tagMap_mem_del.mpr ⟨hp, hpk⟩)
            refine ⟨t, ?_, hok⟩
            rw [List.find?_cons_of_neg _ (by simpa using Ne.symm hpk)]
            exact ht
        · intro h p hp
          obtain ⟨hpw, hpk⟩ := tagMap_mem_del.mp hp
          obtain ⟨t, ht, hok⟩ := h p hpw
          rw [List.find?_cons_of_neg _ (by simpa using Ne.symm hpk)] at ht
          exact ⟨t, ht, hok⟩
      · have hloop : tagLoop want (tag :: rest) = false := by
          simp only [tagLoop, hmem, if_true, hfind]
          rw [if_neg hset]
        rw [hloop]
        constructor
        · intro h; simp at h
        · intro h
          obtain ⟨t, ht, hok⟩ := h p₀ hp₀
          rw [hk₀, List.find?_cons_of_pos _ (by simp)] at ht
          cases ht
          exact absurd hok hset
    · have hmem' : TagMap.mem want (Tag.Key tag) = false := by
        simpa using hmem
      have hloop : tagLoop want (tag :: rest) = tagLoop want rest := by
        simp [tagLoop, hmem']
      rw [hloop, ih _ hnd]
      have hkeys := tagMap_mem_false hmem'
      constructor
      · intro h p hp
        obtain ⟨t, ht, hok⟩ := h p hp
        refine ⟨t, ?_, hok⟩
        rw [List.find?_cons_of_neg _ (by simpa using Ne.symm (hkeys p hp))]
        exact ht
      · intro h p hp
        obtain ⟨t, ht, hok⟩ := h p hp
        rw [List.find?_cons_of_neg _ (by simpa using Ne.symm (hkeys p hp))] at ht
        exact ⟨t, ht, hok⟩

end TagLoopLemmas

section MatchesTagSetLemmas

lemma matchesTagSet_iff : ∀ (vs : TagValues) (tag : List String),
    matchesTagSet tag vs = true ↔
      ∀ i v, vs.get? i = some (some v) → tag.get? i = some v := by
  intro vs
  induction vs with
  | nil => intro tag; simp [matchesTagSet]
  | cons v vs' ih =>
    intro tag
    cases tag with
    | nil =>
      cases v with
      | none =>
        simp only [matchesTagSet]
        rw [ih []]
        constructor
        · rintro h (_ | i) w hw
          · simp at hw
          · simp only [List.get?_cons_succ] at hw
            exact h i w hw
        · intro h i w hw
          exact h (i + 1) w (by simpa using hw)
      | some s =>
        simp only [matchesTagSet]
        constructor
        · intro h; simp at h
        · intro h
          have h0 := h 0 s (by simp)
          simp at h0
    | cons t ts =>
      cases v with
      | none =>
        simp only [matchesTagSet]
        rw [ih ts]
        constructor
        · rintro h (_ | i) w hw
          · simp at hw
          · simp only [List.get?_cons_succ] at hw
            simpa using h i w hw
        · intro h i w hw
          exact h (i + 1) w (by simpa using hw)
      | some s =>
        simp only [matchesTagSet, Bool.and_eq_true, beq_iff_eq]
        rw [ih ts]
        constructor
        · rintro ⟨rfl, h⟩ (_ | i) w hw
          · simp at hw; subst hw; simp
          · simpa using h i w (by simpa using hw)
        · intro h
          refine ⟨?_, fun i w hw => by simpa using h (i + 1) w (by simpa using hw)⟩
          have h0 := h 0 s (by simp)
          simpa using h0

end MatchesTagSetLemmas

/-- C4: a tag-value set matches an event tag iff every non-nil entry at
position `i` is mirrored by the tag's element at position `i+1`; nil
entries constrain nothing.  In particular the filter
`{"e": [["1","2","3","4"]]}` rejects an event whose only `e` tag is
`["e","1","2","3"]` because the expected value at the fourth position is
missing. -/
theorem C4_tag_set_semantics :
    (∀ (s : TagValues) (t : Tag),
      matchesTagSet (t.drop 1) s = true ↔
        ∀ i v, s.get? i = some (some v) → t.get? (i + 1) = some v) ∧
    Filter.Matches
      { Tags := some [("e", [[some "1", some "2", some "3", some "4"]])] }
      (some ⟨"", "", 0, 0, [["e", "1", "2", "3"]], "", ""⟩) = false := by
  constructor
  · intro s t
    rw [matchesTagSet_iff]
    have hdrop : ∀ i, (t.drop 1).get? i = t.get? (1 + i) := fun i => List.get?_drop t 1 i
    constructor
    · intro h i v hv
      have := h i v hv
      rw [hdrop i] at this
      simpa [Nat.add_comm] using this
    · intro h i v hv
      rw [hdrop i]
      simpa [Nat.add_comm] using h i v hv
  · decide

/-- C1 (counterexample): for the all-nil filter with tags
`{"e": [["2"]]}` and the event with tags `[["e","1"],["e","2"]]`, the
claim's existential tag predicate holds (the second `e` tag matches) yet
`Matches` returns false — the matcher only consults the first event tag
carrying each key. -/
theorem C1_counterexample :
    ¬ (Filter.Matches { Tags := some [("e", [[some "2"]])] }
         (some ⟨"", "", 0, 0, [["e", "1"], ["e", "2"]], "", ""⟩) = true ↔
       claimTagMatch [("e", [[some "2"]])] [["e", "1"], ["e", "2"]] = true) := by
  decide

/-- C1 (amended): for every filter whose IDs, Kinds, Authors, Since and
Until are all nil and every non-nil event, `Matches` returns true iff
for each tag key present in the filter's tag map the event contains at
least one tag with that key **and the first such tag** matches at least
one of that key's tag-value sets (a key mapped to an empty sets list is
matched by the mere presence of a tag with that key). -/
theorem C1_matches_first_tag_semantics (f : Filter) (e : Event)
    (hids : f.IDs = none) (hkinds : f.Kinds = none) (hauthors : f.Authors = none)
    (hsince : f.Since = none) (huntil : f.Until = none)
    (hnd : f.tagList.KeysNodup) :
    f.Matches (some e) = true ↔
      ∀ p ∈ f.tagList, ∃ t, e.Tags.find? (fun t => Tag.Key t == p.1) = some t ∧
        setsOk p.2 t = true := by
  unfold Filter.Matches Filter.MatchesIgnoringTimestampConstraints
  rw [hids, hkinds, hauthors, hsince, huntil]
  simp only [Bool.true_and, Bool.and_true]
  exact tagLoop_iff e.Tags f.tagList hnd

/-- Witness for C1 (amended) at a concrete filter and event. -/
theorem C1_witness :
    Filter.Matches { Tags := some [("e", [[some "2"]])] }
        (some ⟨"", "", 0, 0, [["e", "2", "x"]], "", ""⟩) = true := by
  rw [C1_matches_first_tag_semantics _ _ rfl rfl rfl rfl rfl (by decide)]
  decide

/-- The claim's formula for `GetTheoreticalLimit` (spec wording, for
comparison with the code): the addressable branch demands at least one
non-nil `"d"` value. -/
def claimTheoreticalLimit (f : Filter) : Int :=
  if optLen f.IDs > 0 then optLen f.IDs
  else if optLen f.Kinds = 0 then -1
  else if optLen f.Authors > 0 ∧ (f.Kinds.getD []).all IsReplaceableKind then
    optLen f.Authors * optLen f.Kinds
  else if optLen f.Authors > 0 ∧ (f.Kinds.getD []).all IsAddressableKind ∧
      dCount (TagMap.find f.tagList "d") > 0 then
    optLen f.Authors * optLen f.Kinds * dCount (TagMap.find f.tagList "d")
  else -1

/-- The amended formula: the addressable branch is guarded by the
presence of at least one `"d"` tag-value set (`len(filter.Tags["d"]) >
0`), not by the presence of a non-nil value, so the product — possibly
zero — is returned even when every `"d"` value is nil. -/
def claimTheoreticalLimitAmended (f : Filter) : Int :=
  if optLen f.IDs > 0 then optLen f.IDs
  else if optLen f.Kinds = 0 then -1
  else if optLen f.Authors > 0 ∧ (f.Kinds.getD []).all IsReplaceableKind then
    optLen f.Authors * optLen f.Kinds
  else if optLen f.Authors > 0 ∧ (f.Kinds.getD []).all IsAddressableKind ∧
      (TagMap.find f.tagList "d").length > 0 then
    optLen f.Authors * optLen f.Kinds * dCount (TagMap.find f.tagList "d")
  else -1

/-- C3 (counterexample): for the filter `{authors:["a"], kinds:[30000],
tags:{"d":[[nil]]}}` the code returns `1*1*0 = 0` while the claim's
formula returns -1 (no non-nil `"d"` value). -/
theorem C3_counterexample :
    ¬ (GetTheoreticalLimit
         { Authors := some ["a"], Kinds := some [30000], Tags := some [("d", [[none]])] } =
       claimTheoreticalLimit
         { Authors := some ["a"], Kinds := some [30000], Tags := some [("d", [[none]])] }) := by
  decide

/-- C3 (amended): `GetTheoreticalLimit` returns `len(IDs)` when IDs is
non-empty; otherwise -1 when Kinds is empty; otherwise
`len(Authors)*len(Kinds)` when Authors is non-empty and every kind is
replaceable; otherwise, when Authors is non-empty, every kind is
addressable and the `"d"` entry has at least one tag-value set,
`len(Authors)*len(Kinds)*(count of non-nil "d" values)` — zero when all
`"d"` values are nil; otherwise -1. -/
theorem C3_theoretical_limit_amended (f : Filter) :
    GetTheoreticalLimit f = claimTheoreticalLimitAmended f := by
  unfold GetTheoreticalLimit claimTheoreticalLimitAmended
  by_cases h1 : optLen f.IDs > 0
  · simp [h1]
  · simp only [h1, if_false]
    by_cases h2 : optLen f.Kinds = 0
    · simp [h2]
    · simp only [h2, if_false]
      by_cases h3 : optLen f.Authors > 0
      · by_cases h4 : (f.Kinds.getD []).all IsReplaceableKind
        · simp [h3, h4]
        · simp only [h3, h4, if_true, if_false, Bool.false_eq_true, and_false, false_and,
            and_true, true_and]
          by_cases h5 : (TagMap.find f.tagList "d").length > 0
          · by_cases h6 : (f.Kinds.getD []).all IsAddressableKind
            · simp [h5, h6]
            · simp [h5, h6]
          · simp [h5]
      · simp [h3]

/-- C5: a successful `Matches` implies each enabled predicate
independently: ID membership, kind membership, author membership, the
closed `[Since, Until]` interval, and the tag loop. -/
theorem C5_matches_implies_predicates (f : Filter) (e : Event)
    (h : f.Matches (some e) = true) :
    (∀ ids, f.IDs = some ids → ids.contains e.ID = true) ∧
    (∀ kinds, f.Kinds = some kinds → kinds.contains e.Kind = true) ∧
    (∀ authors, f.Authors = some authors → authors.contains e.PubKey = true) ∧
    (∀ since, f.Since = some since → since ≤ e.CreatedAt) ∧
    (∀ u, f.Until = some u → e.CreatedAt ≤ u) ∧
    tagLoop f.tagList e.Tags = true := by
  unfold Filter.Matches Filter.MatchesIgnoringTimestampConstraints at h
  simp only [Bool.and_eq_true] at h
  obtain ⟨⟨⟨⟨hid, hkind⟩, hauth⟩, htags⟩, hsince, huntil⟩ := h
  refine ⟨?_, ?_, ?_, ?_, ?_, htags⟩
  · intro ids hids; rw [hids] at hid; exact hid
  · intro kinds hkinds; rw [hkinds] at hkind; exact hkind
  · intro authors hauthors; rw [hauthors] at hauth; exact hauth
  · intro since hs; rw [hs] at hsince; exact of_decide_eq_true hsince
  · intro u hu; rw [hu] at huntil; exact of_decide_eq_true huntil

/-- Witness for C5 at a concrete filter and event. -/
theorem C5_witness :
    (["i"].contains "i" = true) ∧ ((3 : Int) ≤ 5) := by
  have h := C5_matches_implies_predicates
    { IDs := some ["i"], Since := some 3 }
    ⟨"i", "", 5, 1, [], "", ""⟩ (by decide)
  exact ⟨h.1 ["i"] rfl, h.2.2.2.1 3 rfl⟩

section CloneLemmas

lemma filter_clone_eq (f : Filter) : f.Clone = f := by
  unfold Filter.Clone
  cases f with
  | mk ids kinds authors tags since until_ limit search lz =>
    simp only [Option.map_id, id]
    congr 1
    cases tags with
    | none => rfl
    | some m => simp

lemma mem_zip_self {α} {as : List α} {q : α × α} (hq : q ∈ as.zip as) : q.1 = q.2 := by
  induction as with
  | nil => cases hq
  | cons x xs ih =>
    rcases List.mem_cons.mp (by simpa [List.zip_cons_cons] using hq) with h | h
    · rw [h]
    · exact ih h

lemma arePointerValuesEqual_refl {α} [BEq α] [LawfulBEq α] (a : Option α) :
    arePointerValuesEqual a a = true := by
  cases a <;> simp [arePointerValuesEqual]

lemma similar_refl {α} [BEq α] [LawfulBEq α] (as : List α) : similar as as = true := by
  simp only [similar, Bool.and_eq_true, beq_iff_eq, List.all_eq_true]
  exact ⟨True.intro, fun a ha => by simpa [List.contains] using List.elem_eq_true_of_mem ha⟩

lemma tagValuesEqual_refl (a : TagValues) : tagValuesEqual a a = true := by
  simp only [tagValuesEqual, Bool.and_eq_true, beq_iff_eq, List.all_eq_true]
  refine ⟨True.intro, fun p hp => ?_⟩
  rw [mem_zip_self hp]
  exact arePointerValuesEqual_refl p.2

end CloneLemmas

/-- C7: `FilterEqual(f, f.Clone())` is true for every filter — the clone
is structurally equal to the original under the library's own filter
equality (the keys of a Go tag map are pairwise distinct). -/
theorem C7_filterEqual_clone (f : Filter) (hnd : f.tagList.KeysNodup) :
    FilterEqual f f.Clone = true := by
  rw [filter_clone_eq]
  unfold FilterEqual
  simp only [Bool.and_eq_true]
  refine ⟨⟨⟨⟨⟨⟨⟨⟨similar_refl _, similar_refl _⟩, similar_refl _⟩, by simp⟩, ?_⟩,
    arePointerValuesEqual_refl _⟩, arePointerValuesEqual_refl _⟩, by simp⟩, by simp⟩
  rw [List.all_eq_true]
  intro p hp
  have hmem : TagMap.mem f.tagList p.1 = true := by
    unfold TagMap.mem
    rw [List.any_eq_true]
    exact ⟨p, hp, by simp⟩
  have hfind : TagMap.find f.tagList p.1 = p.2 := tagMap_find_eq_of_nodup hnd hp
  simp only [hmem, hfind, Bool.and_eq_true, beq_iff_eq, true_and]
  rw [List.all_eq_true]
  intro q hq
  rw [mem_zip_self hq]
  exact tagValuesEqual_refl q.2

/-- Witness for C7 at a concrete filter. -/
theorem C7_witness :
    FilterEqual
      { Kinds := some [1, 4], Tags := some [("e", [[some "a", none]])], Since := some 7 }
      (Filter.Clone { Kinds := some [1, 4], Tags := some [("e", [[some "a", none]])], Since := some 7 }) = true :=
  C7_filterEqual_clone _ (by decide)

section MatcherComparison

lemma matchers2_tag_iff (m : TagMap) (ets : Tags) :
    (m.all (fun p => match valuesOf ets p.1 with
      | none => false
      | some etv => p.2.all (fun vs => setCheck2 etv vs)) = true) ↔
    ∀ p ∈ m, ∃ t, ets.find? (fun t => Tag.Key t == p.1) = some t ∧
      (p.2.all (fun vs => matchesTagSet (t.drop 1) vs)) = true := by
  rw [List.all_eq_true]
  constructor
  · intro h p hp
    have hcur := h p hp
    unfold valuesOf at hcur
    cases hf : ets.find? (fun t => Tag.Key t == p.1) with
    | none => rw [hf] at hcur; simp at hcur
    | some t =>
      rw [hf] at hcur
      refine ⟨t, rfl, ?_⟩
      simpa [setCheck2] using hcur
  · intro h p hp
    obtain ⟨t, ht, hall⟩ := h p hp
    unfold valuesOf
    rw [ht]
    simpa [setCheck2] using hall

end MatcherComparison

/-- C10 (counterexample): for the filter with tags
`{"k": [["1"],["2"]]}` and an event with the single tag `["k","1"]`,
the `filter.go` matcher ORs over the two sets and accepts, while the
`part_002` matcher ANDs over them and rejects — the two implementations
are not extensionally equal. -/
theorem C10_counterexample :
    ¬ (Filter.MatchesIgnoringTimestampConstraints
         { Tags := some [("k", [[some "1"], [some "2"]])] }
         (some ⟨"", "", 0, 0, [["k", "1"]], "", ""⟩) =
       Filter.MatchesIgnoringTimestampConstraints2
         { Tags := some [("k", [[some "1"], [some "2"]])] }
         (some ⟨"", "", 0, 0, [["k", "1"]], "", ""⟩)) := by
  decide

/-- C10 (amended): the two implementations of
`MatchesIgnoringTimestampConstraints` agree on every event whenever each
tag key of the filter carries at most one tag-value set (for two or more
sets `filter.go` ORs over the sets where `part_002` ANDs). -/
theorem C10_matchers_agree_on_single_set (f : Filter) (e : Option Event)
    (hnd : f.tagList.KeysNodup)
    (hsingle : ∀ p ∈ f.tagList, p.2.length ≤ 1) :
    f.MatchesIgnoringTimestampConstraints e =
      f.MatchesIgnoringTimestampConstraints2 e := by
  cases e with
  | none => rfl
  | some ev =>
    simp only [Filter.MatchesIgnoringTimestampConstraints,
      Filter.MatchesIgnoringTimestampConstraints2]
    congr 1
    rw [Bool.eq_iff_iff, tagLoop_iff ev.Tags f.tagList hnd, matchers2_tag_iff]
    constructor
    · intro h p hp
      obtain ⟨t, ht, hok⟩ := h p hp
      refine ⟨t, ht, ?_⟩
      have hl := hsingle p hp
      cases hv : p.2 with
      | nil => simp
      | cons vs rest =>
        cases rest with
        | nil =>
          rw [hv] at hok
          simpa [setsOk] using hok
        | cons vs2 rest2 =>
          rw [hv] at hl
          simp at hl
    · intro h p hp
      obtain ⟨t, ht, hall⟩ := h p hp
      refine ⟨t, ht, ?_⟩
      have hl := hsingle p hp
      cases hv : p.2 with
      | nil => simp [setsOk]
      | cons vs rest =>
        cases rest with
        | nil =>
          rw [hv] at hall
          simpa [setsOk] using hall
        | cons vs2 rest2 =>
          rw [hv] at hl
          simp at hl

/-- Witness for C10 (amended) at a concrete filter and event. -/
theorem C10_witness :
    Filter.MatchesIgnoringTimestampConstraints
      { Tags := some [("e", [[some "1"]])] }
      (some ⟨"", "", 0, 0, [["e", "1"]], "", ""⟩) =
    Filter.MatchesIgnoringTimestampConstraints2
      { Tags := some [("e", [[some "1"]])] }
      (some ⟨"", "", 0, 0, [["e", "1"]], "", ""⟩) :=
  C10_matchers_agree_on_single_set _ _ (by decide) (by decide)

/-!
## A heap model for `Filter.Clone`

`Clone` copies the slice headers but `slices.Clone` is shallow: the
outer `[]TagValues` buffers are fresh while the inner `TagValues`
(`[]*string`) backing arrays are shared between original and clone.  To
study observable mutation we make the backing stores explicit.  Pools
are kept per field (the program never aliases an `IDs` buffer with an
`Authors` buffer, so a partitioned address space is a sound picture of
the Go heap for this code); `tvBufs` is the pool of `TagValues` backing
arrays, which `Clone` does share. -/

/-- The mutable stores backing a `Filter`'s reference fields. -/
structure Heap where
  idBufs : List (List String)
  kindBufs : List (List Int)
  authorBufs : List (List String)
  setBufs : List (List Nat)
  tvBufs : List (List (Option String))
  sinceCells : List Int
  untilCells : List Int
  deriving Repr, DecidableEq

/-- A heap-resident `Filter`: slice and pointer fields hold references
into the corresponding pools; the tag map holds, per key, a reference to
a `[]TagValues` buffer whose elements reference `tvBufs`. -/
structure HFilter where
  IDs : Option Nat := none
  Kinds : Option Nat := none
  Authors : Option Nat := none
  Tags : Option (List (String × Nat)) := none
  Since : Option Nat := none
  Until : Option Nat := none
  Limit : Int := 0
  Search : String := ""
  LimitZero : Bool := false
  deriving Repr, DecidableEq

/-- Dereference a `[]TagValues` buffer: the list of tag-value sets it
denotes. -/
def readSet (h : Heap) (r : Nat) : List TagValues :=
  (h.setBufs.getD r []).map (fun tvr => h.tvBufs.getD tvr [])

/-- The observable value of a heap-resident filter. -/
def readFilter (h : Heap) (f : HFilter) : Filter :=
  { IDs := f.IDs.map (fun r => h.idBufs.getD r [])
    Kinds := f.Kinds.map (fun r => h.kindBufs.getD r [])
    Authors := f.Authors.map (fun r => h.authorBufs.getD r [])
    Tags := f.Tags.map (fun m => m.map (fun p => (p.1, readSet h p.2)))
    Since := f.Since.map (fun r => h.sinceCells.getD r 0)
    Until := f.Until.map (fun r => h.untilCells.getD r 0)
    Limit := f.Limit
    Search := f.Search
    LimitZero := f.LimitZero }

/-- All references of a heap-resident filter are live. -/
def wf (h : Heap) (f : HFilter) : Bool :=
  f.IDs.all (fun r => r < h.idBufs.length) &&
  f.Kinds.all (fun r => r < h.kindBufs.length) &&
  f.Authors.all (fun r => r < h.authorBufs.length) &&
  (f.Tags.getD []).all (fun p =>
    decide (p.2 < h.setBufs.length) &&
    (h.setBufs.getD p.2 []).all (fun tvr => tvr < h.tvBufs.length)) &&
  f.Since.all (fun r => r < h.sinceCells.length) &&
  f.Until.all (fun r => r < h.untilCells.length)

/-- The tag stage of `Clone` (lines 260–265): for each entry,
`slices.Clone(v)` allocates a fresh `[]TagValues` buffer holding the
**same** `TagValues` references (the inner arrays are shared). -/
def hcloneTags : (bufs : List (List Nat)) → List (String × Nat) →
    List (List Nat) × List (String × Nat)
  | bufs, [] => (bufs, [])
  | bufs, (k, r) :: rest =>
    let bufs1 := bufs ++ [bufs.getD r []]
    let (bufs2, rest') := hcloneTags bufs1 rest
    (bufs2, (k, bufs.length) :: rest')

/-- `Filter.Clone` from `filter.go` (lines 250–278) on the heap:
`slices.Clone` of each nil-able slice allocates a fresh buffer with the
same contents (nil stays nil), the tag map is rebuilt with fresh outer
buffers sharing the inner `TagValues` references, and `Since`/`Until`
are copied into fresh cells. -/
def hclone (h : Heap) (f : HFilter) : Heap × HFilter :=
  let tagsRes := hcloneTags h.setBufs (f.Tags.getD [])
  ({ idBufs := h.idBufs ++
       (match f.IDs with | none => [] | some r => [h.idBufs.getD r []])
     kindBufs := h.kindBufs ++
       (match f.Kinds with | none => [] | some r => [h.kindBufs.getD r []])
     authorBufs := h.authorBufs ++
       (match f.Authors with | none => [] | some r => [h.authorBufs.getD r []])
     setBufs := tagsRes.1
     tvBufs := h.tvBufs
     sinceCells := h.sinceCells ++
       (match f.Since with | none => [] | some r => [h.sinceCells.getD r 0])
     untilCells := h.untilCells ++
       (match f.Until with | none => [] | some r => [h.untilCells.getD r 0]) },
   { IDs := f.IDs.map (fun _ => h.idBufs.length)
     Kinds := f.Kinds.map (fun _ => h.kindBufs.length)
     Authors := f.Authors.map (fun _ => h.authorBufs.length)
     Tags := f.Tags.map (fun _ => tagsRes.2)
     Since := f.Since.map (fun _ => h.sinceCells.length)
     Until := f.Until.map (fun _ => h.untilCells.length)
     Limit := f.Limit
     Search := f.Search
     LimitZero := f.LimitZero })

/-- Map-entry assignment `m[k] = r` on the per-filter tag map. -/
def mapSet (m : List (String × Nat)) (k : String) (r : Nat) : List (String × Nat) :=
  if m.any (fun p => p.1 == k) then m.map (fun p => if p.1 == k then (k, r) else p)
  else m ++ [(k, r)]

/-- The mutations of a clone the claim lists as harmless: overwriting or
appending to the `IDs`/`Kinds`/`Authors` slices, adding, replacing or
appending tag-map entries, and writing through `Since`/`Until`. -/
inductive CloneMut where
  | setIDs (vals : List String)
  | appendID (x : String)
  | setKinds (vals : List Int)
  | appendKind (x : Int)
  | setAuthors (vals : List String)
  | appendAuthor (x : String)
  | setTagEntry (k : String) (vs : TagValues)
  | appendTagEntry (k : String) (vs : TagValues)
  | writeSince (v : Int)
  | writeUntil (v : Int)
  deriving Repr, DecidableEq

/-- Apply a harmless mutation to the clone.  A slice append is modelled
as a reallocation (Go may grow in place, but a clone's buffer is fresh,
so either way the bytes of other filters are untouched); `TagMap.Set`
allocates the new `TagValues` and outer buffer; `TagMap.Append`
reallocates the outer buffer with the extra `TagValues` reference;
writes through a nil map or a nil timestamp pointer would panic in Go
and are no-ops here. -/
def applyMut (m : CloneMut) (h : Heap) (c : HFilter) : Heap × HFilter :=
  match m with
  | .setIDs vals => ({ h with idBufs := h.idBufs ++ [vals] }, { c with IDs := some h.idBufs.length })
  | .appendID x =>
    ({ h with idBufs := h.idBufs ++ [(match c.IDs with | none => [] | some r => h.idBufs.getD r []) ++ [x]] },
     { c with IDs := some h.idBufs.length })
  | .setKinds vals => ({ h with kindBufs := h.kindBufs ++ [vals] }, { c with Kinds := some h.kindBufs.length })
  | .appendKind x =>
    ({ h with kindBufs := h.kindBufs ++ [(match c.Kinds with | none => [] | some r => h.kindBufs.getD r []) ++ [x]] },
     { c with Kinds := some h.kindBufs.length })
  | .setAuthors vals => ({ h with authorBufs := h.authorBufs ++ [vals] }, { c with Authors := some h.authorBufs.length })
  | .appendAuthor x =>
    ({ h with authorBufs := h.authorBufs ++ [(match c.Authors with | none => [] | some r => h.authorBufs.getD r []) ++ [x]] },
     { c with Authors := some h.authorBufs.length })
  | .setTagEntry k vs =>
    match c.Tags with
    | none => (h, c)
    | some cm =>
      ({ h with tvBufs := h.tvBufs ++ [vs], setBufs := h.setBufs ++ [[h.tvBufs.length]] },
       { c with Tags := some (mapSet cm k h.setBufs.length) })
  | .appendTagEntry k vs =>
    match c.Tags with
    | none => (h, c)
    | some cm =>
      let oldContents := match cm.find? (fun p => p.1 == k) with
        | none => []
        | some p => h.setBufs.getD p.2 []
      ({ h with tvBufs := h.tvBufs ++ [vs], setBufs := h.setBufs ++ [oldContents ++ [h.tvBufs.length]] },
       { c with Tags := some (mapSet cm k h.setBufs.length) })
  | .writeSince v =>
    match c.Since with
    | none => (h, c)
    | some r => ({ h with sinceCells := h.sinceCells.set r v }, c)
  | .writeUntil v =>
    match c.Until with
    | none => (h, c)
    | some r => ({ h with untilCells := h.untilCells.set r v }, c)

/-- The mutation the claim also lists but which `Clone` does **not**
protect against: writing through an element of a tag-value set
(`c.Tags[k][i][j] = p`), a store into the shared `TagValues` backing
array. -/
def writeTVElem (h : Heap) (r i : Nat) (v : Option String) : Heap :=
  { h with tvBufs := h.tvBufs.set r ((h.tvBufs.getD r []).set i v) }

section HeapLemmas

/-- `new` reads like `old` at every index `old` covers. -/
def AgreesBelow {α} (old new : List α) (d : α) : Prop :=
  ∀ i, i < old.length → new.getD i d = old.getD i d

lemma agreesBelow_refl {α} (l : List α) (d : α) : AgreesBelow l l d :=
  fun _ _ => rfl

lemma agreesBelow_append {α} (old ext : List α) (d : α) :
    AgreesBelow old (old ++ ext) d :=
  fun i hi => List.getD_append old ext d i hi

lemma getD_set_ne {α} (l : List α) (n m : Nat) (a d : α) (h : n ≠ m) :
    (l.set n a).getD m d = l.getD m d := by
  rw [List.getD_eq_getElem?_getD, List.getD_eq_getElem?_getD, List.getElem?_set_ne h]

lemma agreesBelow_append_set {α} (old ext : List α) (d a : α) {n : Nat}
    (hn : old.length ≤ n) : AgreesBelow old ((old ++ ext).set n a) d := by
  intro i hi
  rw [getD_set_ne _ _ _ _ _ (by omega), List.getD_append old ext d i hi]

lemma hcloneTags_fst (l : List (String × Nat)) :
    ∀ bufs, ∃ ext, (hcloneTags bufs l).1 = bufs ++ ext := by
  induction l with
  | nil => intro bufs; exact ⟨[], by simp [hcloneTags]⟩
  | cons p rest ih =>
    intro bufs
    obtain ⟨ext, hext⟩ := ih (bufs ++ [bufs.getD p.2 []])
    refine ⟨[bufs.getD p.2 []] ++ ext, ?_⟩
    simp only [hcloneTags]
    rw [hext, List.append_assoc]

lemma optionMap_congr {α β} {o : Option α} {f g : α → β}
    (h : ∀ a, o = some a → f a = g a) : o.map f = o.map g := by
  cases o with
  | none => rfl
  | some a => simp only [Option.map]; rw [h a rfl]

/-- The observable value of a well-formed filter only depends on the
heap below the lengths its references live in. -/
lemma readFilter_congr {h h' : Heap} {f : HFilter} (hwf : wf h f = true)
    (hid : AgreesBelow h.idBufs h'.idBufs [])
    (hkind : AgreesBelow h.kindBufs h'.kindBufs [])
    (hauthor : AgreesBelow h.authorBufs h'.authorBufs [])
    (hset : AgreesBelow h.setBufs h'.setBufs [])
    (htv : AgreesBelow h.tvBufs h'.tvBufs [])
    (hsince : AgreesBelow h.sinceCells h'.sinceCells 0)
    (huntil : AgreesBelow h.untilCells h'.untilCells 0) :
    readFilter h' f = readFilter h f := by
  unfold wf at hwf
  simp only [Bool.and_eq_true] at hwf
  obtain ⟨⟨⟨⟨⟨hwid, hwkind⟩, hwauthor⟩, hwtags⟩, hwsince⟩, hwuntil⟩ := hwf
  unfold readFilter
  congr 1
  · exact optionMap_congr (fun r hr => hid r (by rw [hr] at hwid; simpa using hwid))
  · exact optionMap_congr (fun r hr => hkind r (by rw [hr] at hwkind; simpa using hwkind))
  · exact optionMap_congr (fun r hr => hauthor r (by rw [hr] at hwauthor; simpa using hwauthor))
  · refine optionMap_congr (fun m hm => ?_)
    rw [hm] at hwtags
    simp only [Option.getD_some, List.all_eq_true, Bool.and_eq_true] at hwtags
    refine List.map_congr_left (fun p hp => ?_)
    obtain ⟨hplt, htvlt⟩ := hwtags p hp
    have hsetbuf : h'.setBufs.getD p.2 [] = h.setBufs.getD p.2 [] :=
      hset p.2 (by simpa using hplt)
    unfold readSet
    rw [hsetbuf]
    refine congrArg _ (List.map_congr_left (fun tvr htvr => ?_))
    exact htv tvr (by simpa using htvlt tvr htvr)
  · exact optionMap_congr (fun r hr => hsince r (by rw [hr] at hwsince; simpa using hwsince))
  · exact optionMap_congr (fun r hr => huntil r (by rw [hr] at hwuntil; simpa using hwuntil))

lemma agrees_app2 {α} (old a b : List α) (d : α) :
    AgreesBelow old ((old ++ a) ++ b) d := by
  rw [List.append_assoc]; exact agreesBelow_append _ _ _

lemma agrees_hcloneTags {L : List (String × Nat)} (bufs : List (List Nat)) :
    AgreesBelow bufs (hcloneTags bufs L).1 [] := by
  obtain ⟨ext, hext⟩ := hcloneTags_fst L bufs
  rw [hext]; exact agreesBelow_append _ _ _

lemma agrees_hcloneTags_app {L : List (String × Nat)} (bufs : List (List Nat))
    (e : List (List Nat)) : AgreesBelow bufs ((hcloneTags bufs L).1 ++ e) [] := by
  obtain ⟨ext, hext⟩ := hcloneTags_fst L bufs
  rw [hext]; exact agrees_app2 _ _ _ _

end HeapLemmas

/-- C6 (counterexample): `Clone` shares the `TagValues` backing arrays,
so writing through an element of the clone's tag-value sets (Go:
`c.Tags["e"][0][0] = &x`) observably mutates the original filter. -/
theorem C6_counterexample :
    (wf ⟨[], [], [], [[0]], [[some "1"]], [], []⟩ { Tags := some [("e", 0)] } = true) ∧
    ¬ (readFilter
        (writeTVElem
          (hclone ⟨[], [], [], [[0]], [[some "1"]], [], []⟩ { Tags := some [("e", 0)] }).1
          ((((hclone ⟨[], [], [], [[0]], [[some "1"]], [], []⟩ { Tags := some [("e", 0)] }).1.setBufs.getD
              ((((hclone ⟨[], [], [], [[0]], [[some "1"]], [], []⟩ { Tags := some [("e", 0)] }).2.Tags.getD []).find?
                  (fun p => p.1 == "e")).map Prod.snd |>.getD 0) []).getD 0 0))
          0 (some "X"))
        { Tags := some [("e", 0)] } =
      readFilter ⟨[], [], [], [[0]], [[some "1"]], [], []⟩ { Tags := some [("e", 0)] }) := by
  decide

/-- C6 (amended): every mutation of the clone the claim lists **except**
writing through the elements of the clone's tag-value sets — overwriting
or appending to `IDs`, `Kinds` or `Authors`, adding, replacing or
appending tag-map entries, and writing `*Since`/`*Until` — leaves the
original filter's observable value unchanged; writing through a
tag-value-set element can mutate the original, because `Clone` copies
the outer `[]TagValues` buffers but shares the inner backing arrays. -/
theorem C6_clone_safe_mutations (h : Heap) (f : HFilter) (m : CloneMut)
    (hwf : wf h f = true) :
    readFilter (applyMut m (hclone h f).1 (hclone h f).2).1 f = readFilter h f := by
  refine readFilter_congr hwf ?_ ?_ ?_ ?_ ?_ ?_ ?_ <;>
    cases m <;>
    cases hft : f.Tags <;> cases hfs : f.Since <;> cases hfu : f.Until <;>
    simp only [hclone, applyMut, hft, hfs, hfu, Option.map_none', Option.map_some',
      Option.getD_some, Option.getD_none] <;>
    first
      | exact agreesBelow_refl _ _
      | exact agreesBelow_append _ _ _
      | exact agrees_app2 _ _ _ _
      | exact agrees_hcloneTags _
      | exact agrees_hcloneTags_app _ _
      | exact agreesBelow_append_set _ _ _ _ (le_refl _)

/-- Witness for C6 (amended) at a concrete heap, filter and mutation. -/
theorem C6_witness :
    readFilter
      (applyMut (CloneMut.writeSince 99)
        (hclone ⟨[["a"]], [], [], [[0]], [[some "1"]], [5], []⟩
          { IDs := some 0, Tags := some [("e", 0)], Since := some 0 }).1
        (hclone ⟨[["a"]], [], [], [[0]], [[some "1"]], [5], []⟩
          { IDs := some 0, Tags := some [("e", 0)], Since := some 0 }).2).1
      { IDs := some 0, Tags := some [("e", 0)], Since := some 0 } =
    readFilter ⟨[["a"]], [], [], [[0]], [[some "1"]], [5], []⟩
      { IDs := some 0, Tags := some [("e", 0)], Since := some 0 } :=
  C6_clone_safe_mutations _ _ _ (by decide)

/-!
## The envelope codec

The wire format is JSON text.  We model JSON values as an AST, render
them exactly as the `jwriter`-based marshallers do (no whitespace,
strings written verbatim between quotes — well-formed envelopes restrict
string contents so that no escaping is needed), and parse with a
recursive-descent parser that stands in for the external `gjson`
dependency on this fragment of JSON. -/

/-- The double-quote character. -/
def qc : Char := Char.ofNat 34

/-- A JSON value. -/
inductive Json where
  | str (s : String)
  | num (n : Int)
  | bool (b : Bool)
  | null
  | arr (xs : List Json)
  | obj (fs : List (String × Json))
  deriving Inhabited

/-- A character that needs no JSON escaping and is not a quote: the
well-formedness conditions restrict wire strings to these. -/
def safeChar (c : Char) : Bool :=
  c != qc && c != Char.ofNat 92 && decide (32 ≤ c.toNat)

/-- A string of safe characters. -/
def safeStr (s : String) : Bool := s.data.all safeChar

/-- The decimal digit characters. -/
def digitChar (d : Nat) : Char := "0123456789".data.getD d '0'

/-- Decimal digits of a natural number, most significant first. -/
def natChars (n : Nat) : List Char :=
  if h : n < 10 then [digitChar n]
  else natChars (n / 10) ++ [digitChar (n % 10)]
  termination_by n
  decreasing_by exact Nat.div_lt_self (by omega) (by omega)

/-- Decimal rendering of an integer. -/
def intChars (n : Int) : List Char :=
  if n < 0 then '-' :: natChars n.natAbs else natChars n.natAbs

/-- Quote-delimited rendering of a (safe) string. -/
def renderStr (s : String) : List Char := qc :: s.data ++ [qc]

mutual

/-- Compact JSON rendering, exactly the bytes the `jwriter`-based
marshallers emit: no whitespace, `,` and `:` separators. -/
def renderJson : Json → List Char
  | .str s => renderStr s
  | .num n => intChars n
  | .bool true => ['t', 'r', 'u', 'e']
  | .bool false => ['f', 'a', 'l', 's', 'e']
  | .null => ['n', 'u', 'l', 'l']
  | .arr xs => '[' :: renderElems xs ++ [']']
  | .obj fs => '{' :: renderFields fs ++ ['}']

/-- Comma-joined renderings of array elements. -/
def renderElems : List Json → List Char
  | [] => []
  | [x] => renderJson x
  | x :: y :: xs => renderJson x ++ ',' :: renderElems (y :: xs)

/-- Comma-joined renderings of object fields. -/
def renderFields : List (String × Json) → List Char
  | [] => []
  | [p] => renderStr p.1 ++ ':' :: renderJson p.2
  | p :: q :: ps => renderStr p.1 ++ ':' :: renderJson p.2 ++ ',' :: renderFields (q :: ps)

end

mutual

/-- Well-formed JSON for the verbatim renderer: every string is safe. -/
def WFJson : Json → Bool
  | .str s => safeStr s
  | .num _ => true
  | .bool _ => true
  | .null => true
  | .arr xs => WFList xs
  | .obj fs => WFFields fs

def WFList : List Json → Bool
  | [] => true
  | x :: xs => WFJson x && WFList xs

def WFFields : List (String × Json) → Bool
  | [] => true
  | p :: ps => safeStr p.1 && WFJson p.2 && WFFields ps

end

/-- Body of a quoted string: the characters up to the next quote. -/
def parseStrBody : List Char → Option (List Char × List Char)
  | [] => none
  | c :: rest =>
    if c = qc then some ([], rest)
    else (parseStrBody rest).map (fun p => (c :: p.1, p.2))

/-- Decimal digit test. -/
def isDigitCh (c : Char) : Bool := decide (48 ≤ c.toNat) && decide (c.toNat ≤ 57)

/-- Greedy digit accumulation (the body of a number literal). -/
def parseDigitsAux : Nat → List Char → Nat × List Char
  | acc, [] => (acc, [])
  | acc, c :: rest =>
    if isDigitCh c then parseDigitsAux (acc * 10 + (c.toNat - 48)) rest
    else (acc, c :: rest)

mutual

/-- Recursive-descent JSON value parser (stand-in for the external
`gjson` dependency on the whitespace-free, escape-free fragment the
marshallers emit).  `fuel` decreases on every call. -/
def parseVal : Nat → List Char → Option (Json × List Char)
  | 0, _ => none
  | Nat.succ fuel, cs =>
    match cs with
    | [] => none
    | c :: rest =>
      if c = qc then (parseStrBody rest).map (fun p => (Json.str (String.mk p.1), p.2))
      else if c = 't' then
        match rest with
        | 'r' :: 'u' :: 'e' :: r2 => some (Json.bool true, r2)
        | _ => none
      else if c = 'f' then
        match rest with
        | 'a' :: 'l' :: 's' :: 'e' :: r2 => some (Json.bool false, r2)
        | _ => none
      else if c = 'n' then
        match rest with
        | 'u' :: 'l' :: 'l' :: r2 => some (Json.null, r2)
        | _ => none
      else if c = '[' then
        match rest with
        | ']' :: r2 => some (Json.arr [], r2)
        | _ => (parseElems fuel rest).map (fun p => (Json.arr p.1, p.2))
      else if c = '{' then
        match rest with
        | '}' :: r2 => some (Json.obj [], r2)
        | _ => (parseFields fuel rest).map (fun p => (Json.obj p.1, p.2))
      else if c = '-' then
        match rest with
        | d :: _ =>
          if isDigitCh d then
            let p := parseDigitsAux 0 rest
            some (Json.num (-(p.1 : Int)), p.2)
          else none
        | [] => none
      else if isDigitCh c then
        let p := parseDigitsAux 0 (c :: rest)
        some (Json.num (p.1 : Int), p.2)
      else none

/-- One or more comma-separated values followed by `]` (which is
consumed). -/
def parseElems : Nat → List Char → Option (List Json × List Char)
  | 0, _ => none
  | Nat.succ fuel, cs =>
    match parseVal fuel cs with
    | none => none
    | some (j, rest) =>
      match rest with
      | ']' :: r2 => some ([j], r2)
      | ',' :: r2 =>
        match parseElems fuel r2 with
        | none => none
        | some (js, r3) => some (j :: js, r3)
      | _ => none

/-- One or more `"key":value` fields followed by `}` (consumed). -/
def parseFields : Nat → List Char → Option (List (String × Json) × List Char)
  | 0, _ => none
  | Nat.succ fuel, cs =>
    match cs with
    | [] => none
    | c :: rest =>
      if c = qc then
        match parseStrBody rest with
        | none => none
        | some (k, r1) =>
          match r1 with
          | ':' :: r2 =>
            match parseVal fuel r2 with
            | none => none
            | some (j, r3) =>
              match r3 with
              | '}' :: r4 => some ([(String.mk k, j)], r4)
              | ',' :: r4 =>
                match parseFields fuel r4 with
                | none => none
                | some (fs, r5) => some ((String.mk k, j) :: fs, r5)
              | _ => none
          | _ => none
      else none

end

mutual

/-- Fuel sufficient for `parseVal` on a rendering of `j`. -/
def fuelVal : Json → Nat
  | .str _ => 1
  | .num _ => 1
  | .bool _ => 1
  | .null => 1
  | .arr xs => 1 + fuelElems xs
  | .obj fs => 1 + fuelFields fs

def fuelElems : List Json → Nat
  | [] => 1
  | [x] => 1 + fuelVal x
  | x :: y :: xs => 1 + max (fuelVal x) (fuelElems (y :: xs))

def fuelFields : List (String × Json) → Nat
  | [] => 1
  | [p] => 1 + fuelVal p.2
  | p :: q :: ps => 1 + max (fuelVal p.2) (fuelFields (q :: ps))

end

/-- Parse a whole JSON document (all input consumed). -/
def jsonParse (cs : List Char) : Option Json :=
  match parseVal (cs.length + 1) cs with
  | some (j, []) => some j
  | _ => none

/-- The delimiters that may legally follow a value in our fragment. -/
def delimOk : List Char → Bool
  | [] => true
  | c :: _ => c = ',' || c = ']' || c = '}'

section ParserRoundTrip

lemma string_mk_data (s : String) : String.mk s.data = s := by
  cases s; rfl

lemma digitChar_val {d : Nat} (h : d < 10) : (digitChar d).toNat = 48 + d := by
  interval_cases d <;> decide

lemma digitChar_isDigit {d : Nat} (h : d < 10) : isDigitCh (digitChar d) = true := by
  interval_cases d <;> decide

lemma parseStrBody_append {cs : List Char} (h : cs.all safeChar = true) (rest : List Char) :
    parseStrBody (cs ++ qc :: rest) = some (cs, rest) := by
  induction cs with
  | nil => simp [parseStrBody]
  | cons c cs' ih =>
    simp only [List.all_cons, Bool.and_eq_true] at h
    have hc : ¬ c = qc := by
      intro he
      rw [he] at h
      exact absurd h.1 (by decide)
    simp only [List.cons_append, parseStrBody, if_neg hc, List.append_eq]
    rw [ih h.2]
    rfl

lemma natChars_ne_nil (n : Nat) : natChars n ≠ [] := by
  unfold natChars
  split <;> simp

lemma natChars_all_digits (n : Nat) : (natChars n).all isDigitCh = true := by
  induction n using Nat.strong_induction_on with
  | _ n ih =>
    unfold natChars
    split
    · simpa using digitChar_isDigit (by omega)
    · rename_i h
      simp only [List.all_append, Bool.and_eq_true]
      exact ⟨ih (n / 10) (Nat.div_lt_self (by omega) (by omega)),
        by simpa using digitChar_isDigit (Nat.mod_lt _ (by omega))⟩

lemma parseDigitsAux_natChars (n : Nat) : ∀ (acc : Nat) (rest : List Char),
    parseDigitsAux acc (natChars n ++ rest) =
      parseDigitsAux (acc * 10 ^ (natChars n).length + n) rest := by
  induction n using Nat.strong_induction_on with
  | _ n ih =>
    intro acc rest
    by_cases h : n < 10
    · rw [natChars, dif_pos h]
      simp only [List.cons_append, List.nil_append, parseDigitsAux,
        digitChar_isDigit h, if_true, digitChar_val h, List.length_cons,
        List.length_nil]
      norm_num
    · rw [natChars, dif_neg h]
      rw [List.append_assoc, ih (n / 10) (Nat.div_lt_self (by omega) (by omega))]
      simp only [List.cons_append, List.nil_append, parseDigitsAux,
        digitChar_isDigit (Nat.mod_lt _ (by omega)), if_true,
        digitChar_val (Nat.mod_lt _ (by omega)), List.length_append,
        List.length_cons, List.length_nil]
      congr 1
      have h48 : 48 + n % 10 - 48 = n % 10 := by omega
      rw [h48, pow_succ, Nat.add_mul, Nat.mul_assoc]
      omega

lemma parseDigitsAux_stop {rest : List Char} (acc : Nat) (h : delimOk rest = true) :
    parseDigitsAux acc rest = (acc, rest) := by
  cases rest with
  | nil => rfl
  | cons c r =>
    simp only [delimOk, Bool.or_eq_true, decide_eq_true_eq] at h
    have hc : isDigitCh c = false := by
      rcases h with (h | h) | h <;> rw [h] <;> decide
    simp [parseDigitsAux, hc]

lemma parseDigits_render (n : Nat) {rest : List Char} (h : delimOk rest = true) :
    parseDigitsAux 0 (natChars n ++ rest) = (n, rest) := by
  rw [parseDigitsAux_natChars, parseDigitsAux_stop _ h]
  norm_num

mutual

/-- Structural size of a JSON value (for strong induction). -/
def jsize : Json → Nat
  | .str _ => 1
  | .num _ => 1
  | .bool _ => 1
  | .null => 1
  | .arr xs => 1 + jsizeL xs
  | .obj fs => 1 + jsizeF fs

def jsizeL : List Json → Nat
  | [] => 1
  | x :: xs => 1 + jsize x + jsizeL xs

def jsizeF : List (String × Json) → Nat
  | [] => 1
  | p :: ps => 1 + jsize p.2 + jsizeF ps

end

lemma jsize_pos (j : Json) : 1 ≤ jsize j := by
  cases j <;> simp [jsize]

lemma jsizeL_pos (xs : List Json) : 1 ≤ jsizeL xs := by
  cases xs <;> simp [jsizeL] <;> omega

lemma jsizeF_pos (fs : List (String × Json)) : 1 ≤ jsizeF fs := by
  cases fs <;> simp [jsizeF] <;> omega

lemma fuelVal_pos (j : Json) : 1 ≤ fuelVal j := by
  cases j <;> simp [fuelVal]

lemma digit_not_special {c : Char} (h : isDigitCh c = true) :
    c ≠ qc ∧ c ≠ 't' ∧ c ≠ 'f' ∧ c ≠ 'n' ∧ c ≠ '[' ∧ c ≠ '{' ∧ c ≠ '-' := by
  refine ⟨?_, ?_, ?_, ?_, ?_, ?_, ?_⟩ <;> intro he <;> rw [he] at h <;>
    exact absurd h (by decide)

lemma digit_not_bracket {c : Char} (h : isDigitCh c = true) : c ≠ ']' ∧ c ≠ '}' := by
  refine ⟨?_, ?_⟩ <;> intro he <;> rw [he] at h <;> exact absurd h (by decide)

/-- Every rendering starts with a character that is not a closing
bracket (needed to steer the parser's array/object match). -/
lemma render_cons (j : Json) : ∃ c cs', renderJson j = c :: cs' ∧ c ≠ ']' ∧ c ≠ '}' := by
  cases j with
  | str s => exact ⟨qc, s.data ++ [qc], rfl, by decide, by decide⟩
  | num k =>
    show ∃ c cs', intChars k = c :: cs' ∧ c ≠ ']' ∧ c ≠ '}'
    unfold intChars
    by_cases hk : k < 0
    · exact ⟨'-', natChars k.natAbs, by rw [if_pos hk], by decide, by decide⟩
    · rw [if_neg hk]
      cases heq : natChars k.natAbs with
      | nil => exact absurd heq (natChars_ne_nil _)
      | cons c cs' =>
        have hall := natChars_all_digits k.natAbs
        rw [heq] at hall
        simp only [List.all_cons, Bool.and_eq_true] at hall
        obtain ⟨h1, h2⟩ := digit_not_bracket hall.1
        exact ⟨c, cs', rfl, h1, h2⟩
  | bool b =>
    cases b with
    | false => exact ⟨'f', ['a', 'l', 's', 'e'], rfl, by decide, by decide⟩
    | true => exact ⟨'t', ['r', 'u', 'e'], rfl, by decide, by decide⟩
  | null => exact ⟨'n', ['u', 'l', 'l'], rfl, by decide, by decide⟩
  | arr xs => exact ⟨'[', renderElems xs ++ [']'], rfl, by decide, by decide⟩
  | obj fs => exact ⟨'{', renderFields fs ++ ['}'], rfl, by decide, by decide⟩

lemma renderElems_cons (x : Json) (xs : List Json) :
    ∃ c cs', renderElems (x :: xs) = c :: cs' ∧ c ≠ ']' ∧ c ≠ '}' := by
  obtain ⟨c, cs', heq, h1, h2⟩ := render_cons x
  cases xs with
  | nil => exact ⟨c, cs', by simp [renderElems, heq], h1, h2⟩
  | cons y ys =>
    exact ⟨c, cs' ++ ',' :: renderElems (y :: ys), by simp [renderElems, heq], h1, h2⟩

/-- The parser inverts the renderer: statement triple for values,
array-element lists and object-field lists, indexed by size for strong
induction. -/
def RoundTripStmts (n : Nat) : Prop :=
  (∀ j, jsize j ≤ n → WFJson j = true → ∀ fuel rest, fuelVal j ≤ fuel → delimOk rest = true →
    parseVal fuel (renderJson j ++ rest) = some (j, rest)) ∧
  (∀ xs, jsizeL xs ≤ n → xs ≠ [] → WFList xs = true → ∀ fuel rest, fuelElems xs ≤ fuel →
    parseElems fuel (renderElems xs ++ ']' :: rest) = some (xs, rest)) ∧
  (∀ fs, jsizeF fs ≤ n → fs ≠ [] → WFFields fs = true → ∀ fuel rest, fuelFields fs ≤ fuel →
    parseFields fuel (renderFields fs ++ '}' :: rest) = some (fs, rest))

lemma WFJson_arr_elim {xs : List Json} (h : WFJson (Json.arr xs) = true) :
    WFList xs = true := h

lemma WFJson_obj_elim {fs : List (String × Json)} (h : WFJson (Json.obj fs) = true) :
    WFFields fs = true := h

lemma WFList_split {x : Json} {xs : List Json} (h : WFList (x :: xs) = true) :
    WFJson x = true ∧ WFList xs = true := by
  have h' : (WFJson x && WFList xs) = true := h
  simpa using h'

lemma WFFields_split {p : String × Json} {ps : List (String × Json)}
    (h : WFFields (p :: ps) = true) :
    safeStr p.1 = true ∧ WFJson p.2 = true ∧ WFFields ps = true := by
  have h' : (safeStr p.1 && WFJson p.2 && WFFields ps) = true := h
  simpa [and_assoc] using h'

lemma fuelElems_pos (xs : List Json) : 1 ≤ fuelElems xs := by
  cases xs with
  | nil => exact Nat.le_refl 1
  | cons x t => cases t <;> simp [fuelElems]

lemma fuelFields_pos (fs : List (String × Json)) : 1 ≤ fuelFields fs := by
  cases fs with
  | nil => exact Nat.le_refl 1
  | cons p t => cases t <;> simp [fuelFields]

lemma fuelElems_split {x y : Json} {xs : List Json} {f : Nat}
    (h : fuelElems (x :: y :: xs) ≤ f + 1) :
    fuelVal x ≤ f ∧ fuelElems (y :: xs) ≤ f := by
  have h' : 1 + max (fuelVal x) (fuelElems (y :: xs)) ≤ f + 1 := h
  have h1 := le_max_left (fuelVal x) (fuelElems (y :: xs))
  have h2 := le_max_right (fuelVal x) (fuelElems (y :: xs))
  omega

lemma fuelFields_split {p q : String × Json} {ps : List (String × Json)} {f : Nat}
    (h : fuelFields (p :: q :: ps) ≤ f + 1) :
    fuelVal p.2 ≤ f ∧ fuelFields (q :: ps) ≤ f := by
  have h' : 1 + max (fuelVal p.2) (fuelFields (q :: ps)) ≤ f + 1 := h
  have h1 := le_max_left (fuelVal p.2) (fuelFields (q :: ps))
  have h2 := le_max_right (fuelVal p.2) (fuelFields (q :: ps))
  omega

lemma delimOk_cons (c : Char) (r : List Char) :
    delimOk (c :: r) = (decide (c = ',') || decide (c = ']') || decide (c = '}')) := rfl

lemma roundTrip_all : ∀ n, RoundTripStmts n := by
  intro n
  induction n with
  | zero =>
    refine ⟨fun j hj => ?_, fun xs hxs => ?_, fun fs hfs => ?_⟩
    · exact absurd hj (by have := jsize_pos j; omega)
    · exact absurd hxs (by have := jsizeL_pos xs; omega)
    · exact absurd hfs (by have := jsizeF_pos fs; omega)
  | succ n ih =>
    obtain ⟨ihV, ihE, ihF⟩ := ih
    refine ⟨?_, ?_, ?_⟩
    · -- values
      intro j hsize hwf fuel rest hfuel hrest
      cases fuel with
      | zero => exact absurd hfuel (by have := fuelVal_pos j; omega)
      | succ f =>
        cases j with
        | str s =>
          have hsafe : s.data.all safeChar = true := hwf
          show parseVal (f + 1) ((qc :: s.data ++ [qc]) ++ rest) = _
          have harr : (qc :: s.data ++ [qc]) ++ rest = qc :: (s.data ++ qc :: rest) := by
            simp
          rw [harr]
          simp only [parseVal]
          rw [if_pos trivial, parseStrBody_append hsafe]
          simp [string_mk_data]
        | num k =>
          show parseVal (f + 1) (intChars k ++ rest) = _
          unfold intChars
          by_cases hk : k < 0
          · rw [if_pos hk]
            cases heq : natChars k.natAbs with
            | nil => exact absurd heq (natChars_ne_nil _)
            | cons c cs' =>
              have hall := natChars_all_digits k.natAbs
              rw [heq] at hall
              simp only [List.all_cons, Bool.and_eq_true] at hall
              show parseVal (f + 1) ('-' :: c :: (cs' ++ rest)) = _
              simp only [parseVal]
              rw [if_neg (by decide), if_neg (by decide), if_neg (by decide),
                if_neg (by decide), if_neg (by decide), if_neg (by decide),
                if_pos trivial, if_pos hall.1]
              have hrw : c :: (cs' ++ rest) = natChars k.natAbs ++ rest := by
                rw [heq]; simp
              rw [hrw, parseDigits_render _ hrest]
              have hneg : -((k.natAbs : Int)) = k := by omega
              rw [hneg]
          · rw [if_neg hk]
            cases heq : natChars k.natAbs with
            | nil => exact absurd heq (natChars_ne_nil _)
            | cons c cs' =>
              have hall := natChars_all_digits k.natAbs
              rw [heq] at hall
              simp only [List.all_cons, Bool.and_eq_true] at hall
              obtain ⟨h1, h2, h3, h4, h5, h6, h7⟩ := digit_not_special hall.1
              simp only [List.cons_append, parseVal]
              rw [if_neg h1, if_neg h2, if_neg h3, if_neg h4, if_neg h5, if_neg h6,
                if_neg h7, if_pos hall.1]
              rw [← List.cons_append, ← heq, parseDigits_render _ hrest]
              have hpos : (↑k.natAbs : Int) = k := Int.natAbs_of_nonneg (by omega)
              rw [hpos]
        | bool b =>
          cases b with
          | true =>
            show parseVal (f + 1) (('t' :: ['r', 'u', 'e']) ++ rest) = _
            simp only [List.cons_append, List.nil_append, parseVal]
            rw [if_neg (by decide), if_pos trivial]
          | false =>
            show parseVal (f + 1) (('f' :: ['a', 'l', 's', 'e']) ++ rest) = _
            simp only [List.cons_append, List.nil_append, parseVal]
            rw [if_neg (by decide), if_neg (by decide), if_pos trivial]
        | null =>
          show parseVal (f + 1) (('n' :: ['u', 'l', 'l']) ++ rest) = _
          simp only [List.cons_append, List.nil_append, parseVal]
          rw [if_neg (by decide), if_neg (by decide), if_neg (by decide), if_pos trivial]
        | arr xs =>
          cases xs with
          | nil =>
            show parseVal (f + 1) (('[' :: [] ++ [']']) ++ rest) = _
            simp only [List.nil_append, List.cons_append, parseVal]
            rw [if_neg (by decide), if_neg (by decide), if_neg (by decide),
              if_neg (by decide), if_pos trivial]
          | cons x xs' =>
            show parseVal (f + 1) (('[' :: renderElems (x :: xs') ++ [']']) ++ rest) = _
            have harr : ('[' :: renderElems (x :: xs') ++ [']']) ++ rest =
                '[' :: (renderElems (x :: xs') ++ ']' :: rest) := by simp
            rw [harr]
            simp only [parseVal]
            rw [if_neg (by decide), if_neg (by decide), if_neg (by decide),
              if_neg (by decide), if_pos trivial]
            obtain ⟨c, cs', heq, hcne, _⟩ := renderElems_cons x xs'
            rw [heq, List.cons_append]
            have hE := ihE (x :: xs')
              (by simp only [jsize] at hsize; omega)
              (by simp)
              (WFJson_arr_elim hwf)
              f rest
              (by simp only [fuelVal] at hfuel; omega)
            rw [heq, List.cons_append] at hE
            split
            · rename_i r2 hmatch
              injection hmatch with hc _
              exact absurd hc hcne
            · rw [hE]
              rfl
        | obj fs =>
          cases fs with
          | nil =>
            show parseVal (f + 1) (('{' :: [] ++ ['}']) ++ rest) = _
            simp only [List.nil_append, List.cons_append, parseVal]
            rw [if_neg (by decide), if_neg (by decide), if_neg (by decide),
              if_neg (by decide), if_neg (by decide), if_pos trivial]
          | cons p ps =>
            show parseVal (f + 1) (('{' :: renderFields (p :: ps) ++ ['}']) ++ rest) = _
            have harr : ('{' :: renderFields (p :: ps) ++ ['}']) ++ rest =
                '{' :: (renderFields (p :: ps) ++ '}' :: rest) := by simp
            rw [harr]
            simp only [parseVal]
            rw [if_neg (by decide), if_neg (by decide), if_neg (by decide),
              if_neg (by decide), if_neg (by decide), if_pos trivial]
            have hF := ihF (p :: ps)
              (by simp only [jsize] at hsize; omega)
              (by simp)
              (WFJson_obj_elim hwf)
              f rest
              (by simp only [fuelVal] at hfuel; omega)
            have hfieldshape : ∃ tl, renderFields (p :: ps) ++ '}' :: rest = qc :: tl := by
              cases ps with
              | nil =>
                exact ⟨p.1.data ++ qc :: ':' :: (renderJson p.2 ++ '}' :: rest),
                  by simp [renderFields, renderStr]⟩
              | cons q ps' =>
                exact ⟨p.1.data ++ qc :: ':' ::
                    (renderJson p.2 ++ ',' :: (renderFields (q :: ps') ++ '}' :: rest)),
                  by simp [renderFields, renderStr]⟩
            obtain ⟨tl, htl⟩ := hfieldshape
            rw [htl]
            rw [htl] at hF
            split
            · rename_i r2 hmatch
              injection hmatch with hc _
              exact absurd hc (by decide)
            · rw [hF]
              rfl
    · -- element lists
      intro xs hsize hne hwf fuel rest hfuel
      cases xs with
      | nil => exact absurd rfl hne
      | cons x xs' =>
        cases fuel with
        | zero => exact absurd hfuel (by have := fuelElems_pos (x :: xs'); omega)
        | succ f =>
          cases xs' with
          | nil =>
            show parseElems (f + 1) (renderJson x ++ ']' :: rest) = _
            simp only [parseElems]
            rw [ihV x
              (by simp only [jsizeL] at hsize; omega)
              (WFList_split hwf).1
              f (']' :: rest)
              (by have h' : 1 + fuelVal x ≤ f + 1 := hfuel; omega)
              (by rw [delimOk_cons]; decide)]
            rfl
          | cons y xs'' =>
            show parseElems (f + 1)
              ((renderJson x ++ ',' :: renderElems (y :: xs'')) ++ ']' :: rest) = _
            have harr : (renderJson x ++ ',' :: renderElems (y :: xs'')) ++ ']' :: rest =
                renderJson x ++ ',' :: (renderElems (y :: xs'') ++ ']' :: rest) := by simp
            rw [harr]
            have hV := ihV x
              (by simp only [jsizeL] at hsize; omega)
              (WFList_split hwf).1
              f (',' :: (renderElems (y :: xs'') ++ ']' :: rest))
              (fuelElems_split hfuel).1
              (by rw [delimOk_cons]; decide)
            have hE2 := ihE (y :: xs'')
              (by simp only [jsizeL] at hsize; have h0 := jsize_pos x
                  have hy : jsizeL (y :: xs'') = 1 + jsize y + jsizeL xs'' := rfl; omega)
              (by simp)
              (WFList_split hwf).2
              f rest
              (fuelElems_split hfuel).2
            simp only [parseElems, hV, hE2]
    · -- field lists
      intro fs hsize hne hwf fuel rest hfuel
      cases fs with
      | nil => exact absurd rfl hne
      | cons p ps =>
        cases fuel with
        | zero => exact absurd hfuel (by have := fuelFields_pos (p :: ps); omega)
        | succ f =>
          obtain ⟨hkey, hval, hrest'⟩ := WFFields_split hwf
          cases ps with
          | nil =>
            show parseFields (f + 1)
              ((renderStr p.1 ++ ':' :: renderJson p.2) ++ '}' :: rest) = _
            have harr : (renderStr p.1 ++ ':' :: renderJson p.2) ++ '}' :: rest =
                qc :: (p.1.data ++ qc :: (':' :: (renderJson p.2 ++ '}' :: rest))) := by
              simp [renderStr]
            rw [harr]
            simp only [parseFields]
            rw [if_pos trivial, parseStrBody_append hkey]
            have hV := ihV p.2
              (by simp only [jsizeF] at hsize; omega)
              hval
              f ('}' :: rest)
              (by have h' : 1 + fuelVal p.2 ≤ f + 1 := hfuel; omega)
              (by rw [delimOk_cons]; decide)
            simp only [hV, string_mk_data]
          | cons q ps' =>
            show parseFields (f + 1)
              ((renderStr p.1 ++ ':' :: renderJson p.2 ++ ',' :: renderFields (q :: ps')) ++
                '}' :: rest) = _
            have harr : (renderStr p.1 ++ ':' :: renderJson p.2 ++
                ',' :: renderFields (q :: ps')) ++ '}' :: rest =
                qc :: (p.1.data ++ qc :: (':' :: (renderJson p.2 ++
                  ',' :: (renderFields (q :: ps') ++ '}' :: rest)))) := by
              simp [renderStr]
            rw [harr]
            simp only [parseFields]
            rw [if_pos trivial, parseStrBody_append hkey]
            have hV := ihV p.2
              (by simp only [jsizeF] at hsize; omega)
              hval
              f (',' :: (renderFields (q :: ps') ++ '}' :: rest))
              (fuelFields_split hfuel).1
              (by rw [delimOk_cons]; decide)
            have hF2 := ihF (q :: ps')
              (by simp only [jsizeF] at hsize; have h0 := jsize_pos p.2
                  have hq : jsizeF (q :: ps') = 1 + jsize q.2 + jsizeF ps' := rfl; omega)
              (by simp)
              hrest'
              f rest
              (fuelFields_split hfuel).2
            simp only [hV, hF2, string_mk_data]

/-- The fuel a rendering needs is bounded by its length, so parsing a
document with `length + 1` fuel always suffices. -/
def FuelBoundStmts (n : Nat) : Prop :=
  (∀ j, jsize j ≤ n → fuelVal j ≤ (renderJson j).length) ∧
  (∀ xs, jsizeL xs ≤ n → xs ≠ [] → fuelElems xs ≤ (renderElems xs).length + 1) ∧
  (∀ fs, jsizeF fs ≤ n → fs ≠ [] → fuelFields fs ≤ (renderFields fs).length + 1)

lemma natChars_length_pos (k : Nat) : 1 ≤ (natChars k).length :=
  List.length_pos.mpr (natChars_ne_nil k)

lemma fuelBound_all : ∀ n, FuelBoundStmts n := by
  intro n
  induction n with
  | zero =>
    refine ⟨fun j hj => ?_, fun xs hxs _ => ?_, fun fs hfs _ => ?_⟩
    · exact absurd hj (by have := jsize_pos j; omega)
    · exact absurd hxs (by have := jsizeL_pos xs; omega)
    · exact absurd hfs (by have := jsizeF_pos fs; omega)
  | succ n ih =>
    obtain ⟨ihV, ihE, ihF⟩ := ih
    refine ⟨?_, ?_, ?_⟩
    · intro j hsize
      cases j with
      | str s => simp [fuelVal, renderJson, renderStr]
      | num k =>
        show fuelVal (Json.num k) ≤ (intChars k).length
        have := natChars_length_pos k.natAbs
        unfold intChars
        split <;> simp [fuelVal] <;> omega
      | bool b => cases b <;> simp [fuelVal, renderJson]
      | null => simp [fuelVal, renderJson]
      | arr xs =>
        cases xs with
        | nil => simp [fuelVal, fuelElems, renderJson, renderElems]
        | cons x xs' =>
          have hE := ihE (x :: xs') (by simp only [jsize] at hsize; omega) (by simp)
          simp only [fuelVal, renderJson, List.length_cons, List.length_append]
          simp at hE ⊢
          omega
      | obj fs =>
        cases fs with
        | nil => simp [fuelVal, fuelFields, renderJson, renderFields]
        | cons p ps =>
          have hF := ihF (p :: ps) (by simp only [jsize] at hsize; omega) (by simp)
          simp only [fuelVal, renderJson, List.length_cons, List.length_append]
          simp at hF ⊢
          omega
    · intro xs hsize hne
      cases xs with
      | nil => exact absurd rfl hne
      | cons x xs' =>
        cases xs' with
        | nil =>
          have hV := ihV x (by simp only [jsizeL] at hsize; omega)
          show 1 + fuelVal x ≤ (renderJson x).length + 1
          omega
        | cons y xs'' =>
          have hV := ihV x (by simp only [jsizeL] at hsize; omega)
          have hE := ihE (y :: xs'')
            (by simp only [jsizeL] at hsize; have h0 := jsize_pos x
                have hy : jsizeL (y :: xs'') = 1 + jsize y + jsizeL xs'' := rfl; omega)
            (by simp)
          show 1 + max (fuelVal x) (fuelElems (y :: xs'')) ≤
            (renderJson x ++ ',' :: renderElems (y :: xs'')).length + 1
          simp only [List.length_append, List.length_cons]
          have h1 := le_max_left (fuelVal x) (fuelElems (y :: xs''))
          have h2 := le_max_right (fuelVal x) (fuelElems (y :: xs''))
          omega
    · intro fs hsize hne
      cases fs with
      | nil => exact absurd rfl hne
      | cons p ps =>
        cases ps with
        | nil =>
          have hV := ihV p.2 (by simp only [jsizeF] at hsize; omega)
          show 1 + fuelVal p.2 ≤ (renderStr p.1 ++ ':' :: renderJson p.2).length + 1
          simp only [List.length_append, List.length_cons]
          omega
        | cons q ps' =>
          have hV := ihV p.2 (by simp only [jsizeF] at hsize; omega)
          have hF := ihF (q :: ps')
            (by simp only [jsizeF] at hsize; have h0 := jsize_pos p.2
                have hq : jsizeF (q :: ps') = 1 + jsize q.2 + jsizeF ps' := rfl; omega)
            (by simp)
          show 1 + max (fuelVal p.2) (fuelFields (q :: ps')) ≤
            (renderStr p.1 ++ ':' :: renderJson p.2 ++ ',' :: renderFields (q :: ps')).length + 1
          simp only [List.length_append, List.length_cons]
          have h1 := le_max_left (fuelVal p.2) (fuelFields (q :: ps'))
          have h2 := le_max_right (fuelVal p.2) (fuelFields (q :: ps'))
          omega

/-- The parser inverts the renderer on well-formed JSON documents. -/
lemma jsonParse_render {j : Json} (hwf : WFJson j = true) :
    jsonParse (renderJson j) = some j := by
  unfold jsonParse
  have hfuel : fuelVal j ≤ (renderJson j).length + 1 := by
    have := (fuelBound_all (jsize j)).1 j (le_refl _)
    omega
  have h := (roundTrip_all (jsize j)).1 j (le_refl _) hwf
    ((renderJson j).length + 1) [] hfuel rfl
  rw [List.append_nil] at h
  rw [h]

end ParserRoundTrip

/-! ### Event and filter JSON codecs

The easyjson-generated codecs for `Event` and `Filter` are not among the
provided sources; they are modelled from the spec (§3, §4.2). -/

/-- `gjson`'s `.Str` accessor: the string value, `""` for non-strings. -/
def jStr : Json → String
  | .str s => s
  | _ => ""

/-- Lookup of an object field (Go JSON object member access). -/
def objLookup (fs : List (String × Json)) (k : String) : Option Json :=
  (fs.find? (fun p => p.1 == k)).map Prod.snd

/-- Tolerant string read with zero value. -/
def asStr (o : Option Json) : String
  := match o with
  | some (.str s) => s
  | _ => ""

/-- Tolerant integer read with zero value. -/
def asNum (o : Option Json) : Int :=
  match o with
  | some (.num n) => n
  | _ => 0

/-- Tolerant tags read ( `[][]string` ) with zero value. -/
def asTags (o : Option Json) : Tags :=
  match o with
  | some (.arr xs) => xs.map (fun x => match x with | .arr ys => ys.map jStr | _ => [])
  | _ => []

/-- Modelled from the spec: the event JSON object, fields in struct
order `id, pubkey, created_at, kind, tags, content, sig` (§3). -/
def eventToJson (e : Event) : Json :=
  .obj [("id", .str e.ID), ("pubkey", .str e.PubKey), ("created_at", .num e.CreatedAt),
        ("kind", .num e.Kind),
        ("tags", .arr (e.Tags.map (fun t => .arr (t.map .str)))),
        ("content", .str e.Content), ("sig", .str e.Sig)]

/-- Modelled from the spec: easyjson event decoding — an object with the
fields read tolerantly (missing fields become zero values), a non-object
is an error. -/
def eventFromJson (j : Json) : Except String Event :=
  match j with
  | .obj fs =>
    .ok { ID := asStr (objLookup fs "id")
          PubKey := asStr (objLookup fs "pubkey")
          CreatedAt := asNum (objLookup fs "created_at")
          Kind := asNum (objLookup fs "kind")
          Tags := asTags (objLookup fs "tags")
          Content := asStr (objLookup fs "content")
          Sig := asStr (objLookup fs "sig") }
  | _ => .error "event: not an object"

/-- Well-formed events: every wire string is safe. -/
def WFEvent (e : Event) : Bool :=
  safeStr e.ID && safeStr e.PubKey && safeStr e.Content && safeStr e.Sig &&
  e.Tags.all (fun t => t.all safeStr)

/-- A filter tag value on the wire: nil pointers are `null`. -/
def tagValueToJson : Option String → Json
  | some s => .str s
  | none => .null

/-- Reading a wire value back into a `*string`. -/
def tagValueOf : Json → Option String
  | .str s => some s
  | _ => none

/-- Modelled from the spec (§4.2): a `#tag` value is either a list of
lists (each inner list one positional tag-value set) or a flat list of
strings (one single set). -/
def tagSetsOf (j : Json) : List TagValues :=
  match j with
  | .arr xs =>
    if xs.all (fun x => match x with | .arr _ => true | _ => false) then
      xs.map (fun x => match x with | .arr ys => ys.map tagValueOf | _ => [])
    else [xs.map tagValueOf]
  | _ => []

/-- The `ids` member of the filter wire object (omitted when nil or
empty). -/
def segIds (f : Filter) : List (String × Json) :=
  match f.IDs with
  | some (x :: l) => [("ids", Json.arr ((x :: l).map Json.str))]
  | _ => []

/-- The `kinds` member. -/
def segKinds (f : Filter) : List (String × Json) :=
  match f.Kinds with
  | some (x :: l) => [("kinds", Json.arr ((x :: l).map Json.num))]
  | _ => []

/-- The `authors` member. -/
def segAuthors (f : Filter) : List (String × Json) :=
  match f.Authors with
  | some (x :: l) => [("authors", Json.arr ((x :: l).map Json.str))]
  | _ => []

/-- The `since` member. -/
def segSince (f : Filter) : List (String × Json) :=
  match f.Since with
  | some t => [("since", Json.num t)]
  | none => []

/-- The `until` member. -/
def segUntil (f : Filter) : List (String × Json) :=
  match f.Until with
  | some t => [("until", Json.num t)]
  | none => []

/-- The `limit` member (`limit:0` survives via `LimitZero`). -/
def segLimit (f : Filter) : List (String × Json) :=
  if f.LimitZero || !(f.Limit == 0) then [("limit", Json.num f.Limit)] else []

/-- The `search` member. -/
def segSearch (f : Filter) : List (String × Json) :=
  if !(f.Search == "") then [("search", Json.str f.Search)] else []

/-- The `#key` members, one per tag entry, as lists of lists. -/
def segTags (f : Filter) : List (String × Json) :=
  (f.Tags.getD []).map (fun p =>
    ("#" ++ p.1, Json.arr (p.2.map (fun vs => Json.arr (vs.map tagValueToJson)))))

/-- The members of the filter wire object, in emission order. -/
def wireFields (f : Filter) : List (String × Json) :=
  segIds f ++ segKinds f ++ segAuthors f ++ segSince f ++ segUntil f ++
    segLimit f ++ segSearch f ++ segTags f

/-- Modelled from the spec (§4.2): the filter wire object — reserved
keys `ids, kinds, authors, since, until, limit, search` (empty slices
and zero values omitted, `limit:0` emitted when `LimitZero`), then one
`#key` member per tag entry, as a list of lists. -/
def filterToJson (f : Filter) : Json :=
  .obj (wireFields f)

/-- The tag-member extractor of `filterFromJson`: a `#key` field
contributes a tag entry. -/
def tagEntryOf (p : String × Json) : Option (String × List TagValues) :=
  match p.1.data with
  | '#' :: ks => some (String.mk ks, tagSetsOf p.2)
  | _ => none

/-- Modelled from the spec (§4.2): filter decoding — reserved keys read
tolerantly; every `#key` member contributes a tag entry; a `limit` of
exactly 0 sets `LimitZero`; a non-object is an error. -/
def filterFromJson (j : Json) : Except String Filter :=
  match j with
  | .obj fs =>
    let tagEntries := fs.filterMap tagEntryOf
    .ok { IDs := match objLookup fs "ids" with
                 | some (.arr xs) => some (xs.map jStr)
                 | _ => none
          Kinds := match objLookup fs "kinds" with
                   | some (.arr xs) => some (xs.map (fun x => asNum (some x)))
                   | _ => none
          Authors := match objLookup fs "authors" with
                     | some (.arr xs) => some (xs.map jStr)
                     | _ => none
          Tags := if tagEntries.isEmpty then none else some tagEntries
          Since := match objLookup fs "since" with
                   | some (.num n) => some n
                   | _ => none
          Until := match objLookup fs "until" with
                   | some (.num n) => some n
                   | _ => none
          Limit := asNum (objLookup fs "limit")
          Search := asStr (objLookup fs "search")
          LimitZero := match objLookup fs "limit" with
                       | some (.num n) => n == 0
                       | _ => false }
  | _ => .error "filter: not an object"

section FilterCodecLemmas

lemma objLookup_append (fs1 fs2 : List (String × Json)) (k : String) :
    objLookup (fs1 ++ fs2) k = (objLookup fs1 k).or (objLookup fs2 k) := by
  unfold objLookup
  rw [List.find?_append]
  cases fs1.find? (fun p => p.1 == k) <;> rfl

lemma objLookup_none_of_keys {seg : List (String × Json)} {k : String}
    (h : ∀ p ∈ seg, p.1 ≠ k) : objLookup seg k = none := by
  unfold objLookup
  rw [List.find?_eq_none.mpr (fun p hp => by simpa using h p hp)]
  rfl

lemma segIds_keys (f : Filter) : ∀ p ∈ segIds f, p.1 = "ids" := by
  intro p hp
  unfold segIds at hp
  split at hp
  · rw [List.mem_singleton.mp hp]
  · cases hp

lemma segKinds_keys (f : Filter) : ∀ p ∈ segKinds f, p.1 = "kinds" := by
  intro p hp
  unfold segKinds at hp
  split at hp
  · rw [List.mem_singleton.mp hp]
  · cases hp

lemma segAuthors_keys (f : Filter) : ∀ p ∈ segAuthors f, p.1 = "authors" := by
  intro p hp
  unfold segAuthors at hp
  split at hp
  · rw [List.mem_singleton.mp hp]
  · cases hp

lemma segSince_keys (f : Filter) : ∀ p ∈ segSince f, p.1 = "since" := by
  intro p hp
  unfold segSince at hp
  split at hp
  · rw [List.mem_singleton.mp hp]
  · cases hp

lemma segUntil_keys (f : Filter) : ∀ p ∈ segUntil f, p.1 = "until" := by
  intro p hp
  unfold segUntil at hp
  split at hp
  · rw [List.mem_singleton.mp hp]
  · cases hp

lemma segLimit_keys (f : Filter) : ∀ p ∈ segLimit f, p.1 = "limit" := by
  intro p hp
  unfold segLimit at hp
  split at hp
  · rw [List.mem_singleton.mp hp]
  · cases hp

lemma segSearch_keys (f : Filter) : ∀ p ∈ segSearch f, p.1 = "search" := by
  intro p hp
  unfold segSearch at hp
  split at hp
  · rw [List.mem_singleton.mp hp]
  · cases hp

lemma segTags_keys (f : Filter) : ∀ p ∈ segTags f, ∃ k', p.1 = "#" ++ k' := by
  intro p hp
  unfold segTags at hp
  obtain ⟨q, _, hq⟩ := List.mem_map.mp hp
  exact ⟨q.1, by rw [← hq]⟩

/-- A key whose first character is not `#` never collides with a tag
member. -/
lemma segTags_ne {f : Filter} {k : String} (hk : k.data.headD ' ' ≠ '#') :
    ∀ p ∈ segTags f, p.1 ≠ k := by
  intro p hp he
  obtain ⟨k', hk'⟩ := segTags_keys f p hp
  rw [he] at hk'
  apply hk
  rw [hk']
  rw [String.data_append]
  rfl

lemma skipSeg {seg rest : List (String × Json)} {k : String}
    (h : ∀ p ∈ seg, p.1 ≠ k) :
    objLookup (seg ++ rest) k = objLookup rest k := by
  rw [objLookup_append, objLookup_none_of_keys h]
  rfl

lemma wire_lookup_ids (f : Filter) :
    objLookup (wireFields f) "ids" = objLookup (segIds f) "ids" := by
  unfold wireFields
  simp only [objLookup_append]
  have hsegKinds : objLookup (segKinds f) "ids" = none :=
    objLookup_none_of_keys (fun p hp => by rw [segKinds_keys f p hp]; decide)
  have hsegAuthors : objLookup (segAuthors f) "ids" = none :=
    objLookup_none_of_keys (fun p hp => by rw [segAuthors_keys f p hp]; decide)
  have hsegSince : objLookup (segSince f) "ids" = none :=
    objLookup_none_of_keys (fun p hp => by rw [segSince_keys f p hp]; decide)
  have hsegUntil : objLookup (segUntil f) "ids" = none :=
    objLookup_none_of_keys (fun p hp => by rw [segUntil_keys f p hp]; decide)
  have hsegLimit : objLookup (segLimit f) "ids" = none :=
    objLookup_none_of_keys (fun p hp => by rw [segLimit_keys f p hp]; decide)
  have hsegSearch : objLookup (segSearch f) "ids" = none :=
    objLookup_none_of_keys (fun p hp => by rw [segSearch_keys f p hp]; decide)
  have htg : objLookup (segTags f) "ids" = none :=
    objLookup_none_of_keys (segTags_ne (by decide))
  rw [hsegKinds, hsegAuthors, hsegSince, hsegUntil, hsegLimit, hsegSearch, htg]
  cases objLookup (segIds f) "ids" <;> rfl

lemma wire_lookup_kinds (f : Filter) :
    objLookup (wireFields f) "kinds" = objLookup (segKinds f) "kinds" := by
  unfold wireFields
  simp only [objLookup_append]
  have hsegIds : objLookup (segIds f) "kinds" = none :=
    objLookup_none_of_keys (fun p hp => by rw [segIds_keys f p hp]; decide)
  have hsegAuthors : objLookup (segAuthors f) "kinds" = none :=
    objLookup_none_of_keys (fun p hp => by rw [segAuthors_keys f p hp]; decide)
  have hsegSince : objLookup (segSince f) "kinds" = none :=
    objLookup_none_of_keys (fun p hp => by rw [segSince_keys f p hp]; decide)
  have hsegUntil : objLookup (segUntil f) "kinds" = none :=
    objLookup_none_of_keys (fun p hp => by rw [segUntil_keys f p hp]; decide)
  have hsegLimit : objLookup (segLimit f) "kinds" = none :=
    objLookup_none_of_keys (fun p hp => by rw [segLimit_keys f p hp]; decide)
  have hsegSearch : objLookup (segSearch f) "kinds" = none :=
    objLookup_none_of_keys (fun p hp => by rw [segSearch_keys f p hp]; decide)
  have htg : objLookup (segTags f) "kinds" = none :=
    objLookup_none_of_keys (segTags_ne (by decide))
  rw [hsegIds, hsegAuthors, hsegSince, hsegUntil, hsegLimit, hsegSearch, htg]
  cases objLookup (segKinds f) "kinds" <;> rfl

lemma wire_lookup_authors (f : Filter) :
    objLookup (wireFields f) "authors" = objLookup (segAuthors f) "authors" := by
  unfold wireFields
  simp only [objLookup_append]
  have hsegIds : objLookup (segIds f) "authors" = none :=
    objLookup_none_of_keys (fun p hp => by rw [segIds_keys f p hp]; decide)
  have hsegKinds : objLookup (segKinds f) "authors" = none :=
    objLookup_none_of_keys (fun p hp => by rw [segKinds_keys f p hp]; decide)
  have hsegSince : objLookup (segSince f) "authors" = none :=
    objLookup_none_of_keys (fun p hp => by rw [segSince_keys f p hp]; decide)
  have hsegUntil : objLookup (segUntil f) "authors" = none :=
    objLookup_none_of_keys (fun p hp => by rw [segUntil_keys f p hp]; decide)
  have hsegLimit : objLookup (segLimit f) "authors" = none :=
    objLookup_none_of_keys (fun p hp => by rw [segLimit_keys f p hp]; decide)
  have hsegSearch : objLookup (segSearch f) "authors" = none :=
    objLookup_none_of_keys (fun p hp => by rw [segSearch_keys f p hp]; decide)
  have htg : objLookup (segTags f) "authors" = none :=
    objLookup_none_of_keys (segTags_ne (by decide))
  rw [hsegIds, hsegKinds, hsegSince, hsegUntil, hsegLimit, hsegSearch, htg]
  cases objLookup (segAuthors f) "authors" <;> rfl

lemma wire_lookup_since (f : Filter) :
    objLookup (wireFields f) "since" = objLookup (segSince f) "since" := by
  unfold wireFields
  simp only [objLookup_append]
  have hsegIds : objLookup (segIds f) "since" = none :=
    objLookup_none_of_keys (fun p hp => by rw [segIds_keys f p hp]; decide)
  have hsegKinds : objLookup (segKinds f) "since" = none :=
    objLookup_none_of_keys (fun p hp => by rw [segKinds_keys f p hp]; decide)
  have hsegAuthors : objLookup (segAuthors f) "since" = none :=
    objLookup_none_of_keys (fun p hp => by rw [segAuthors_keys f p hp]; decide)
  have hsegUntil : objLookup (segUntil f) "since" = none :=
    objLookup_none_of_keys (fun p hp => by rw [segUntil_keys f p hp]; decide)
  have hsegLimit : objLookup (segLimit f) "since" = none :=
    objLookup_none_of_keys (fun p hp => by rw [segLimit_keys f p hp]; decide)
  have hsegSearch : objLookup (segSearch f) "since" = none :=
    objLookup_none_of_keys (fun p hp => by rw [segSearch_keys f p hp]; decide)
  have htg : objLookup (segTags f) "since" = none :=
    objLookup_none_of_keys (segTags_ne (by decide))
  rw [hsegIds, hsegKinds, hsegAuthors, hsegUntil, hsegLimit, hsegSearch, htg]
  cases objLookup (segSince f) "since" <;> rfl

lemma wire_lookup_until (f : Filter) :
    objLookup (wireFields f) "until" = objLookup (segUntil f) "until" := by
  unfold wireFields
  simp only [objLookup_append]
  have hsegIds : objLookup (segIds f) "until" = none :=
    objLookup_none_of_keys (fun p hp => by rw [segIds_keys f p hp]; decide)
  have hsegKinds : objLookup (segKinds f) "until" = none :=
    objLookup_none_of_keys (fun p hp => by rw [segKinds_keys f p hp]; decide)
  have hsegAuthors : objLookup (segAuthors f) "until" = none :=
    objLookup_none_of_keys (fun p hp => by rw [segAuthors_keys f p hp]; decide)
  have hsegSince : objLookup (segSince f) "until" = none :=
    objLookup_none_of_keys (fun p hp => by rw [segSince_keys f p hp]; decide)
  have hsegLimit : objLookup (segLimit f) "until" = none :=
    objLookup_none_of_keys (fun p hp => by rw [segLimit_keys f p hp]; decide)
  have hsegSearch : objLookup (segSearch f) "until" = none :=
    objLookup_none_of_keys (fun p hp => by rw [segSearch_keys f p hp]; decide)
  have htg : objLookup (segTags f) "until" = none :=
    objLookup_none_of_keys (segTags_ne (by decide))
  rw [hsegIds, hsegKinds, hsegAuthors, hsegSince, hsegLimit, hsegSearch, htg]
  cases objLookup (segUntil f) "until" <;> rfl

lemma wire_lookup_limit (f : Filter) :
    objLookup (wireFields f) "limit" = objLookup (segLimit f) "limit" := by
  unfold wireFields
  simp only [objLookup_append]
  have hsegIds : objLookup (segIds f) "limit" = none :=
    objLookup_none_of_keys (fun p hp => by rw [segIds_keys f p hp]; decide)
  have hsegKinds : objLookup (segKinds f) "limit" = none :=
    objLookup_none_of_keys (fun p hp => by rw [segKinds_keys f p hp]; decide)
  have hsegAuthors : objLookup (segAuthors f) "limit" = none :=
    objLookup_none_of_keys (fun p hp => by rw [segAuthors_keys f p hp]; decide)
  have hsegSince : objLookup (segSince f) "limit" = none :=
    objLookup_none_of_keys (fun p hp => by rw [segSince_keys f p hp]; decide)
  have hsegUntil : objLookup (segUntil f) "limit" = none :=
    objLookup_none_of_keys (fun p hp => by rw [segUntil_keys f p hp]; decide)
  have hsegSearch : objLookup (segSearch f) "limit" = none :=
    objLookup_none_of_keys (fun p hp => by rw [segSearch_keys f p hp]; decide)
  have htg : objLookup (segTags f) "limit" = none :=
    objLookup_none_of_keys (segTags_ne (by decide))
  rw [hsegIds, hsegKinds, hsegAuthors, hsegSince, hsegUntil, hsegSearch, htg]
  cases objLookup (segLimit f) "limit" <;> rfl

lemma wire_lookup_search (f : Filter) :
    objLookup (wireFields f) "search" = objLookup (segSearch f) "search" := by
  unfold wireFields
  simp only [objLookup_append]
  have hsegIds : objLookup (segIds f) "search" = none :=
    objLookup_none_of_keys (fun p hp => by rw [segIds_keys f p hp]; decide)
  have hsegKinds : objLookup (segKinds f) "search" = none :=
    objLookup_none_of_keys (fun p hp => by rw [segKinds_keys f p hp]; decide)
  have hsegAuthors : objLookup (segAuthors f) "search" = none :=
    objLookup_none_of_keys (fun p hp => by rw [segAuthors_keys f p hp]; decide)
  have hsegSince : objLookup (segSince f) "search" = none :=
    objLookup_none_of_keys (fun p hp => by rw [segSince_keys f p hp]; decide)
  have hsegUntil : objLookup (segUntil f) "search" = none :=
    objLookup_none_of_keys (fun p hp => by rw [segUntil_keys f p hp]; decide)
  have hsegLimit : objLookup (segLimit f) "search" = none :=
    objLookup_none_of_keys (fun p hp => by rw [segLimit_keys f p hp]; decide)
  have htg : objLookup (segTags f) "search" = none :=
    objLookup_none_of_keys (segTags_ne (by decide))
  rw [hsegIds, hsegKinds, hsegAuthors, hsegSince, hsegUntil, hsegLimit, htg]
  cases objLookup (segSearch f) "search" <;> rfl

lemma filterMap_eq_map_of {α β} {g : α → Option β} {m : α → β} {l : List α}
    (h : ∀ x ∈ l, g x = some (m x)) : l.filterMap g = l.map m := by
  induction l with
  | nil => rfl
  | cons x xs ih =>
    rw [List.filterMap_cons, h x (List.mem_cons_self x xs),
      ih (fun y hy => h y (List.mem_cons_of_mem x hy)), List.map_cons]

lemma filterMap_nil_of {α β} {g : α → Option β} {l : List α}
    (h : ∀ x ∈ l, g x = none) : l.filterMap g = [] :=
  List.filterMap_eq_nil.mpr h

lemma tagValue_round (v : Option String) : tagValueOf (tagValueToJson v) = v := by
  cases v <;> rfl

lemma tagSetsOf_round (sets : List TagValues) :
    tagSetsOf (Json.arr (sets.map (fun vs => Json.arr (vs.map tagValueToJson)))) = sets := by
  simp only [tagSetsOf]
  rw [if_pos]
  · rw [List.map_map]
    conv_rhs => rw [← List.map_id sets]
    refine List.map_congr_left (fun vs _ => ?_)
    show (vs.map tagValueToJson).map tagValueOf = vs
    rw [List.map_map]
    conv_rhs => rw [← List.map_id vs]
    exact List.map_congr_left (fun v _ => tagValue_round v)
  · rw [List.all_eq_true]
    intro x hx
    obtain ⟨vs, _, hvs⟩ := List.mem_map.mp hx
    rw [← hvs]

lemma reserved_not_tag {k : String} (hk : k.data.headD ' ' ≠ '#') (v : Json) :
    tagEntryOf (k, v) = none := by
  unfold tagEntryOf
  cases hd : k.data with
  | nil => rfl
  | cons c cs =>
    have : c ≠ '#' := by rw [hd] at hk; exact hk
    simp only [hd]
    split
    · rename_i heq
      injection heq with h1 _
      exact absurd h1 this
    · rfl

lemma wire_tagEntries (f : Filter) :
    (wireFields f).filterMap tagEntryOf =
      (f.Tags.getD []).map (fun p => (p.1, p.2)) := by
  unfold wireFields
  simp only [List.filterMap_append]
  rw [filterMap_nil_of (fun p hp => by
      rw [show p = ("ids", p.2) from Prod.ext (segIds_keys f p hp) rfl]
      exact reserved_not_tag (by decide) _),
    filterMap_nil_of (fun p hp => by
      rw [show p = ("kinds", p.2) from Prod.ext (segKinds_keys f p hp) rfl]
      exact reserved_not_tag (by decide) _),
    filterMap_nil_of (fun p hp => by
      rw [show p = ("authors", p.2) from Prod.ext (segAuthors_keys f p hp) rfl]
      exact reserved_not_tag (by decide) _),
    filterMap_nil_of (fun p hp => by
      rw [show p = ("since", p.2) from Prod.ext (segSince_keys f p hp) rfl]
      exact reserved_not_tag (by decide) _),
    filterMap_nil_of (fun p hp => by
      rw [show p = ("until", p.2) from Prod.ext (segUntil_keys f p hp) rfl]
      exact reserved_not_tag (by decide) _),
    filterMap_nil_of (fun p hp => by
      rw [show p = ("limit", p.2) from Prod.ext (segLimit_keys f p hp) rfl]
      exact reserved_not_tag (by decide) _),
    filterMap_nil_of (fun p hp => by
      rw [show p = ("search", p.2) from Prod.ext (segSearch_keys f p hp) rfl]
      exact reserved_not_tag (by decide) _)]
  simp only [List.nil_append]
  unfold segTags
  rw [List.filterMap_map]
  refine filterMap_eq_map_of (fun p _ => ?_)
  show tagEntryOf ("#" ++ p.1, _) = _
  unfold tagEntryOf
  simp only [String.data_append]
  show (match ('#' :: p.1.data : List Char) with
    | '#' :: ks => some (String.mk ks, tagSetsOf _)
    | _ => none) = _
  simp only []
  rw [string_mk_data, tagSetsOf_round]

end FilterCodecLemmas

/-- Well-formed filters for the wire: no empty-but-present slices or tag
maps (`omitempty` drops them), `LimitZero` only with `Limit = 0`, a
non-negative limit, and safe strings throughout. -/
def WFFilter (f : Filter) : Bool :=
  !(f.IDs == some []) && !(f.Kinds == some []) && !(f.Authors == some []) &&
  !(f.Tags == some []) &&
  (!f.LimitZero || f.Limit == 0) && decide (0 ≤ f.Limit) &&
  (f.IDs.getD []).all safeStr && (f.Authors.getD []).all safeStr &&
  safeStr f.Search &&
  (f.Tags.getD []).all (fun p =>
    safeStr p.1 && p.2.all (fun vs => vs.all (fun v => safeStr (v.getD ""))))

section CodecRoundTrip

lemma tagJson_round (t : Tag) : (t.map Json.str).map jStr = t := by
  rw [List.map_map]
  conv_rhs => rw [← List.map_id t]
  exact List.map_congr_left (fun s _ => rfl)

lemma tags_round (ts : Tags) :
    asTags (some (Json.arr (ts.map (fun t => Json.arr (t.map Json.str))))) = ts := by
  show (ts.map (fun t => Json.arr (t.map Json.str))).map
    (fun x => match x with | Json.arr ys => ys.map jStr | _ => []) = ts
  rw [List.map_map]
  conv_rhs => rw [← List.map_id ts]
  exact List.map_congr_left (fun t _ => tagJson_round t)

/-- The event codec round-trips. -/
lemma event_roundTrip (e : Event) : eventFromJson (eventToJson e) = .ok e := by
  have h : eventFromJson (eventToJson e) = .ok
      { ID := e.ID, PubKey := e.PubKey, CreatedAt := e.CreatedAt, Kind := e.Kind
        Tags := asTags (some (Json.arr (e.Tags.map (fun t => Json.arr (t.map Json.str)))))
        Content := e.Content, Sig := e.Sig } := rfl
  rw [h, tags_round]

lemma numJson_round (l : List Int) : (l.map Json.num).map (fun x => asNum (some x)) = l := by
  rw [List.map_map]
  conv_rhs => rw [← List.map_id l]
  exact List.map_congr_left (fun n _ => rfl)

/-- The filter codec round-trips on well-formed filters. -/
lemma filter_roundTrip (f : Filter) (hwf : WFFilter f = true) :
    filterFromJson (filterToJson f) = .ok f := by
  unfold WFFilter at hwf
  simp only [Bool.and_eq_true] at hwf
  obtain ⟨⟨⟨⟨⟨⟨⟨⟨⟨hids0, hkinds0⟩, hauthors0⟩, htags0⟩, hlz⟩, hge⟩, hidsafe⟩,
    hausafe⟩, hssafe⟩, htagsafe⟩ := hwf
  have hmain : filterFromJson (filterToJson f) = .ok
      { IDs := match objLookup (wireFields f) "ids" with
               | some (.arr xs) => some (xs.map jStr)
               | _ => none
        Kinds := match objLookup (wireFields f) "kinds" with
                 | some (.arr xs) => some (xs.map (fun x => asNum (some x)))
                 | _ => none
        Authors := match objLookup (wireFields f) "authors" with
                   | some (.arr xs) => some (xs.map jStr)
                   | _ => none
        Tags := if ((wireFields f).filterMap tagEntryOf).isEmpty then none
                else some ((wireFields f).filterMap tagEntryOf)
        Since := match objLookup (wireFields f) "since" with
                 | some (.num n) => some n
                 | _ => none
        Until := match objLookup (wireFields f) "until" with
                 | some (.num n) => some n
                 | _ => none
        Limit := asNum (objLookup (wireFields f) "limit")
        Search := asStr (objLookup (wireFields f) "search")
        LimitZero := match objLookup (wireFields f) "limit" with
                     | some (.num n) => n == 0
                     | _ => false } := rfl
  rw [hmain]
  refine congrArg Except.ok ?_
  have hTagList : (wireFields f).filterMap tagEntryOf = f.Tags.getD [] := by
    rw [wire_tagEntries]
    conv_rhs => rw [← List.map_id (f.Tags.getD [])]
    rfl
  cases f with
  | mk ids kinds authors tags since until_ limit search lz =>
    simp only [Filter.mk.injEq]
    refine ⟨?_, ?_, ?_, ?_, ?_, ?_, ?_, ?_, ?_⟩
    · rw [wire_lookup_ids]
      cases ids with
      | none => rfl
      | some l =>
        cases l with
        | nil => simp at hids0
        | cons x xs =>
          show (match some (Json.arr ((x :: xs).map Json.str)) with
            | some (.arr v) => some (v.map jStr)
            | _ => none) = some (x :: xs)
          rw [show (match some (Json.arr ((x :: xs).map Json.str)) with
            | some (.arr v) => some (v.map jStr)
            | _ => none) = some (((x :: xs).map Json.str).map jStr) from rfl]
          rw [tagJson_round]
    · rw [wire_lookup_kinds]
      cases kinds with
      | none => rfl
      | some l =>
        cases l with
        | nil => simp at hkinds0
        | cons x xs =>
          rw [show (match objLookup (segKinds ⟨ids, some (x :: xs), authors, tags, since,
              until_, limit, search, lz⟩) "kinds" with
            | some (.arr v) => some (v.map (fun x => asNum (some x)))
            | _ => none) = some (((x :: xs).map Json.num).map (fun x => asNum (some x))) from rfl]
          rw [numJson_round]
    · rw [wire_lookup_authors]
      cases authors with
      | none => rfl
      | some l =>
        cases l with
        | nil => simp at hauthors0
        | cons x xs =>
          rw [show (match objLookup (segAuthors ⟨ids, kinds, some (x :: xs), tags, since,
              until_, limit, search, lz⟩) "authors" with
            | some (.arr v) => some (v.map jStr)
            | _ => none) = some (((x :: xs).map Json.str).map jStr) from rfl]
          rw [tagJson_round]
    · rw [hTagList]
      cases tags with
      | none => rfl
      | some m =>
        cases m with
        | nil => simp at htags0
        | cons p ps => rfl
    · rw [wire_lookup_since]
      cases since <;> rfl
    · rw [wire_lookup_until]
      cases until_ <;> rfl
    · rw [wire_lookup_limit]
      unfold segLimit
      by_cases hb : (lz || !(limit == 0)) = true
      · rw [if_pos hb]
        rfl
      · rw [if_neg hb]
        have hb' : (lz || !(limit == 0)) = false := by simpa using hb
        simp only [Bool.or_eq_false_iff, Bool.not_eq_false', beq_iff_eq] at hb'
        rw [hb'.2]
        rfl
    · rw [wire_lookup_search]
      unfold segSearch
      by_cases hc : search = ""
      · rw [if_neg (by simp [hc])]
        subst hc
        rfl
      · rw [if_pos (by simp [hc])]
        rfl
    · rw [wire_lookup_limit]
      unfold segLimit
      by_cases hb : (lz || !(limit == 0)) = true
      · rw [if_pos hb]
        show (limit == 0) = lz
        cases hlzv : lz with
        | true =>
          have hl0 : (limit == 0) = true := by
            rw [hlzv] at hlz
            simpa using hlz
          rw [hl0]
        | false =>
          rw [hlzv] at hb
          simp only [Bool.false_or, Bool.not_eq_true'] at hb
          rw [hb]
      · rw [if_neg hb]
        have hb' : (lz || !(limit == 0)) = false := by simpa using hb
        simp only [Bool.or_eq_false_iff, Bool.not_eq_false', beq_iff_eq] at hb'
        exact hb'.1.symm

end CodecRoundTrip

/-! ### Envelopes (the file with `ParseMessage`) -/

/-- Hex digit value, accepting both cases (Go's `encoding/hex`). -/
def hexVal (c : Char) : Option Nat :=
  if 48 ≤ c.toNat ∧ c.toNat ≤ 57 then some (c.toNat - 48)
  else if 97 ≤ c.toNat ∧ c.toNat ≤ 102 then some (c.toNat - 87)
  else if 65 ≤ c.toNat ∧ c.toNat ≤ 70 then some (c.toNat - 55)
  else none

/-- `hex.DecodeString`: pairs of hex digits to bytes; odd length or a
bad digit is an error (`none`). -/
def hexDecode : List Char → Option (List Nat)
  | [] => some []
  | [_] => none
  | c1 :: c2 :: rest =>
    match hexVal c1, hexVal c2, hexDecode rest with
    | some h, some l, some bs => some ((16 * h + l) :: bs)
    | _, _, _ => none

/-- Lowercase hex digit characters (Go's encoder). -/
def hexChar (d : Nat) : Char := "0123456789abcdef".data.getD d '0'

/-- `hex.Encode` of a byte slice. -/
def hexEncode : List Nat → List Char
  | [] => []
  | b :: bs => hexChar (b / 16) :: hexChar (b % 16) :: hexEncode bs

/-- `EventEnvelope` from the envelope file. -/
structure EventEnvelope where
  SubscriptionID : Option String := none
  Events : List Event := []
  deriving Repr, DecidableEq

/-- `ReqEnvelope`. -/
structure ReqEnvelope where
  SubscriptionID : String
  Filters : List Filter
  deriving Repr, DecidableEq

/-- `CountEnvelope` (`HyperLogLog` is a `[]byte`, `none` when nil). -/
structure CountEnvelope where
  SubscriptionID : String
  Filters : List Filter := []
  Count : Option Int := none
  HyperLogLog : Option (List Nat) := none
  deriving Repr, DecidableEq

/-- `ClosedEnvelope`. -/
structure ClosedEnvelope where
  SubscriptionID : String
  Reason : String
  deriving Repr, DecidableEq

/-- `OKEnvelope`. -/
structure OKEnvelope where
  EventID : String
  OK : Bool
  Reason : String
  deriving Repr, DecidableEq

instance : Inhabited Event := ⟨⟨"", "", 0, 0, [], "", ""⟩⟩

/-- `AuthEnvelope`. -/
structure AuthEnvelope where
  Challenge : Option String := none
  Event : Event := default
  deriving Repr, DecidableEq

/-- The `Envelope` union (`NoticeEnvelope`, `EOSEEnvelope` and
`CloseEnvelope` are strings in the source). -/
inductive Envelope where
  | event (v : EventEnvelope)
  | req (v : ReqEnvelope)
  | count (v : CountEnvelope)
  | notice (v : String)
  | eose (v : String)
  | close (v : String)
  | closed (v : ClosedEnvelope)
  | ok (v : OKEnvelope)
  | auth (v : AuthEnvelope)
  deriving Repr, DecidableEq

/-- Modelled from the spec: `gjson.ParseBytes(data).Array()` — gjson is
an external dependency; on a well-formed document it yields the array's
elements (a null yields nothing, a non-array yields itself); unparsable
input is modelled as no elements. -/
def gjsonArray (cs : List Char) : List Json :=
  match jsonParse cs with
  | some (Json.arr xs) => xs
  | some Json.null => []
  | some j => [j]
  | none => []

/-- The sequential event-decoding loop (first error wins). -/
def eventsFromJson : List Json → Except String (List Event)
  | [] => .ok []
  | j :: js =>
    match eventFromJson j, eventsFromJson js with
    | .ok e, .ok es => .ok (e :: es)
    | .error err, _ => .error err
    | _, .error err => .error err

/-- The sequential filter-decoding loop (first error wins). -/
def filtersFromJson : List Json → Except String (List Filter)
  | [] => .ok []
  | j :: js =>
    match filterFromJson j, filtersFromJson js with
    | .ok f, .ok fs => .ok (f :: fs)
    | .error err, _ => .error err
    | _, .error err => .error err

/-- `EventEnvelope.UnmarshalJSON` (lines 90–130): by array length —
0 or 1 is an error; 2 is the bare `["EVENT", event]` form; 3 or more is
the batch form whose second element, when a string or null, is the
subscription id. -/
def EventEnvelope.UnmarshalJSON (data : List Char) : Except String EventEnvelope :=
  match gjsonArray data with
  | [] => .error "failed to decode EVENT envelope: unknown array len: 0"
  | [_] => .error "failed to decode EVENT envelope: unknown array len: 1"
  | [_, j] =>
    match eventFromJson j with
    | .ok ev => .ok ⟨none, [ev]⟩
    | .error e => .error e
  | _ :: j1 :: j2 :: rest =>
    let p : Option String × List Json :=
      match j1 with
      | Json.str s => (some s, j2 :: rest)
      | Json.null => (none, j2 :: rest)
      | _ => (none, j1 :: j2 :: rest)
    match eventsFromJson p.2 with
    | .ok evs => .ok ⟨p.1, evs⟩
    | .error e => .error e

/-- `ReqEnvelope.UnmarshalJSON` (lines 160–177). -/
def ReqEnvelope.UnmarshalJSON (data : List Char) : Except String ReqEnvelope :=
  let arr := gjsonArray data
  if arr.length < 3 then .error "failed to decode REQ envelope: missing filters"
  else
    match filtersFromJson (arr.drop 2) with
    | .ok fs => .ok ⟨jStr (arr.getD 1 Json.null), fs⟩
    | .error e => .error e

/-- `json.Unmarshal` of `arr[2]` into the anonymous
`{Count *int64; HLL string}` struct of `CountEnvelope.UnmarshalJSON`:
`some` exactly when the decode succeeds with a non-nil `count`. -/
def countResultFromJson (j : Json) : Option (Int × String) :=
  match j with
  | .obj fs =>
    match objLookup fs "count" with
    | some (.num n) =>
      match objLookup fs "hll" with
      | some (.str h) => some (n, h)
      | none => some (n, "")
      | some _ => none
    | _ => none
  | _ => none

/-- `CountEnvelope.UnmarshalJSON` (lines 204–240): a count response sets
`Count`, decoding the HLL only when it is exactly 512 hex chars (a bad
512-char string is an error, any other length is ignored); otherwise the
elements after the subscription id are filters. -/
def CountEnvelope.UnmarshalJSON (data : List Char) : Except String CountEnvelope :=
  let arr := gjsonArray data
  if arr.length < 3 then .error "failed to decode COUNT envelope: missing filters"
  else
    let subID := jStr (arr.getD 1 Json.null)
    match countResultFromJson (arr.getD 2 Json.null) with
    | some (cnt, hll) =>
      if hll.length = 512 then
        match hexDecode hll.data with
        | some bytes => .ok ⟨subID, [], some cnt, some bytes⟩
        | none => .error "invalid hll value in COUNT message"
      else .ok ⟨subID, [], some cnt, none⟩
    | none =>
      match filtersFromJson (arr.drop 2) with
      | .ok fs => .ok ⟨subID, fs, none, none⟩
      | .error e => .error e

/-- `NoticeEnvelope.UnmarshalJSON` (lines 275–283). -/
def NoticeEnvelope.UnmarshalJSON (data : List Char) : Except String String :=
  let arr := gjsonArray data
  if arr.length < 2 then .error "failed to decode NOTICE envelope"
  else .ok (jStr (arr.getD 1 Json.null))

/-- `EOSEEnvelope.UnmarshalJSON` (lines 301–309). -/
def EOSEEnvelope.UnmarshalJSON (data : List Char) : Except String String :=
  let arr := gjsonArray data
  if arr.length < 2 then .error "failed to decode EOSE envelope"
  else .ok (jStr (arr.getD 1 Json.null))

/-- `CloseEnvelope.UnmarshalJSON` (lines 327–337): length exactly 2. -/
def CloseEnvelope.UnmarshalJSON (data : List Char) : Except String String :=
  match gjsonArray data with
  | [_, j] => .ok (jStr j)
  | _ => .error "failed to decode CLOSE envelope"

/-- `ClosedEnvelope.UnmarshalJSON` (lines 358–368): length exactly 3. -/
def ClosedEnvelope.UnmarshalJSON (data : List Char) : Except String ClosedEnvelope :=
  match gjsonArray data with
  | [_, j1, j2] => .ok ⟨jStr j1, jStr j2⟩
  | _ => .error "failed to decode CLOSED envelope"

/-- `arr[2].Raw == "true"`: only the boolean literal renders as the raw
bytes `true`. -/
def jRawTrue (j : Json) : Bool :=
  match j with
  | .bool true => true
  | _ => false

/-- `OKEnvelope.UnmarshalJSON` (lines 392–403). -/
def OKEnvelope.UnmarshalJSON (data : List Char) : Except String OKEnvelope :=
  let arr := gjsonArray data
  if arr.length < 4 then .error "failed to decode OK envelope: missing fields"
  else .ok ⟨jStr (arr.getD 1 Json.null), jRawTrue (arr.getD 2 Json.null),
    jStr (arr.getD 3 Json.null)⟩

/-- `AuthEnvelope.UnmarshalJSON` (lines 431–443): an object is the
signed-event form, anything else is a challenge. -/
def AuthEnvelope.UnmarshalJSON (data : List Char) : Except String AuthEnvelope :=
  let arr := gjsonArray data
  if arr.length < 2 then .error "failed to decode Auth envelope: missing fields"
  else
    match arr.getD 1 Json.null with
    | .obj fs =>
      match eventFromJson (.obj fs) with
      | .ok e => .ok ⟨none, e⟩
      | .error er => .error er
    | j => .ok ⟨some (jStr j), default⟩

/-- A character the standard-library `encoding/json` string encoder
escapes for HTML safety. -/
def htmlChar (c : Char) : Bool := c == '<' || c == '>' || c == '&'

/-- A string `json.Marshal` emits verbatim (no quote, backslash, control
or HTML character). -/
def jsonSafeStr (s : String) : Bool := safeStr s && s.data.all (fun c => !htmlChar c)

/-- Modelled from the spec: `json.Marshal` of a string.  The model only
ever applies it (under the well-formedness hypotheses) to strings that
need no escaping, on which the standard encoder emits the quoted
verbatim bytes. -/
def jsonMarshalStr (s : String) : List Char := renderStr s

/-- The 512-byte buffer `hex.Encode` fills in `CountEnvelope.MarshalJSON`
(`hllHex := make([]byte, 512)`): the encoder writes `2*len(src)` hex
digits at the front and the rest of the buffer keeps its NUL bytes; the
whole buffer is appended to the output.  (Go would panic past 256 source
bytes; well-formedness keeps the source at exactly 256.) -/
def hllField (bytes : List Nat) : List Char :=
  (hexEncode bytes ++ List.replicate 512 (Char.ofNat 0)).take 512

/-- Comma-joined chunks, no leading comma (the `EVENT` writer loop). -/
def joinComma : List (List Char) → List Char
  | [] => []
  | [x] => x
  | x :: y :: xs => x ++ ',' :: joinComma (y :: xs)

/-- Comma-prefixed chunks (the `REQ`/`COUNT` filter writer loops). -/
def commaItems : List (List Char) → List Char
  | [] => []
  | x :: xs => ',' :: x ++ commaItems xs

/-- `EventEnvelope.MarshalJSON` (lines 132–151): `["EVENT",`, the
subscription id written raw in quotes when present (with a comma when
events follow), the comma-joined events, `]`. -/
def EventEnvelope.MarshalJSON (v : EventEnvelope) : List Char :=
  '[' :: renderStr "EVENT" ++ ',' ::
    ((match v.SubscriptionID with
      | some s => renderStr s ++ (if 0 < v.Events.length then [','] else [])
      | none => []) ++
     joinComma (v.Events.map (fun e => renderJson (eventToJson e))) ++ [']'])

/-- `ReqEnvelope.MarshalJSON` (lines 179–189). -/
def ReqEnvelope.MarshalJSON (v : ReqEnvelope) : List Char :=
  '[' :: renderStr "REQ" ++ ',' :: renderStr v.SubscriptionID ++
    commaItems (v.Filters.map (fun f => renderJson (filterToJson f))) ++ [']']

/-- `CountEnvelope.MarshalJSON` (lines 242–265): with a count,
`,{"count":` n [`,"hll":"` buffer `"`] `}`; otherwise the
comma-prefixed filters. -/
def CountEnvelope.MarshalJSON (v : CountEnvelope) : List Char :=
  '[' :: renderStr "COUNT" ++ ',' :: renderStr v.SubscriptionID ++
    (match v.Count with
     | some n =>
       ',' :: '{' :: renderStr "count" ++ ':' :: intChars n ++
         (match v.HyperLogLog with
          | some bytes => ',' :: renderStr "hll" ++ ':' :: qc :: hllField bytes ++ [qc]
          | none => []) ++ ['}']
     | none => commaItems (v.Filters.map (fun f => renderJson (filterToJson f)))) ++ [']']

/-- `NoticeEnvelope.MarshalJSON` (lines 285–291). -/
def NoticeEnvelope.MarshalJSON (s : String) : List Char :=
  '[' :: renderStr "NOTICE" ++ ',' :: jsonMarshalStr s ++ [']']

/-- `EOSEEnvelope.MarshalJSON` (lines 311–317). -/
def EOSEEnvelope.MarshalJSON (s : String) : List Char :=
  '[' :: renderStr "EOSE" ++ ',' :: jsonMarshalStr s ++ [']']

/-- `CloseEnvelope.MarshalJSON` (lines 339–345). -/
def CloseEnvelope.MarshalJSON (s : String) : List Char :=
  '[' :: renderStr "CLOSE" ++ ',' :: jsonMarshalStr s ++ [']']

/-- `ClosedEnvelope.MarshalJSON` (lines 370–378). -/
def ClosedEnvelope.MarshalJSON (v : ClosedEnvelope) : List Char :=
  '[' :: renderStr "CLOSED" ++ ',' :: jsonMarshalStr v.SubscriptionID ++
    ',' :: jsonMarshalStr v.Reason ++ [']']

/-- `OKEnvelope.MarshalJSON` (lines 405–418): the event id raw in
quotes, the raw `true`/`false`, the reason via `json.Marshal`. -/
def OKEnvelope.MarshalJSON (v : OKEnvelope) : List Char :=
  '[' :: renderStr "OK" ++ ',' :: renderStr v.EventID ++
    ',' :: (if v.OK then ['t', 'r', 'u', 'e'] else ['f', 'a', 'l', 's', 'e']) ++
    ',' :: jsonMarshalStr v.Reason ++ [']']

/-- `AuthEnvelope.MarshalJSON` (lines 445–455). -/
def AuthEnvelope.MarshalJSON (v : AuthEnvelope) : List Char :=
  '[' :: renderStr "AUTH" ++ ',' ::
    ((match v.Challenge with
      | some c => jsonMarshalStr c
      | none => renderJson (eventToJson v.Event)) ++ [']'])

/-- The interface dispatch of `MarshalJSON` over the envelope union. -/
def Envelope.MarshalJSON : Envelope → List Char
  | .event v => EventEnvelope.MarshalJSON v
  | .req v => ReqEnvelope.MarshalJSON v
  | .count v => CountEnvelope.MarshalJSON v
  | .notice s => NoticeEnvelope.MarshalJSON s
  | .eose s => EOSEEnvelope.MarshalJSON s
  | .close s => CloseEnvelope.MarshalJSON s
  | .closed v => ClosedEnvelope.MarshalJSON v
  | .ok v => OKEnvelope.MarshalJSON v
  | .auth v => AuthEnvelope.MarshalJSON v

/-- `bytes.Index(message, []byte{','})`: index of the first comma. -/
def firstComma? : List Char → Option Nat
  | [] => none
  | c :: rest => if c = ',' then some 0 else (firstComma? rest).map (· + 1)

/-- `bytes.HasPrefix`. -/
def startsWithL : List Char → List Char → Bool
  | _, [] => true
  | [], _ :: _ => false
  | h :: hs, n :: ns => h = n && startsWithL hs ns

/-- `bytes.Contains`. -/
def containsSub : List Char → List Char → Bool
  | [], needle => needle.isEmpty
  | h :: hs, needle => startsWithL (h :: hs) needle || containsSub hs needle

/-- The two error shapes of `ParseMessage`: `ErrMessageUnknown`, and
`errors.Join(ErrMessageParse, err)` wrapping the variant decoder's
error. -/
inductive ParseErr where
  | unknown
  | parse (inner : String)
  deriving Repr, DecidableEq

/-- `return v, nil` on success, `errors.Join(ErrMessageParse, err)` on a
decoder failure. -/
def wrapParse {α : Type} (g : α → Envelope) : Except String α → Except ParseErr Envelope
  | .ok v => .ok (g v)
  | .error e => .error (ParseErr.parse e)

/-- `ParseMessage` (lines 20–58): if the message has no comma return
`ErrMessageUnknown`; otherwise dispatch on which label the bytes before
the first comma contain, in source order, run that variant's
`UnmarshalJSON` on the whole message, and wrap its failure in
`ErrMessageParse`; no known label is `ErrMessageUnknown`. -/
def ParseMessage (message : List Char) : Except ParseErr Envelope :=
  match firstComma? message with
  | none => .error ParseErr.unknown
  | some firstComma =>
    let label := message.take firstComma
    if containsSub label "EVENT".data then
      wrapParse Envelope.event (EventEnvelope.UnmarshalJSON message)
    else if containsSub label "REQ".data then
      wrapParse Envelope.req (ReqEnvelope.UnmarshalJSON message)
    else if containsSub label "COUNT".data then
      wrapParse Envelope.count (CountEnvelope.UnmarshalJSON message)
    else if containsSub label "NOTICE".data then
      wrapParse Envelope.notice (NoticeEnvelope.UnmarshalJSON message)
    else if containsSub label "EOSE".data then
      wrapParse Envelope.eose (EOSEEnvelope.UnmarshalJSON message)
    else if containsSub label "OK".data then
      wrapParse Envelope.ok (OKEnvelope.UnmarshalJSON message)
    else if containsSub label "AUTH".data then
      wrapParse Envelope.auth (AuthEnvelope.UnmarshalJSON message)
    else if containsSub label "CLOSED".data then
      wrapParse Envelope.closed (ClosedEnvelope.UnmarshalJSON message)
    else if containsSub label "CLOSE".data then
      wrapParse Envelope.close (CloseEnvelope.UnmarshalJSON message)
    else .error ParseErr.unknown

/-- Well-formed `EventEnvelope`: a safe subscription id, at least one
event, all events well-formed. -/
def WFEventEnvelope (v : EventEnvelope) : Bool :=
  (match v.SubscriptionID with | some s => safeStr s | none => true) &&
  !v.Events.isEmpty && v.Events.all WFEvent

/-- Well-formed `ReqEnvelope`: a safe subscription id and at least one
well-formed filter. -/
def WFReqEnvelope (v : ReqEnvelope) : Bool :=
  safeStr v.SubscriptionID && !v.Filters.isEmpty && v.Filters.all WFFilter

/-- Well-formed `CountEnvelope`: a safe subscription id; a count
response carries no filters and its HLL, if any, is exactly 256 bytes; a
count request carries at least one well-formed filter and no HLL. -/
def WFCountEnvelope (v : CountEnvelope) : Bool :=
  safeStr v.SubscriptionID &&
  (match v.Count, v.HyperLogLog with
   | some _, some bytes =>
     v.Filters.isEmpty && bytes.length == 256 && bytes.all (fun b => decide (b < 256))
   | some _, none => v.Filters.isEmpty
   | none, none => !v.Filters.isEmpty && v.Filters.all WFFilter
   | none, some _ => false)

/-- Well-formed `ClosedEnvelope`. -/
def WFClosedEnvelope (v : ClosedEnvelope) : Bool :=
  jsonSafeStr v.SubscriptionID && jsonSafeStr v.Reason

/-- Well-formed `OKEnvelope`. -/
def WFOKEnvelope (v : OKEnvelope) : Bool :=
  safeStr v.EventID && jsonSafeStr v.Reason

/-- Well-formed `AuthEnvelope`: a challenge with the zero event, or no
challenge and a well-formed event. -/
def WFAuthEnvelope (v : AuthEnvelope) : Bool :=
  match v.Challenge with
  | some c => jsonSafeStr c && v.Event == default
  | none => WFEvent v.Event

/-- Well-formed envelopes: the fields survive the wire verbatim. -/
def WFEnvelope : Envelope → Bool
  | .event v => WFEventEnvelope v
  | .req v => WFReqEnvelope v
  | .count v => WFCountEnvelope v
  | .notice s => jsonSafeStr s
  | .eose s => jsonSafeStr s
  | .close s => jsonSafeStr s
  | .closed v => WFClosedEnvelope v
  | .ok v => WFOKEnvelope v
  | .auth v => WFAuthEnvelope v

section HexLemmas

lemma hexEncode_length (bs : List Nat) : (hexEncode bs).length = 2 * bs.length := by
  induction bs with
  | nil => rfl
  | cons b t ih =>
    show (hexChar (b / 16) :: hexChar (b % 16) :: hexEncode t).length = 2 * (b :: t).length
    simp only [List.length_cons, ih]
    omega

lemma hexVal_hexChar {d : Nat} (h : d < 16) : hexVal (hexChar d) = some d := by
  interval_cases d <;> decide

lemma hexDecode_encode (bs : List Nat) (h : ∀ b ∈ bs, b < 256) :
    hexDecode (hexEncode bs) = some bs := by
  induction bs with
  | nil => rfl
  | cons b t ih =>
    have hb : b < 256 := h b (List.mem_cons_self b t)
    have h1 : b / 16 < 16 := by omega
    have h2 : b % 16 < 16 := by omega
    show hexDecode (hexChar (b / 16) :: hexChar (b % 16) :: hexEncode t) = some (b :: t)
    rw [hexDecode, hexVal_hexChar h1, hexVal_hexChar h2,
      ih (fun x hx => h x (List.mem_cons_of_mem b hx))]
    show some ((16 * (b / 16) + b % 16) :: t) = some (b :: t)
    have hbb : 16 * (b / 16) + b % 16 = b := by omega
    rw [hbb]

lemma hexDecode_length (cs : List Char) :
    ∀ bs, hexDecode cs = some bs → cs.length = 2 * bs.length := by
  induction cs using hexDecode.induct with
  | case1 =>
    intro bs h
    injection h with h
    rw [← h]
    rfl
  | case2 c =>
    intro bs h
    exact absurd h (by simp [hexDecode])
  | case3 c1 c2 rest v1 v2 bs0 hrest hv2 hv1 ih =>
    intro bs h
    rw [hexDecode, hv1, hv2, hrest] at h
    injection h with h
    rw [← h]
    simp only [List.length_cons, ih bs0 hrest]
    omega
  | case4 c1 c2 rest hno ih =>
    intro bs h
    rw [hexDecode] at h
    split at h
    · next a b c d e f =>
      exact (hno _ _ _ (by assumption) (by assumption) (by assumption)).elim
    · exact absurd h (by simp)

lemma hllField_eq {bytes : List Nat} (h : bytes.length = 256) :
    hllField bytes = hexEncode bytes := by
  unfold hllField
  exact List.take_left' (by rw [hexEncode_length, h])

lemma safeChar_hexChar (d : Nat) : safeChar (hexChar d) = true := by
  by_cases hd : d < 16
  · interval_cases d <;> decide
  · unfold hexChar
    rw [List.getD_eq_default _ _ (by simpa using hd)]
    decide

lemma hexEncode_safe (bs : List Nat) : (hexEncode bs).all safeChar = true := by
  induction bs with
  | nil => rfl
  | cons b t ih =>
    show (hexChar (b / 16) :: hexChar (b % 16) :: hexEncode t).all safeChar = true
    simp [List.all_cons, safeChar_hexChar, ih]

end HexLemmas

section EnvelopeRenderLemmas

lemma joinComma_render (xs : List Json) : joinComma (xs.map renderJson) = renderElems xs := by
  induction xs with
  | nil => rfl
  | cons x t ih =>
    cases t with
    | nil => rfl
    | cons y t2 =>
      show renderJson x ++ ',' :: joinComma ((y :: t2).map renderJson) = _
      rw [ih]
      rfl

lemma renderElemsChunks (x : Json) (xs : List Json) :
    renderElems (x :: xs) = renderJson x ++ commaItems (xs.map renderJson) := by
  induction xs generalizing x with
  | nil => simp [renderElems, commaItems]
  | cons y t ih =>
    show renderJson x ++ ',' :: renderElems (y :: t) = _
    rw [ih y]
    simp [commaItems]

lemma msg_shape (L : String) (b : Json) (rest : List Json) :
    renderJson (Json.arr (Json.str L :: b :: rest)) =
      ('[' :: renderStr L) ++ ',' :: (renderElems (b :: rest) ++ [']']) := by
  show '[' :: renderElems (Json.str L :: b :: rest) ++ [']'] = _
  show '[' :: (renderJson (Json.str L) ++ ',' :: renderElems (b :: rest)) ++ [']'] = _
  simp [renderJson, List.append_assoc]

lemma firstComma_pre (pre suf : List Char) (h : pre.all (fun c => !(c == ',')) = true) :
    firstComma? (pre ++ ',' :: suf) = some pre.length := by
  induction pre with
  | nil => simp [firstComma?]
  | cons c t ih =>
    simp only [List.all_cons, Bool.and_eq_true] at h
    have hc : ¬(c = ',') := by simpa using h.1
    show firstComma? (c :: (t ++ ',' :: suf)) = some (t.length + 1)
    rw [firstComma?, if_neg hc, ih h.2]
    rfl

lemma ParseMessage_label (pre suf : List Char) (h : pre.all (fun c => !(c == ',')) = true) :
    ParseMessage (pre ++ ',' :: suf) =
      (if containsSub pre "EVENT".data then
        wrapParse Envelope.event (EventEnvelope.UnmarshalJSON (pre ++ ',' :: suf))
      else if containsSub pre "REQ".data then
        wrapParse Envelope.req (ReqEnvelope.UnmarshalJSON (pre ++ ',' :: suf))
      else if containsSub pre "COUNT".data then
        wrapParse Envelope.count (CountEnvelope.UnmarshalJSON (pre ++ ',' :: suf))
      else if containsSub pre "NOTICE".data then
        wrapParse Envelope.notice (NoticeEnvelope.UnmarshalJSON (pre ++ ',' :: suf))
      else if containsSub pre "EOSE".data then
        wrapParse Envelope.eose (EOSEEnvelope.UnmarshalJSON (pre ++ ',' :: suf))
      else if containsSub pre "OK".data then
        wrapParse Envelope.ok (OKEnvelope.UnmarshalJSON (pre ++ ',' :: suf))
      else if containsSub pre "AUTH".data then
        wrapParse Envelope.auth (AuthEnvelope.UnmarshalJSON (pre ++ ',' :: suf))
      else if containsSub pre "CLOSED".data then
        wrapParse Envelope.closed (ClosedEnvelope.UnmarshalJSON (pre ++ ',' :: suf))
      else if containsSub pre "CLOSE".data then
        wrapParse Envelope.close (CloseEnvelope.UnmarshalJSON (pre ++ ',' :: suf))
      else .error ParseErr.unknown) := by
  rw [ParseMessage, firstComma_pre pre suf h]
  simp only [List.take_left]

end EnvelopeRenderLemmas

section EnvelopeWFLemmas

lemma WFList_of_forall {xs : List Json} (h : ∀ x ∈ xs, WFJson x = true) :
    WFList xs = true := by
  induction xs with
  | nil => rfl
  | cons x t ih =>
    show (WFJson x && WFList t) = true
    simp only [Bool.and_eq_true]
    exact ⟨h x (by simp), ih (fun y hy => h y (by simp [hy]))⟩

lemma WFFields_append (a b : List (String × Json)) :
    WFFields (a ++ b) = (WFFields a && WFFields b) := by
  induction a with
  | nil => simp [WFFields]
  | cons p t ih =>
    show (safeStr p.1 && WFJson p.2 && WFFields (t ++ b)) = _
    show _ = ((safeStr p.1 && WFJson p.2 && WFFields t) && WFFields b)
    rw [ih]
    simp [Bool.and_assoc]

lemma jsonSafe_safe {s : String} (h : jsonSafeStr s = true) : safeStr s = true := by
  unfold jsonSafeStr at h
  simp only [Bool.and_eq_true] at h
  exact h.1

lemma WFList_str_of_all {l : List String} (h : l.all safeStr = true) :
    WFList (l.map Json.str) = true := by
  refine WFList_of_forall (fun x hx => ?_)
  obtain ⟨s, hs, rfl⟩ := List.mem_map.mp hx
  show safeStr s = true
  exact List.all_eq_true.mp h s hs

lemma WFList_num_map (l : List Int) : WFList (l.map Json.num) = true := by
  refine WFList_of_forall (fun x hx => ?_)
  obtain ⟨n, _, rfl⟩ := List.mem_map.mp hx
  rfl

lemma WFJson_eventToJson {e : Event} (h : WFEvent e = true) :
    WFJson (eventToJson e) = true := by
  unfold WFEvent at h
  simp only [Bool.and_eq_true] at h
  obtain ⟨⟨⟨⟨hid, hpk⟩, hcon⟩, hsig⟩, htags⟩ := h
  have k1 : safeStr "id" = true := by decide
  have k2 : safeStr "pubkey" = true := by decide
  have k3 : safeStr "created_at" = true := by decide
  have k4 : safeStr "kind" = true := by decide
  have k5 : safeStr "tags" = true := by decide
  have k6 : safeStr "content" = true := by decide
  have k7 : safeStr "sig" = true := by decide
  have htagsWF : WFList (e.Tags.map (fun t => Json.arr (t.map Json.str))) = true := by
    refine WFList_of_forall (fun x hx => ?_)
    obtain ⟨t, ht, rfl⟩ := List.mem_map.mp hx
    show WFList (t.map Json.str) = true
    exact WFList_str_of_all (List.all_eq_true.mp htags t ht)
  show WFFields _ = true
  simp [WFFields, WFJson, k1, k2, k3, k4, k5, k6, k7, hid, hpk, hcon, hsig, htagsWF]

lemma safeStr_hash {k : String} (hk : safeStr k = true) : safeStr ("#" ++ k) = true := by
  unfold safeStr at hk ⊢
  rw [String.data_append, List.all_append, hk]
  decide

lemma WFJson_tagValue {v : Option String} (h : safeStr (v.getD "") = true) :
    WFJson (tagValueToJson v) = true := by
  cases v with
  | none => rfl
  | some s => exact h

lemma WFFields_segIds {f : Filter} (hsafe : (f.IDs.getD []).all safeStr = true) :
    WFFields (segIds f) = true := by
  unfold segIds
  split
  · next x l heq =>
    have hk : safeStr "ids" = true := by decide
    have hv : WFJson (Json.arr ((x :: l).map Json.str)) = true := by
      show WFList ((x :: l).map Json.str) = true
      exact WFList_str_of_all (by rw [heq] at hsafe; exact hsafe)
    simp only [List.map_cons] at hv
    simp [WFFields, hk, hv]
  · rfl

lemma WFFields_segAuthors {f : Filter} (hsafe : (f.Authors.getD []).all safeStr = true) :
    WFFields (segAuthors f) = true := by
  unfold segAuthors
  split
  · next x l heq =>
    have hk : safeStr "authors" = true := by decide
    have hv : WFJson (Json.arr ((x :: l).map Json.str)) = true := by
      show WFList ((x :: l).map Json.str) = true
      exact WFList_str_of_all (by rw [heq] at hsafe; exact hsafe)
    simp only [List.map_cons] at hv
    simp [WFFields, hk, hv]
  · rfl

lemma WFFields_segKinds (f : Filter) : WFFields (segKinds f) = true := by
  unfold segKinds
  split
  · next x l heq =>
    have hk : safeStr "kinds" = true := by decide
    have hv : WFJson (Json.arr ((x :: l).map Json.num)) = true := WFList_num_map _
    simp only [List.map_cons] at hv
    simp [WFFields, hk, hv]
  · rfl

lemma WFFields_segSince (f : Filter) : WFFields (segSince f) = true := by
  unfold segSince
  split
  · have h1 : safeStr "since" = true := by decide
    simp [WFFields, WFJson, h1]
  · rfl

lemma WFFields_segUntil (f : Filter) : WFFields (segUntil f) = true := by
  unfold segUntil
  split
  · have h1 : safeStr "until" = true := by decide
    simp [WFFields, WFJson, h1]
  · rfl

lemma WFFields_segLimit (f : Filter) : WFFields (segLimit f) = true := by
  unfold segLimit
  split
  · have h1 : safeStr "limit" = true := by decide
    simp [WFFields, WFJson, h1]
  · rfl

lemma WFFields_segSearch {f : Filter} (hs : safeStr f.Search = true) :
    WFFields (segSearch f) = true := by
  unfold segSearch
  split
  · have h1 : safeStr "search" = true := by decide
    simp [WFFields, WFJson, h1, hs]
  · rfl

lemma WFFields_tagList (L : List (String × List TagValues))
    (h : L.all (fun p =>
      safeStr p.1 && p.2.all (fun vs => vs.all (fun v => safeStr (v.getD "")))) = true) :
    WFFields (L.map (fun p =>
      ("#" ++ p.1, Json.arr (p.2.map (fun vs => Json.arr (vs.map tagValueToJson)))))) =
      true := by
  induction L with
  | nil => rfl
  | cons p t ih =>
    simp only [List.all_cons, Bool.and_eq_true] at h
    obtain ⟨⟨hkey, hsets⟩, hrest⟩ := h
    show (safeStr ("#" ++ p.1) &&
      WFJson (Json.arr (p.2.map (fun vs => Json.arr (vs.map tagValueToJson)))) &&
      WFFields _) = true
    simp only [Bool.and_eq_true]
    refine ⟨⟨safeStr_hash hkey, ?_⟩, ih hrest⟩
    show WFList _ = true
    refine WFList_of_forall (fun x hx => ?_)
    obtain ⟨vs, hvs, rfl⟩ := List.mem_map.mp hx
    show WFList (vs.map tagValueToJson) = true
    refine WFList_of_forall (fun y hy => ?_)
    obtain ⟨v, hv, rfl⟩ := List.mem_map.mp hy
    exact WFJson_tagValue
      (List.all_eq_true.mp (List.all_eq_true.mp hsets vs hvs) v hv)

lemma WFFields_segTags {f : Filter}
    (h : (f.Tags.getD []).all (fun p =>
      safeStr p.1 && p.2.all (fun vs => vs.all (fun v => safeStr (v.getD "")))) = true) :
    WFFields (segTags f) = true := by
  unfold segTags
  exact WFFields_tagList _ h

lemma WFJson_filterToJson {f : Filter} (h : WFFilter f = true) :
    WFJson (filterToJson f) = true := by
  unfold WFFilter at h
  simp only [Bool.and_eq_true] at h
  obtain ⟨⟨⟨⟨⟨⟨⟨⟨⟨_, _⟩, _⟩, _⟩, _⟩, _⟩, hidsafe⟩, hausafe⟩, hssafe⟩, htagsafe⟩ := h
  show WFFields (wireFields f) = true
  unfold wireFields
  simp only [WFFields_append, Bool.and_eq_true]
  exact ⟨⟨⟨⟨⟨⟨⟨WFFields_segIds hidsafe, WFFields_segKinds f⟩,
    WFFields_segAuthors hausafe⟩, WFFields_segSince f⟩, WFFields_segUntil f⟩,
    WFFields_segLimit f⟩, WFFields_segSearch hssafe⟩, WFFields_segTags htagsafe⟩

end EnvelopeWFLemmas

section EnvelopeDecodeLemmas

lemma gjsonArray_render {xs : List Json} (h : WFList xs = true) :
    gjsonArray (renderJson (Json.arr xs)) = xs := by
  unfold gjsonArray
  rw [jsonParse_render (j := Json.arr xs) h]

lemma eventsFromJson_map (evs : List Event) :
    eventsFromJson (evs.map eventToJson) = .ok evs := by
  induction evs with
  | nil => rfl
  | cons e t ih =>
    show eventsFromJson (eventToJson e :: t.map eventToJson) = _
    rw [eventsFromJson, event_roundTrip e, ih]

lemma filtersFromJson_map {fs : List Filter} (h : fs.all WFFilter = true) :
    filtersFromJson (fs.map filterToJson) = .ok fs := by
  induction fs with
  | nil => rfl
  | cons f t ih =>
    simp only [List.all_cons, Bool.and_eq_true] at h
    show filtersFromJson (filterToJson f :: t.map filterToJson) = _
    rw [filtersFromJson, filter_roundTrip f h.1, ih h.2]

lemma wireFields_count_none (f : Filter) : objLookup (wireFields f) "count" = none := by
  unfold wireFields
  simp only [objLookup_append]
  have h1 : objLookup (segIds f) "count" = none :=
    objLookup_none_of_keys (fun p hp => by rw [segIds_keys f p hp]; decide)
  have h2 : objLookup (segKinds f) "count" = none :=
    objLookup_none_of_keys (fun p hp => by rw [segKinds_keys f p hp]; decide)
  have h3 : objLookup (segAuthors f) "count" = none :=
    objLookup_none_of_keys (fun p hp => by rw [segAuthors_keys f p hp]; decide)
  have h4 : objLookup (segSince f) "count" = none :=
    objLookup_none_of_keys (fun p hp => by rw [segSince_keys f p hp]; decide)
  have h5 : objLookup (segUntil f) "count" = none :=
    objLookup_none_of_keys (fun p hp => by rw [segUntil_keys f p hp]; decide)
  have h6 : objLookup (segLimit f) "count" = none :=
    objLookup_none_of_keys (fun p hp => by rw [segLimit_keys f p hp]; decide)
  have h7 : objLookup (segSearch f) "count" = none :=
    objLookup_none_of_keys (fun p hp => by rw [segSearch_keys f p hp]; decide)
  have h8 : objLookup (segTags f) "count" = none :=
    objLookup_none_of_keys (segTags_ne (by decide))
  rw [h1, h2, h3, h4, h5, h6, h7, h8]
  rfl

/-- On a filter object the count probe fails, so the decoder falls back
to the filters branch. -/
lemma countResult_filter_none (f : Filter) :
    countResultFromJson (filterToJson f) = none := by
  show (match objLookup (wireFields f) "count" with
    | some (.num n) =>
      match objLookup (wireFields f) "hll" with
      | some (.str h) => some (n, h)
      | none => some (n, "")
      | some _ => none
    | _ => none) = none
  rw [wireFields_count_none f]

end EnvelopeDecodeLemmas

section EnvelopeRoundTrip

lemma roundtrip_notice {s : String} (h : jsonSafeStr s = true) :
    ParseMessage (NoticeEnvelope.MarshalJSON s) = .ok (Envelope.notice s) := by
  have hsafe : safeStr s = true := jsonSafe_safe h
  have hN : safeStr "NOTICE" = true := by decide
  have hwf : WFList [Json.str "NOTICE", Json.str s] = true := by
    simp [WFList, WFJson, hsafe, hN]
  have hm : NoticeEnvelope.MarshalJSON s =
      renderJson (Json.arr [Json.str "NOTICE", Json.str s]) := by
    simp [NoticeEnvelope.MarshalJSON, jsonMarshalStr, renderJson, renderElems,
      List.append_assoc]
  rw [hm, msg_shape, ParseMessage_label _ _ (by decide)]
  rw [if_neg (by decide), if_neg (by decide), if_neg (by decide), if_pos (by decide)]
  rw [← msg_shape]
  show wrapParse Envelope.notice
    (NoticeEnvelope.UnmarshalJSON (renderJson (Json.arr [Json.str "NOTICE", Json.str s]))) = _
  unfold NoticeEnvelope.UnmarshalJSON
  rw [gjsonArray_render hwf]
  rfl

lemma roundtrip_eose {s : String} (h : jsonSafeStr s = true) :
    ParseMessage (EOSEEnvelope.MarshalJSON s) = .ok (Envelope.eose s) := by
  have hsafe : safeStr s = true := jsonSafe_safe h
  have hN : safeStr "EOSE" = true := by decide
  have hwf : WFList [Json.str "EOSE", Json.str s] = true := by
    simp [WFList, WFJson, hsafe, hN]
  have hm : EOSEEnvelope.MarshalJSON s =
      renderJson (Json.arr [Json.str "EOSE", Json.str s]) := by
    simp [EOSEEnvelope.MarshalJSON, jsonMarshalStr, renderJson, renderElems,
      List.append_assoc]
  rw [hm, msg_shape, ParseMessage_label _ _ (by decide)]
  rw [if_neg (by decide), if_neg (by decide), if_neg (by decide), if_neg (by decide),
    if_pos (by decide)]
  rw [← msg_shape]
  show wrapParse Envelope.eose
    (EOSEEnvelope.UnmarshalJSON (renderJson (Json.arr [Json.str "EOSE", Json.str s]))) = _
  unfold EOSEEnvelope.UnmarshalJSON
  rw [gjsonArray_render hwf]
  rfl

lemma roundtrip_close {s : String} (h : jsonSafeStr s = true) :
    ParseMessage (CloseEnvelope.MarshalJSON s) = .ok (Envelope.close s) := by
  have hsafe : safeStr s = true := jsonSafe_safe h
  have hN : safeStr "CLOSE" = true := by decide
  have hwf : WFList [Json.str "CLOSE", Json.str s] = true := by
    simp [WFList, WFJson, hsafe, hN]
  have hm : CloseEnvelope.MarshalJSON s =
      renderJson (Json.arr [Json.str "CLOSE", Json.str s]) := by
    simp [CloseEnvelope.MarshalJSON, jsonMarshalStr, renderJson, renderElems,
      List.append_assoc]
  rw [hm, msg_shape, ParseMessage_label _ _ (by decide)]
  rw [if_neg (by decide), if_neg (by decide), if_neg (by decide), if_neg (by decide),
    if_neg (by decide), if_neg (by decide), if_neg (by decide), if_neg (by decide),
    if_pos (by decide)]
  rw [← msg_shape]
  show wrapParse Envelope.close
    (CloseEnvelope.UnmarshalJSON (renderJson (Json.arr [Json.str "CLOSE", Json.str s]))) = _
  unfold CloseEnvelope.UnmarshalJSON
  rw [gjsonArray_render hwf]
  rfl

lemma roundtrip_closed {v : ClosedEnvelope} (h : WFClosedEnvelope v = true) :
    ParseMessage (ClosedEnvelope.MarshalJSON v) = .ok (Envelope.closed v) := by
  obtain ⟨sub, reason⟩ := v
  unfold WFClosedEnvelope at h
  simp only [Bool.and_eq_true] at h
  have hsub : safeStr sub = true := jsonSafe_safe h.1
  have hreason : safeStr reason = true := jsonSafe_safe h.2
  have hN : safeStr "CLOSED" = true := by decide
  have hwf : WFList [Json.str "CLOSED", Json.str sub, Json.str reason] = true := by
    simp [WFList, WFJson, hsub, hreason, hN]
  have hm : ClosedEnvelope.MarshalJSON ⟨sub, reason⟩ =
      renderJson (Json.arr [Json.str "CLOSED", Json.str sub, Json.str reason]) := by
    simp [ClosedEnvelope.MarshalJSON, jsonMarshalStr, renderJson, renderElems,
      List.append_assoc]
  rw [hm, msg_shape, ParseMessage_label _ _ (by decide)]
  rw [if_neg (by decide), if_neg (by decide), if_neg (by decide), if_neg (by decide),
    if_neg (by decide), if_neg (by decide), if_neg (by decide), if_pos (by decide)]
  rw [← msg_shape]
  show wrapParse Envelope.closed (ClosedEnvelope.UnmarshalJSON
    (renderJson (Json.arr [Json.str "CLOSED", Json.str sub, Json.str reason]))) = _
  unfold ClosedEnvelope.UnmarshalJSON
  rw [gjsonArray_render hwf]
  rfl

lemma roundtrip_ok {v : OKEnvelope} (h : WFOKEnvelope v = true) :
    ParseMessage (OKEnvelope.MarshalJSON v) = .ok (Envelope.ok v) := by
  obtain ⟨id, okb, reason⟩ := v
  unfold WFOKEnvelope at h
  simp only [Bool.and_eq_true] at h
  have hid : safeStr id = true := h.1
  have hreason : safeStr reason = true := jsonSafe_safe h.2
  have hN : safeStr "OK" = true := by decide
  have hwf : WFList [Json.str "OK", Json.str id, Json.bool okb, Json.str reason] = true := by
    simp [WFList, WFJson, hid, hreason, hN]
  have hm : OKEnvelope.MarshalJSON ⟨id, okb, reason⟩ =
      renderJson (Json.arr [Json.str "OK", Json.str id, Json.bool okb, Json.str reason]) := by
    cases okb <;>
      simp [OKEnvelope.MarshalJSON, jsonMarshalStr, renderJson, renderElems,
        List.append_assoc]
  rw [hm, msg_shape, ParseMessage_label _ _ (by decide)]
  rw [if_neg (by decide), if_neg (by decide), if_neg (by decide), if_neg (by decide),
    if_neg (by decide), if_pos (by decide)]
  rw [← msg_shape]
  show wrapParse Envelope.ok (OKEnvelope.UnmarshalJSON
    (renderJson (Json.arr [Json.str "OK", Json.str id, Json.bool okb, Json.str reason]))) = _
  unfold OKEnvelope.UnmarshalJSON
  rw [gjsonArray_render hwf]
  cases okb <;> rfl

lemma authUnmarshal_event {data : List Char} {ev : Event}
    (h : gjsonArray data = [Json.str "AUTH", eventToJson ev]) :
    AuthEnvelope.UnmarshalJSON data = .ok ⟨none, ev⟩ := by
  unfold AuthEnvelope.UnmarshalJSON
  rw [h]
  show (match eventFromJson (eventToJson ev) with
    | .ok e => (.ok ⟨none, e⟩ : Except String AuthEnvelope)
    | .error er => .error er) = .ok ⟨none, ev⟩
  rw [event_roundTrip ev]

lemma roundtrip_auth {v : AuthEnvelope} (h : WFAuthEnvelope v = true) :
    ParseMessage (AuthEnvelope.MarshalJSON v) = .ok (Envelope.auth v) := by
  obtain ⟨ch, ev⟩ := v
  have hA : safeStr "AUTH" = true := by decide
  cases ch with
  | some c =>
    unfold WFAuthEnvelope at h
    simp only [Bool.and_eq_true, beq_iff_eq] at h
    obtain ⟨hc, hev⟩ := h
    subst hev
    have hcs : safeStr c = true := jsonSafe_safe hc
    have hwf : WFList [Json.str "AUTH", Json.str c] = true := by
      simp [WFList, WFJson, hcs, hA]
    have hm : AuthEnvelope.MarshalJSON ⟨some c, default⟩ =
        renderJson (Json.arr [Json.str "AUTH", Json.str c]) := by
      simp [AuthEnvelope.MarshalJSON, jsonMarshalStr, renderJson, renderElems,
        List.append_assoc]
    rw [hm, msg_shape, ParseMessage_label _ _ (by decide)]
    rw [if_neg (by decide), if_neg (by decide), if_neg (by decide), if_neg (by decide),
      if_neg (by decide), if_neg (by decide), if_pos (by decide)]
    rw [← msg_shape]
    show wrapParse Envelope.auth (AuthEnvelope.UnmarshalJSON
      (renderJson (Json.arr [Json.str "AUTH", Json.str c]))) = _
    unfold AuthEnvelope.UnmarshalJSON
    rw [gjsonArray_render hwf]
    rfl
  | none =>
    unfold WFAuthEnvelope at h
    have hwf : WFList [Json.str "AUTH", eventToJson ev] = true := by
      simp [WFList, hA, show WFJson (Json.str "AUTH") = true from hA,
        WFJson_eventToJson h]
    have hm : AuthEnvelope.MarshalJSON ⟨none, ev⟩ =
        renderJson (Json.arr [Json.str "AUTH", eventToJson ev]) := by
      simp [AuthEnvelope.MarshalJSON, renderJson, renderElems, List.append_assoc]
    rw [hm, msg_shape, ParseMessage_label _ _ (by decide)]
    rw [if_neg (by decide), if_neg (by decide), if_neg (by decide), if_neg (by decide),
      if_neg (by decide), if_neg (by decide), if_pos (by decide)]
    rw [← msg_shape]
    show wrapParse Envelope.auth (AuthEnvelope.UnmarshalJSON
      (renderJson (Json.arr [Json.str "AUTH", eventToJson ev]))) = _
    rw [authUnmarshal_event (gjsonArray_render hwf)]
    rfl

lemma renderArr2 (L : String) (b : Json) (rest : List Json) :
    renderJson (Json.arr (Json.str L :: b :: rest)) =
      '[' :: renderStr L ++ ',' :: renderJson b ++ commaItems (rest.map renderJson) ++
        [']'] := by
  show '[' :: renderElems (Json.str L :: b :: rest) ++ [']'] = _
  show '[' :: (renderJson (Json.str L) ++ ',' :: renderElems (b :: rest)) ++ [']'] = _
  rw [renderElemsChunks]
  simp [renderJson, List.append_assoc]

lemma reqMarshal_ast (sub : String) (fs : List Filter) :
    ReqEnvelope.MarshalJSON ⟨sub, fs⟩ =
      renderJson (Json.arr (Json.str "REQ" :: Json.str sub :: fs.map filterToJson)) := by
  rw [renderArr2]
  rw [show (fs.map filterToJson).map renderJson =
    fs.map (fun f => renderJson (filterToJson f)) from by rw [List.map_map]; rfl]
  rfl

lemma roundtrip_req {v : ReqEnvelope} (h : WFReqEnvelope v = true) :
    ParseMessage (ReqEnvelope.MarshalJSON v) = .ok (Envelope.req v) := by
  obtain ⟨sub, fs⟩ := v
  unfold WFReqEnvelope at h
  simp only [Bool.and_eq_true] at h
  obtain ⟨⟨hsub, hne⟩, hall⟩ := h
  cases fs with
  | nil => simp at hne
  | cons f1 fr =>
    have hR : safeStr "REQ" = true := by decide
    have hwfl : WFList (Json.str "REQ" :: Json.str sub :: (f1 :: fr).map filterToJson) =
        true := by
      refine WFList_of_forall (fun x hx => ?_)
      simp only [List.mem_cons] at hx
      rcases hx with rfl | rfl | hx
      · exact hR
      · exact hsub
      · obtain ⟨f, hf, rfl⟩ := List.mem_map.mp hx
        exact WFJson_filterToJson (List.all_eq_true.mp hall f hf)
    rw [reqMarshal_ast, msg_shape, ParseMessage_label _ _ (by decide)]
    rw [if_neg (by decide), if_pos (by decide)]
    rw [← msg_shape]
    have hun : ReqEnvelope.UnmarshalJSON (renderJson
        (Json.arr (Json.str "REQ" :: Json.str sub :: (f1 :: fr).map filterToJson))) =
        .ok ⟨sub, f1 :: fr⟩ := by
      simp only [ReqEnvelope.UnmarshalJSON, gjsonArray_render hwfl]
      have hlen : ¬((Json.str "REQ" :: Json.str sub ::
          (f1 :: fr).map filterToJson).length < 3) := by
        simp [List.length_map]
      rw [if_neg hlen]
      show (match filtersFromJson ((f1 :: fr).map filterToJson) with
        | .ok fs2 => (.ok ⟨jStr ((Json.str "REQ" :: Json.str sub ::
            (f1 :: fr).map filterToJson).getD 1 Json.null), fs2⟩ :
            Except String ReqEnvelope)
        | .error e => .error e) = _
      rw [filtersFromJson_map hall]
      rfl
    rw [hun]
    rfl

lemma countMarshal_ast_filters (sub : String) (fs : List Filter) :
    CountEnvelope.MarshalJSON ⟨sub, fs, none, none⟩ =
      renderJson (Json.arr (Json.str "COUNT" :: Json.str sub :: fs.map filterToJson)) := by
  rw [renderArr2]
  rw [show (fs.map filterToJson).map renderJson =
    fs.map (fun f => renderJson (filterToJson f)) from by rw [List.map_map]; rfl]
  rfl

lemma countMarshal_ast_count (sub : String) (n : Int) :
    CountEnvelope.MarshalJSON ⟨sub, [], some n, none⟩ =
      renderJson (Json.arr [Json.str "COUNT", Json.str sub,
        Json.obj [("count", Json.num n)]]) := by
  rw [renderArr2]
  simp [CountEnvelope.MarshalJSON, commaItems, renderJson, renderFields,
    List.append_assoc]

lemma countMarshal_ast_hll (sub : String) (n : Int) (bytes : List Nat)
    (hlen : bytes.length = 256) :
    CountEnvelope.MarshalJSON ⟨sub, [], some n, some bytes⟩ =
      renderJson (Json.arr [Json.str "COUNT", Json.str sub,
        Json.obj [("count", Json.num n),
          ("hll", Json.str (String.mk (hexEncode bytes)))]]) := by
  have hdata : (String.mk (hexEncode bytes)).data = hexEncode bytes := rfl
  rw [renderArr2]
  simp [CountEnvelope.MarshalJSON, commaItems, renderJson, renderFields, renderStr,
    hllField_eq hlen, hdata, List.append_assoc]

lemma roundtrip_count {v : CountEnvelope} (h : WFCountEnvelope v = true) :
    ParseMessage (CountEnvelope.MarshalJSON v) = .ok (Envelope.count v) := by
  obtain ⟨sub, fs, cnt, hll⟩ := v
  unfold WFCountEnvelope at h
  simp only [Bool.and_eq_true] at h
  obtain ⟨hsub, hrest⟩ := h
  have hC : safeStr "COUNT" = true := by decide
  have hcnt : safeStr "count" = true := by decide
  have hhllk : safeStr "hll" = true := by decide
  cases cnt with
  | none =>
    cases hll with
    | some bytes => simp at hrest
    | none =>
      simp only [Bool.and_eq_true] at hrest
      obtain ⟨hne, hall⟩ := hrest
      cases fs with
      | nil => simp at hne
      | cons f1 fr =>
        have hwfl : WFList (Json.str "COUNT" :: Json.str sub ::
            (f1 :: fr).map filterToJson) = true := by
          refine WFList_of_forall (fun x hx => ?_)
          simp only [List.mem_cons] at hx
          rcases hx with rfl | rfl | hx
          · exact hC
          · exact hsub
          · obtain ⟨f, hf, rfl⟩ := List.mem_map.mp hx
            exact WFJson_filterToJson (List.all_eq_true.mp hall f hf)
        rw [countMarshal_ast_filters, msg_shape, ParseMessage_label _ _ (by decide)]
        rw [if_neg (by decide), if_neg (by decide), if_pos (by decide)]
        rw [← msg_shape]
        have hun : CountEnvelope.UnmarshalJSON (renderJson
            (Json.arr (Json.str "COUNT" :: Json.str sub ::
              (f1 :: fr).map filterToJson))) = .ok ⟨sub, f1 :: fr, none, none⟩ := by
          simp only [CountEnvelope.UnmarshalJSON, gjsonArray_render hwfl]
          have hlen : ¬((Json.str "COUNT" :: Json.str sub ::
              (f1 :: fr).map filterToJson).length < 3) := by
            simp [List.length_map]
          rw [if_neg hlen]
          show (match countResultFromJson (filterToJson f1) with
            | some (cnt2, hll2) =>
              if hll2.length = 512 then
                match hexDecode hll2.data with
                | some bytes => (.ok ⟨jStr (Json.str sub), [], some cnt2, some bytes⟩ :
                    Except String CountEnvelope)
                | none => .error "invalid hll value in COUNT message"
              else .ok ⟨jStr (Json.str sub), [], some cnt2, none⟩
            | none =>
              match filtersFromJson ((f1 :: fr).map filterToJson) with
              | .ok fs2 => .ok ⟨jStr (Json.str sub), fs2, none, none⟩
              | .error e => .error e) = _
          rw [countResult_filter_none, filtersFromJson_map hall]
          rfl
        rw [hun]
        rfl
  | some n =>
    cases hll with
    | none =>
      have hfs : fs = [] := by
        cases fs with
        | nil => rfl
        | cons a b => simp at hrest
      subst hfs
      have hwfl : WFList [Json.str "COUNT", Json.str sub,
          Json.obj [("count", Json.num n)]] = true := by
        simp [WFList, WFJson, WFFields, hC, hsub, hcnt]
      rw [countMarshal_ast_count, msg_shape, ParseMessage_label _ _ (by decide)]
      rw [if_neg (by decide), if_neg (by decide), if_pos (by decide)]
      rw [← msg_shape]
      have hun : CountEnvelope.UnmarshalJSON (renderJson
          (Json.arr [Json.str "COUNT", Json.str sub,
            Json.obj [("count", Json.num n)]])) = .ok ⟨sub, [], some n, none⟩ := by
        simp only [CountEnvelope.UnmarshalJSON, gjsonArray_render hwfl]
        have hlen : ¬(([Json.str "COUNT", Json.str sub,
            Json.obj [("count", Json.num n)]] : List Json).length < 3) := by simp
        rw [if_neg hlen]
        have hcr : countResultFromJson (Json.obj [("count", Json.num n)]) =
            some (n, "") := rfl
        show (match countResultFromJson (Json.obj [("count", Json.num n)]) with
          | some (cnt2, hll2) =>
            if hll2.length = 512 then
              match hexDecode hll2.data with
              | some bytes => (.ok ⟨jStr (Json.str sub), [], some cnt2, some bytes⟩ :
                  Except String CountEnvelope)
              | none => .error "invalid hll value in COUNT message"
            else .ok ⟨jStr (Json.str sub), [], some cnt2, none⟩
          | none =>
            match filtersFromJson [Json.obj [("count", Json.num n)]] with
            | .ok fs2 => .ok ⟨jStr (Json.str sub), fs2, none, none⟩
            | .error e => .error e) = _
        rw [hcr]
        rfl
      rw [hun]
      rfl
    | some bytes =>
      simp only [Bool.and_eq_true, beq_iff_eq] at hrest
      obtain ⟨⟨hemp, hlen256⟩, hlt⟩ := hrest
      have hfs : fs = [] := List.isEmpty_iff.mp hemp
      subst hfs
      have hsafeHex : safeStr (String.mk (hexEncode bytes)) = true := by
        show (hexEncode bytes).all safeChar = true
        exact hexEncode_safe bytes
      have hwfl : WFList [Json.str "COUNT", Json.str sub,
          Json.obj [("count", Json.num n),
            ("hll", Json.str (String.mk (hexEncode bytes)))]] = true := by
        simp [WFList, WFJson, WFFields, hC, hsub, hcnt, hhllk, hsafeHex]
      rw [countMarshal_ast_hll sub n bytes hlen256, msg_shape,
        ParseMessage_label _ _ (by decide)]
      rw [if_neg (by decide), if_neg (by decide), if_pos (by decide)]
      rw [← msg_shape]
      have hun : CountEnvelope.UnmarshalJSON (renderJson
          (Json.arr [Json.str "COUNT", Json.str sub,
            Json.obj [("count", Json.num n),
              ("hll", Json.str (String.mk (hexEncode bytes)))]])) =
          .ok ⟨sub, [], some n, some bytes⟩ := by
        simp only [CountEnvelope.UnmarshalJSON, gjsonArray_render hwfl]
        have hlen : ¬(([Json.str "COUNT", Json.str sub,
            Json.obj [("count", Json.num n),
              ("hll", Json.str (String.mk (hexEncode bytes)))]] : List Json).length < 3) := by
          simp
        rw [if_neg hlen]
        have hcr : countResultFromJson (Json.obj [("count", Json.num n),
            ("hll", Json.str (String.mk (hexEncode bytes)))]) =
            some (n, String.mk (hexEncode bytes)) := rfl
        show (match countResultFromJson (Json.obj [("count", Json.num n),
            ("hll", Json.str (String.mk (hexEncode bytes)))]) with
          | some (cnt2, hll2) =>
            if hll2.length = 512 then
              match hexDecode hll2.data with
              | some bytes2 => (.ok ⟨jStr (Json.str sub), [], some cnt2, some bytes2⟩ :
                  Except String CountEnvelope)
              | none => .error "invalid hll value in COUNT message"
            else .ok ⟨jStr (Json.str sub), [], some cnt2, none⟩
          | none =>
            match filtersFromJson [Json.obj [("count", Json.num n),
                ("hll", Json.str (String.mk (hexEncode bytes)))]] with
            | .ok fs2 => .ok ⟨jStr (Json.str sub), fs2, none, none⟩
            | .error e => .error e) = _
        rw [hcr]
        have h512 : (String.mk (hexEncode bytes)).length = 512 := by
          show (hexEncode bytes).length = 512
          rw [hexEncode_length, hlen256]
        show (if (String.mk (hexEncode bytes)).length = 512 then
            match hexDecode (String.mk (hexEncode bytes)).data with
            | some bytes2 => (.ok ⟨jStr (Json.str sub), [], some n, some bytes2⟩ :
                Except String CountEnvelope)
            | none => .error "invalid hll value in COUNT message"
          else .ok ⟨jStr (Json.str sub), [], some n, none⟩) = _
        rw [if_pos h512]
        have hdec : hexDecode (String.mk (hexEncode bytes)).data = some bytes := by
          show hexDecode (hexEncode bytes) = some bytes
          exact hexDecode_encode bytes (fun b hb => by
            simpa using List.all_eq_true.mp hlt b hb)
        rw [hdec]
        rfl
      rw [hun]
      rfl

lemma commaItems_join (c : List Char) (cs : List (List Char)) :
    commaItems (c :: cs) = ',' :: joinComma (c :: cs) := by
  induction cs generalizing c with
  | nil => simp [commaItems, joinComma]
  | cons d cs' ih =>
    show ',' :: c ++ commaItems (d :: cs') = ',' :: (c ++ ',' :: joinComma (d :: cs'))
    rw [ih d]
    simp [List.append_assoc]

lemma eventMarshal_ast_one (e1 : Event) :
    EventEnvelope.MarshalJSON ⟨none, [e1]⟩ =
      renderJson (Json.arr [Json.str "EVENT", eventToJson e1]) := by
  show '[' :: renderStr "EVENT" ++ ',' ::
    ([] ++ joinComma [renderJson (eventToJson e1)] ++ [']']) = _
  simp [renderJson, renderElems, joinComma, List.append_assoc]

lemma eventMarshal_ast_sub (s : String) (e1 : Event) (er : List Event) :
    EventEnvelope.MarshalJSON ⟨some s, e1 :: er⟩ =
      renderJson (Json.arr (Json.str "EVENT" :: Json.str s :: eventToJson e1 ::
        er.map eventToJson)) := by
  have hmm : (eventToJson e1 :: er.map eventToJson).map renderJson =
      renderJson (eventToJson e1) :: er.map (fun e => renderJson (eventToJson e)) := by
    rw [List.map_cons, List.map_map]
    rfl
  rw [renderArr2, hmm, commaItems_join,
    show renderJson (Json.str s) = renderStr s from rfl]
  show '[' :: renderStr "EVENT" ++ ',' ::
    ((renderStr s ++ (if 0 < (e1 :: er).length then [','] else [])) ++
      joinComma (renderJson (eventToJson e1) ::
        er.map (fun e => renderJson (eventToJson e))) ++ [']']) = _
  rw [if_pos (show 0 < (e1 :: er).length by simp)]
  simp [List.append_assoc]

lemma eventMarshal_ast_multi (e1 e2 : Event) (er : List Event) :
    EventEnvelope.MarshalJSON ⟨none, e1 :: e2 :: er⟩ =
      renderJson (Json.arr (Json.str "EVENT" :: eventToJson e1 :: eventToJson e2 ::
        er.map eventToJson)) := by
  have hmm : (eventToJson e2 :: er.map eventToJson).map renderJson =
      renderJson (eventToJson e2) :: er.map (fun e => renderJson (eventToJson e)) := by
    rw [List.map_cons, List.map_map]
    rfl
  rw [renderArr2, hmm, commaItems_join]
  show '[' :: renderStr "EVENT" ++ ',' ::
    ([] ++ joinComma (renderJson (eventToJson e1) :: renderJson (eventToJson e2) ::
      er.map (fun e => renderJson (eventToJson e))) ++ [']']) = _
  rw [joinComma]
  simp [List.append_assoc]

lemma eventUnmarshal_pair {data : List Char} {e1 : Event}
    (h : gjsonArray data = [Json.str "EVENT", eventToJson e1]) :
    EventEnvelope.UnmarshalJSON data = .ok ⟨none, [e1]⟩ := by
  unfold EventEnvelope.UnmarshalJSON
  rw [h]
  show (match eventFromJson (eventToJson e1) with
    | .ok ev => (.ok ⟨none, [ev]⟩ : Except String EventEnvelope)
    | .error e => .error e) = _
  rw [event_roundTrip e1]

lemma eventUnmarshal_sub {data : List Char} {s : String} {e1 : Event} {er : List Event}
    (h : gjsonArray data =
      Json.str "EVENT" :: Json.str s :: eventToJson e1 :: er.map eventToJson) :
    EventEnvelope.UnmarshalJSON data = .ok ⟨some s, e1 :: er⟩ := by
  unfold EventEnvelope.UnmarshalJSON
  rw [h]
  show (match eventsFromJson (eventToJson e1 :: er.map eventToJson) with
    | .ok evs => (.ok ⟨some s, evs⟩ : Except String EventEnvelope)
    | .error e => .error e) = _
  rw [show eventToJson e1 :: er.map eventToJson = (e1 :: er).map eventToJson from rfl]
  rw [eventsFromJson_map]

lemma eventUnmarshal_multi {data : List Char} {e1 e2 : Event} {er : List Event}
    (h : gjsonArray data =
      Json.str "EVENT" :: eventToJson e1 :: eventToJson e2 :: er.map eventToJson) :
    EventEnvelope.UnmarshalJSON data = .ok ⟨none, e1 :: e2 :: er⟩ := by
  unfold EventEnvelope.UnmarshalJSON
  rw [h]
  show (match eventsFromJson (eventToJson e1 :: eventToJson e2 :: er.map eventToJson) with
    | .ok evs => (.ok ⟨none, evs⟩ : Except String EventEnvelope)
    | .error e => .error e) = _
  rw [show eventToJson e1 :: eventToJson e2 :: er.map eventToJson
    = (e1 :: e2 :: er).map eventToJson from rfl]
  rw [eventsFromJson_map]

lemma roundtrip_event {v : EventEnvelope} (h : WFEventEnvelope v = true) :
    ParseMessage (EventEnvelope.MarshalJSON v) = .ok (Envelope.event v) := by
  obtain ⟨sub, evs⟩ := v
  unfold WFEventEnvelope at h
  simp only [Bool.and_eq_true] at h
  obtain ⟨⟨hsub, hne⟩, hall⟩ := h
  have hE : safeStr "EVENT" = true := by decide
  cases evs with
  | nil => simp at hne
  | cons e1 er =>
    have hallWF : ∀ e ∈ e1 :: er, WFEvent e = true :=
      fun e he => List.all_eq_true.mp hall e he
    cases sub with
    | some s =>
      have hsubs : safeStr s = true := hsub
      have hwfl : WFList (Json.str "EVENT" :: Json.str s :: eventToJson e1 ::
          er.map eventToJson) = true := by
        refine WFList_of_forall (fun x hx => ?_)
        simp only [List.mem_cons] at hx
        rcases hx with rfl | rfl | rfl | hx
        · exact hE
        · exact hsubs
        · exact WFJson_eventToJson (hallWF e1 (by simp))
        · obtain ⟨e, he, rfl⟩ := List.mem_map.mp hx
          exact WFJson_eventToJson (hallWF e (by simp [he]))
      rw [eventMarshal_ast_sub, msg_shape, ParseMessage_label _ _ (by decide)]
      rw [if_pos (by decide)]
      rw [← msg_shape]
      rw [eventUnmarshal_sub (gjsonArray_render hwfl)]
      rfl
    | none =>
      cases er with
      | nil =>
        have hwfl : WFList [Json.str "EVENT", eventToJson e1] = true := by
          simp [WFList, hE, show WFJson (Json.str "EVENT") = true from hE,
            WFJson_eventToJson (hallWF e1 (by simp))]
        rw [eventMarshal_ast_one, msg_shape, ParseMessage_label _ _ (by decide)]
        rw [if_pos (by decide)]
        rw [← msg_shape]
        rw [eventUnmarshal_pair (gjsonArray_render hwfl)]
        rfl
      | cons e2 er2 =>
        have hwfl : WFList (Json.str "EVENT" :: eventToJson e1 :: eventToJson e2 ::
            er2.map eventToJson) = true := by
          refine WFList_of_forall (fun x hx => ?_)
          simp only [List.mem_cons] at hx
          rcases hx with rfl | rfl | rfl | hx
          · exact hE
          · exact WFJson_eventToJson (hallWF e1 (by simp))
          · exact WFJson_eventToJson (hallWF e2 (by simp))
          · obtain ⟨e, he, rfl⟩ := List.mem_map.mp hx
            exact WFJson_eventToJson (hallWF e (by simp [he]))
        rw [eventMarshal_ast_multi, msg_shape, ParseMessage_label _ _ (by decide)]
        rw [if_pos (by decide)]
        rw [← msg_shape]
        rw [eventUnmarshal_multi (gjsonArray_render hwfl)]
        rfl

end EnvelopeRoundTrip

/-- C2: for every envelope value of a supported variant with well-formed
fields, `ParseMessage` applied to the bytes produced by its
`MarshalJSON` succeeds and returns an envelope equal to the original
(serialize-then-parse round-trip). -/
theorem C2_envelope_roundtrip (e : Envelope) (hwf : WFEnvelope e = true) :
    ParseMessage (Envelope.MarshalJSON e) = .ok e := by
  cases e with
  | event v => exact roundtrip_event hwf
  | req v => exact roundtrip_req hwf
  | count v => exact roundtrip_count hwf
  | notice s => exact roundtrip_notice hwf
  | eose s => exact roundtrip_eose hwf
  | close s => exact roundtrip_close hwf
  | closed v => exact roundtrip_closed hwf
  | ok v => exact roundtrip_ok hwf
  | auth v => exact roundtrip_auth hwf

/-- Witness for C2 at a concrete envelope. -/
theorem C2_witness :
    WFEnvelope (Envelope.notice "hello") = true ∧
    ParseMessage (Envelope.MarshalJSON (Envelope.notice "hello")) =
      .ok (Envelope.notice "hello") :=
  ⟨by decide, C2_envelope_roundtrip (Envelope.notice "hello") (by decide)⟩

section DispatchLemmas

lemma firstComma_none {msg : List Char} (h : ∀ c ∈ msg, c ≠ ',') :
    firstComma? msg = none := by
  induction msg with
  | nil => rfl
  | cons c t ih =>
    rw [firstComma?, if_neg (h c (by simp))]
    rw [ih (fun x hx => h x (by simp [hx]))]
    rfl

end DispatchLemmas

/-- C8: `ParseMessage` returns `ErrMessageUnknown` for a message with no
comma, and for one whose bytes before the first comma contain none of
the nine labels; when the bytes before the first comma contain a label
(substring match, tried in the source order EVENT, REQ, COUNT, NOTICE,
EOSE, OK, AUTH, CLOSED, CLOSE), the whole message is dispatched to that
variant's `UnmarshalJSON` and a failure there is wrapped in
`ErrMessageParse` (`wrapParse`). -/
theorem C8_parse_dispatch (msg : List Char) :
    ((∀ c ∈ msg, c ≠ ',') → ParseMessage msg = .error ParseErr.unknown) ∧
    (∀ i, firstComma? msg = some i →
      ((containsSub (msg.take i) "EVENT".data = false ∧
        containsSub (msg.take i) "REQ".data = false ∧
        containsSub (msg.take i) "COUNT".data = false ∧
        containsSub (msg.take i) "NOTICE".data = false ∧
        containsSub (msg.take i) "EOSE".data = false ∧
        containsSub (msg.take i) "OK".data = false ∧
        containsSub (msg.take i) "AUTH".data = false ∧
        containsSub (msg.take i) "CLOSED".data = false ∧
        containsSub (msg.take i) "CLOSE".data = false) →
        ParseMessage msg = .error ParseErr.unknown) ∧
      (containsSub (msg.take i) "EVENT".data = true →
        ParseMessage msg = wrapParse Envelope.event (EventEnvelope.UnmarshalJSON msg)) ∧
      (containsSub (msg.take i) "EVENT".data = false →
        containsSub (msg.take i) "REQ".data = true →
        ParseMessage msg = wrapParse Envelope.req (ReqEnvelope.UnmarshalJSON msg)) ∧
      (containsSub (msg.take i) "EVENT".data = false →
        containsSub (msg.take i) "REQ".data = false →
        containsSub (msg.take i) "COUNT".data = true →
        ParseMessage msg = wrapParse Envelope.count (CountEnvelope.UnmarshalJSON msg)) ∧
      (containsSub (msg.take i) "EVENT".data = false →
        containsSub (msg.take i) "REQ".data = false →
        containsSub (msg.take i) "COUNT".data = false →
        containsSub (msg.take i) "NOTICE".data = true →
        ParseMessage msg = wrapParse Envelope.notice (NoticeEnvelope.UnmarshalJSON msg)) ∧
      (containsSub (msg.take i) "EVENT".data = false →
        containsSub (msg.take i) "REQ".data = false →
        containsSub (msg.take i) "COUNT".data = false →
        containsSub (msg.take i) "NOTICE".data = false →
        containsSub (msg.take i) "EOSE".data = true →
        ParseMessage msg = wrapParse Envelope.eose (EOSEEnvelope.UnmarshalJSON msg)) ∧
      (containsSub (msg.take i) "EVENT".data = false →
        containsSub (msg.take i) "REQ".data = false →
        containsSub (msg.take i) "COUNT".data = false →
        containsSub (msg.take i) "NOTICE".data = false →
        containsSub (msg.take i) "EOSE".data = false →
        containsSub (msg.take i) "OK".data = true →
        ParseMessage msg = wrapParse Envelope.ok (OKEnvelope.UnmarshalJSON msg)) ∧
      (containsSub (msg.take i) "EVENT".data = false →
        containsSub (msg.take i) "REQ".data = false →
        containsSub (msg.take i) "COUNT".data = false →
        containsSub (msg.take i) "NOTICE".data = false →
        containsSub (msg.take i) "EOSE".data = false →
        containsSub (msg.take i) "OK".data = false →
        containsSub (msg.take i) "AUTH".data = true →
        ParseMessage msg = wrapParse Envelope.auth (AuthEnvelope.UnmarshalJSON msg)) ∧
      (containsSub (msg.take i) "EVENT".data = false →
        containsSub (msg.take i) "REQ".data = false →
        containsSub (msg.take i) "COUNT".data = false →
        containsSub (msg.take i) "NOTICE".data = false →
        containsSub (msg.take i) "EOSE".data = false →
        containsSub (msg.take i) "OK".data = false →
        containsSub (msg.take i) "AUTH".data = false →
        containsSub (msg.take i) "CLOSED".data = true →
        ParseMessage msg = wrapParse Envelope.closed (ClosedEnvelope.UnmarshalJSON msg)) ∧
      (containsSub (msg.take i) "EVENT".data = false →
        containsSub (msg.take i) "REQ".data = false →
        containsSub (msg.take i) "COUNT".data = false →
        containsSub (msg.take i) "NOTICE".data = false →
        containsSub (msg.take i) "EOSE".data = false →
        containsSub (msg.take i) "OK".data = false →
        containsSub (msg.take i) "AUTH".data = false →
        containsSub (msg.take i) "CLOSED".data = false →
        containsSub (msg.take i) "CLOSE".data = true →
        ParseMessage msg = wrapParse Envelope.close (CloseEnvelope.UnmarshalJSON msg))) := by
  constructor
  · intro h
    rw [ParseMessage, firstComma_none h]
  · intro i hi
    have hP : ParseMessage msg =
        (if containsSub (msg.take i) "EVENT".data then
          wrapParse Envelope.event (EventEnvelope.UnmarshalJSON msg)
        else if containsSub (msg.take i) "REQ".data then
          wrapParse Envelope.req (ReqEnvelope.UnmarshalJSON msg)
        else if containsSub (msg.take i) "COUNT".data then
          wrapParse Envelope.count (CountEnvelope.UnmarshalJSON msg)
        else if containsSub (msg.take i) "NOTICE".data then
          wrapParse Envelope.notice (NoticeEnvelope.UnmarshalJSON msg)
        else if containsSub (msg.take i) "EOSE".data then
          wrapParse Envelope.eose (EOSEEnvelope.UnmarshalJSON msg)
        else if containsSub (msg.take i) "OK".data then
          wrapParse Envelope.ok (OKEnvelope.UnmarshalJSON msg)
        else if containsSub (msg.take i) "AUTH".data then
          wrapParse Envelope.auth (AuthEnvelope.UnmarshalJSON msg)
        else if containsSub (msg.take i) "CLOSED".data then
          wrapParse Envelope.closed (ClosedEnvelope.UnmarshalJSON msg)
        else if containsSub (msg.take i) "CLOSE".data then
          wrapParse Envelope.close (CloseEnvelope.UnmarshalJSON msg)
        else .error ParseErr.unknown) := by
      rw [ParseMessage, hi]
    refine ⟨?_, ?_, ?_, ?_, ?_, ?_, ?_, ?_, ?_, ?_⟩
    · intro hs
      obtain ⟨h1, h2, h3, h4, h5, h6, h7, h8, h9⟩ := hs
      rw [hP, if_neg (by simp [h1]), if_neg (by simp [h2]), if_neg (by simp [h3]),
        if_neg (by simp [h4]), if_neg (by simp [h5]), if_neg (by simp [h6]),
        if_neg (by simp [h7]), if_neg (by simp [h8]), if_neg (by simp [h9])]
    · intro h1
      rw [hP, if_pos h1]
    · intro h1 h2
      rw [hP, if_neg (by simp [h1]), if_pos h2]
    · intro h1 h2 h3
      rw [hP, if_neg (by simp [h1]), if_neg (by simp [h2]), if_pos h3]
    · intro h1 h2 h3 h4
      rw [hP, if_neg (by simp [h1]), if_neg (by simp [h2]), if_neg (by simp [h3]),
        if_pos h4]
    · intro h1 h2 h3 h4 h5
      rw [hP, if_neg (by simp [h1]), if_neg (by simp [h2]), if_neg (by simp [h3]),
        if_neg (by simp [h4]), if_pos h5]
    · intro h1 h2 h3 h4 h5 h6
      rw [hP, if_neg (by simp [h1]), if_neg (by simp [h2]), if_neg (by simp [h3]),
        if_neg (by simp [h4]), if_neg (by simp [h5]), if_pos h6]
    · intro h1 h2 h3 h4 h5 h6 h7
      rw [hP, if_neg (by simp [h1]), if_neg (by simp [h2]), if_neg (by simp [h3]),
        if_neg (by simp [h4]), if_neg (by simp [h5]), if_neg (by simp [h6]),
        if_pos h7]
    · intro h1 h2 h3 h4 h5 h6 h7 h8
      rw [hP, if_neg (by simp [h1]), if_neg (by simp [h2]), if_neg (by simp [h3]),
        if_neg (by simp [h4]), if_neg (by simp [h5]), if_neg (by simp [h6]),
        if_neg (by simp [h7]), if_pos h8]
    · intro h1 h2 h3 h4 h5 h6 h7 h8 h9
      rw [hP, if_neg (by simp [h1]), if_neg (by simp [h2]), if_neg (by simp [h3]),
        if_neg (by simp [h4]), if_neg (by simp [h5]), if_neg (by simp [h6]),
        if_neg (by simp [h7]), if_neg (by simp [h8]), if_pos h9]

/-- Witness for C8: a comma-less message and an unknown label are
rejected, and a message whose label contains EVENT is dispatched. -/
theorem C8_witness :
    ParseMessage ('h' :: 'i' :: []) = .error ParseErr.unknown ∧
    ParseMessage ('x' :: ',' :: '1' :: []) = .error ParseErr.unknown ∧
    ParseMessage ('E' :: 'V' :: 'E' :: 'N' :: 'T' :: ',' :: []) =
      wrapParse Envelope.event
        (EventEnvelope.UnmarshalJSON ('E' :: 'V' :: 'E' :: 'N' :: 'T' :: ',' :: [])) :=
  ⟨(C8_parse_dispatch _).1 (by decide),
   (((C8_parse_dispatch _).2 1 (by decide)).1) (by decide),
   (((C8_parse_dispatch _).2 5 (by decide)).2.1) (by decide)⟩

/-- C9: on a COUNT response whose third element decodes to a count `n`
and an HLL string `h`, `CountEnvelope.UnmarshalJSON` succeeds with
`Count = n` and no HLL when `h` is not exactly 512 chars; decodes the
512 hex chars into exactly 256 bytes when they are valid hex; and
errors when the 512 chars are not valid hex. -/
theorem C9_count_hll (data : List Char) (l s : Json) (fields : List (String × Json))
    (n : Int) (h : String)
    (harr : gjsonArray data = [l, s, Json.obj fields])
    (hcount : objLookup fields "count" = some (Json.num n))
    (hhll : objLookup fields "hll" = some (Json.str h)) :
    (h.length ≠ 512 →
      CountEnvelope.UnmarshalJSON data = .ok ⟨jStr s, [], some n, none⟩) ∧
    (h.length = 512 →
      (∀ bytes, hexDecode h.data = some bytes →
        CountEnvelope.UnmarshalJSON data = .ok ⟨jStr s, [], some n, some bytes⟩ ∧
        bytes.length = 256) ∧
      (hexDecode h.data = none →
        CountEnvelope.UnmarshalJSON data =
          .error "invalid hll value in COUNT message")) := by
  have hcr : countResultFromJson (Json.obj fields) = some (n, h) := by
    show (match objLookup fields "count" with
      | some (.num n2) =>
        match objLookup fields "hll" with
        | some (.str h2) => some (n2, h2)
        | none => some (n2, "")
        | some _ => none
      | _ => none) = some (n, h)
    rw [hcount, hhll]
  have hred : CountEnvelope.UnmarshalJSON data =
      (if h.length = 512 then
        match hexDecode h.data with
        | some bytes => .ok ⟨jStr s, [], some n, some bytes⟩
        | none => .error "invalid hll value in COUNT message"
      else .ok ⟨jStr s, [], some n, none⟩) := by
    simp only [CountEnvelope.UnmarshalJSON, harr]
    show (match countResultFromJson (Json.obj fields) with
      | some (cnt2, hll2) =>
        if hll2.length = 512 then
          match hexDecode hll2.data with
          | some bytes => (.ok ⟨jStr s, [], some cnt2, some bytes⟩ :
              Except String CountEnvelope)
          | none => .error "invalid hll value in COUNT message"
        else .ok ⟨jStr s, [], some cnt2, none⟩
      | none =>
        match filtersFromJson ([l, s, Json.obj fields].drop 2) with
        | .ok fs2 => .ok ⟨jStr s, fs2, none, none⟩
        | .error e => .error e) = _
    rw [hcr]
  constructor
  · intro hne
    rw [hred, if_neg hne]
  · intro h512
    constructor
    · intro bytes hb
      constructor
      · rw [hred, if_pos h512, hb]
      · have hlen := hexDecode_length h.data bytes hb
        have hdl : h.data.length = 512 := h512
        omega
    · intro hb
      rw [hred, if_pos h512, hb]

/-- Witness for C9 at a concrete short-HLL COUNT message. -/
theorem C9_witness :
    CountEnvelope.UnmarshalJSON (renderJson (Json.arr [Json.str "COUNT", Json.str "sub",
      Json.obj [("count", Json.num 5), ("hll", Json.str "zz")]])) =
      .ok ⟨"sub", [], some 5, none⟩ :=
  (C9_count_hll
    (renderJson (Json.arr [Json.str "COUNT", Json.str "sub",
      Json.obj [("count", Json.num 5), ("hll", Json.str "zz")]]))
    (Json.str "COUNT") (Json.str "sub")
    [("count", Json.num 5), ("hll", Json.str "zz")] 5 "zz"
    (gjsonArray_render (by decide)) (by rfl) (by rfl)).1 (by decide)

end Nostr
